import Mathlib

/-!
# Rmdb: record file manager and disk manager

A shallow embedding of `src/record/rm_file_handle.cpp` and of
`src/storage/disk_manager.cpp`: page-number allocation, file lifecycle, the
open-file table, page I/O and the log stream.

Modelling conventions.

* A page is seen through the page view: its header, its occupancy bitmap and
  its slots. Slot `i` is the byte sequence that `get_slot(i)` points at; bit `i`
  is what `Bitmap::is_set(bitmap, i)` reads. For the slots of a page and the
  bits of its bitmap these maps are the page. The code checks neither a slot
  number nor a bit position: an address outside them is resolved through the
  layout of the page buffer (header, bitmap, slot array), so that a write before
  the slot array lands on the bitmap and on the page header, and a bit past the
  bitmap is a bit of a slot.
* The C `int` fields of the record file (`num_pages`, `num_records`, page and
  slot numbers) are `Int`; values are taken to stay inside the range of `int`.
  The page counters of the disk manager and the `int` that `get_file_size`
  returns wrap around at 32 bits.
* A call either returns or throws. Every operation yields the pair of its
  outcome and the state it leaves behind, so that what a throwing call has
  already done to the state stays visible.
* The buffer pool is an external collaborator: its three calls (`fetch_page`,
  `new_page`, `unpin_page`) are modelled from the interface the spec gives.
* The operating system is an external collaborator as well: the system calls of
  the disk manager act on an explicit state of names, inodes and descriptors.
-/

namespace Rmdb

/-! ## Data model -/

/-- One byte of a record or of a page. -/
abbrev Byte := UInt8

/-- Modelled from the spec: the constant `INVALID_PAGE_ID` is declared outside the
sources at hand. The spec has it as the sentinel for "no page", outside the
page-number space of non-negative integers. -/
def INVALID_PAGE_ID : Int := -1

/-- Value that a C `int` takes when it is given the integer `x`: `x` itself when it
fits 32 bits, and otherwise `x` wrapped around in two's complement. -/
def wrap_int32 (x : Int) : Int :=
  (x + 2147483648) % 4294967296 - 2147483648

/-- Record identifier `Rid`: page number and slot number, both C `int`. -/
structure Rid where
  page_no : Int
  slot_no : Int
deriving DecidableEq, Repr

/-- Record object `RmRecord` returned by `get_record`: a private copy of `size` bytes. -/
structure RmRecord where
  data : List Byte
  size : Nat
deriving DecidableEq, Repr

/-- File header `RmFileHdr`. -/
structure RmFileHdr where
  record_size : Nat
  num_pages : Int
  num_records_per_page : Int
  first_free_page_no : Int
  bitmap_size : Int
deriving DecidableEq, Repr

/-- Page header `RmPageHdr`. -/
structure RmPageHdr where
  next_free_page_no : Int
  num_records : Int
deriving DecidableEq, Repr

/-- One page of the file as the buffer pool holds it, seen through the page view
(`page_hdr`, `bitmap`, `slots`), with the pool's bookkeeping for it. -/
structure Page where
  page_hdr : RmPageHdr
  bitmap : Int → Bool
  slots : Int → List Byte
  pin_count : Nat
  is_dirty : Bool

/-- A call made to the buffer pool. -/
inductive BpmCall where
  | fetch_page (page_no : Int)
  | new_page (page_no : Int)
  | unpin_page (page_no : Int) (is_dirty : Bool)
deriving DecidableEq, Repr

/-- State of one `RmFileHandle` together with the part of its collaborators it
acts on: the pages of its file in the buffer pool, the disk manager's page
counter for its file descriptor (`fd2pageno_[fd_]`, a counter that starts at
zero and is only ever incremented), and the calls made to the buffer pool so
far, oldest first. -/
structure RmFileHandle where
  file_hdr : RmFileHdr
  pages : Int → Page
  next_page_no : Nat
  bpm_calls : List BpmCall

/-- Errors thrown by the record file manager. -/
inductive RmError where
  | PageNotExistError (page_no : Int)
deriving DecidableEq, Repr

/-- Outcome of a call together with the state it leaves. -/
abbrev Outcome (α : Type) := Except RmError α × RmFileHandle

/-! ## Bitmap helper -/

namespace Bitmap

/-- Modelled from the spec: `Bitmap::init` is declared outside the sources at hand.
The spec has page creation initialise the bitmap to all-clear. -/
def init (_bm : Int → Bool) (_size : Int) : Int → Bool :=
  fun _ => false

/-- Modelled from the spec: `Bitmap::set` is declared outside the sources at hand.
On a bit `pos` of the bitmap, it sets that bit and no other. -/
def set (bm : Int → Bool) (pos : Int) : Int → Bool :=
  Function.update bm pos true

/-- Modelled from the spec: `Bitmap::reset` is declared outside the sources at hand.
On a bit `pos` of the bitmap, it clears that bit and no other. -/
def reset (bm : Int → Bool) (pos : Int) : Int → Bool :=
  Function.update bm pos false

/-- Modelled from the spec: `Bitmap::first_bit` is declared outside the sources at
hand. The spec has it scan the first `max_n` bits for the lowest-numbered bit
equal to `bit`; a scan that finds none ends at `max_n`. -/
def first_bit (bit : Bool) (bm : Int → Bool) (max_n : Int) : Int :=
  match (List.range max_n.toNat).find? (fun (i : Nat) => bm (i : Int) == bit) with
  | some i => (i : Int)
  | none => max_n

/-- Modelled from the spec: the helper `Bitmap` is declared outside the sources at
hand. Bit `i` of a bitmap is the bit of weight `128 >> (i % 8)` of its byte
`i / 8`; this is byte `j` of the bitmap, read off its eight bits. -/
def get_byte (bm : Int → Bool) (j : Int) : Byte :=
  UInt8.ofNat ((List.range 8).foldl
    (fun acc (k : Nat) => 2 * acc + (if bm (8 * j + (k : Int)) then 1 else 0)) 0)

/-- The bitmap after byte `j` is overwritten with `b`: its bits `8 * j .. 8 * j + 7`
become the bits of `b`, the most significant first. -/
def put_byte (bm : Int → Bool) (j : Int) (b : Byte) : Int → Bool :=
  fun pos =>
    if 8 * j ≤ pos ∧ pos < 8 * j + 8 then b.toNat.testBit (7 - (pos - 8 * j).toNat) else bm pos

/-- The byte `b` with its bit of weight `128 >> k` set (`v = true`) or cleared. -/
def with_bit (b : Byte) (k : Nat) (v : Bool) : Byte :=
  if v then b ||| ((128 : Byte) >>> k.toUInt8) else b &&& ~~~ ((128 : Byte) >>> k.toUInt8)

end Bitmap

/-- Byte `k` of a 32-bit `int` in memory, byte 0 the least significant. -/
def int_byte (v : Int) (k : Nat) : Byte :=
  UInt8.ofNat ((v % 4294967296).toNat / 256 ^ k % 256)

/-- The 32-bit `int` `v` after byte `k` of it is overwritten with `b`. -/
def set_int_byte (v : Int) (k : Nat) (b : Byte) : Int :=
  wrap_int32 (v % 4294967296 - ((int_byte v k).toNat : Int) * 256 ^ k + (b.toNat : Int) * 256 ^ k)

/-! ## Buffer pool interface and page view -/

/-- The C library's `memcpy(dst, src, n)` on a slot: the first `n` bytes of `dst`
become the first `n` bytes of `src`. -/
def memcpy (dst src : List Byte) (n : Nat) : List Byte :=
  src.take n ++ dst.drop n

/-- Modelled from the spec: the constructor `RmRecord(size, data)` is declared
outside the sources at hand. It copies `size` bytes out of the slot. -/
def RmRecord.ofSlot (size : Nat) (slot : List Byte) : RmRecord :=
  { data := slot.take size, size := size }

/-! ### Layout of the page view

Modelled from the spec: the class `RmPageHandle`, the struct `RmPageHdr` and the
helper `Bitmap` are declared outside the sources at hand. The spec has the page
view split the page buffer into the page header, the bitmap of `bitmap_size`
bytes and the array of slots, in this order, slot `i` being the `record_size`
bytes from byte `i * record_size` of the array. What the spec leaves open is
fixed as follows: the header is two 32-bit little-endian `int`s,
`next_free_page_no` and then `num_records`, and bit `i` of the bitmap is the bit
of weight `128 >> (i % 8)` of its byte `i / 8`.

The code checks no slot number and no bit position. For a slot of the page the
bytes, and for a slot number of the page the bit, are the ones the maps `slots`
and `bitmap` hold. Any other address is resolved through the layout: a byte is
named by its offset `o` from the start of the slot array, so that the bitmap
holds the offsets `-bitmap_size ≤ o < 0`, `num_records` the four before them and
`next_free_page_no` the four before those. Bytes before the page header or
beyond a slot's stored bytes are not part of the view: a write there changes
nothing in it and a read yields 0. -/

namespace Page

/-- Modelled from the spec: the byte at offset `o` from the start of the slot array. -/
def peek (hdr : RmFileHdr) (pg : Page) (o : Int) : Byte :=
  if 0 ≤ o then
    (pg.slots (o / (hdr.record_size : Int))).getD (o % (hdr.record_size : Int)).toNat 0
  else if -hdr.bitmap_size ≤ o then
    Bitmap.get_byte pg.bitmap (hdr.bitmap_size + o)
  else if -hdr.bitmap_size - 4 ≤ o then
    int_byte pg.page_hdr.num_records (o + hdr.bitmap_size + 4).toNat
  else if -hdr.bitmap_size - 8 ≤ o then
    int_byte pg.page_hdr.next_free_page_no (o + hdr.bitmap_size + 8).toNat
  else 0

/-- Modelled from the spec: the page after the byte at offset `o` from the start of
the slot array is overwritten with `b`. -/
def poke (hdr : RmFileHdr) (pg : Page) (o : Int) (b : Byte) : Page :=
  if 0 ≤ o then
    let i := o / (hdr.record_size : Int)
    let k := (o % (hdr.record_size : Int)).toNat
    { pg with slots := Function.update pg.slots i ((pg.slots i).set k b) }
  else if -hdr.bitmap_size ≤ o then
    { pg with bitmap := Bitmap.put_byte pg.bitmap (hdr.bitmap_size + o) b }
  else if -hdr.bitmap_size - 4 ≤ o then
    { pg with page_hdr := { pg.page_hdr with
        num_records := set_int_byte pg.page_hdr.num_records (o + hdr.bitmap_size + 4).toNat b } }
  else if -hdr.bitmap_size - 8 ≤ o then
    { pg with page_hdr := { pg.page_hdr with
        next_free_page_no :=
          set_int_byte pg.page_hdr.next_free_page_no (o + hdr.bitmap_size + 8).toNat b } }
  else pg

/-- Modelled from the spec: `Bitmap::set` (`v = true`) and `Bitmap::reset` at a
position that is not a bit of the bitmap. A position past the bitmap is a bit
of byte `pos / 8 - bitmap_size` of the slot array. A negative multiple of 8 is
the bit of weight 128 of a byte before the bitmap; for any other negative
position the shift count is out of range, which C++ leaves undefined, and the
page is left as it is. -/
def put_bit_outside (hdr : RmFileHdr) (pg : Page) (pos : Int) (v : Bool) : Page :=
  if 0 ≤ pos then
    pg.poke hdr (pos / 8 - hdr.bitmap_size)
      (Bitmap.with_bit (pg.peek hdr (pos / 8 - hdr.bitmap_size)) (pos % 8).toNat v)
  else if pos % 8 = 0 then
    pg.poke hdr (pos / 8 - hdr.bitmap_size)
      (Bitmap.with_bit (pg.peek hdr (pos / 8 - hdr.bitmap_size)) 0 v)
  else pg

end Page

namespace RmFileHandle

/-- Replace the page stored under `page_no`. -/
def setPage (fh : RmFileHandle) (page_no : Int) (pg : Page) : RmFileHandle :=
  { fh with pages := Function.update fh.pages page_no pg }

/-- Modelled from the spec: `BufferPoolManager::fetch_page` is declared outside the
sources at hand. It returns the buffer of the page, pinned. -/
def bpm_fetch_page (fh : RmFileHandle) (page_no : Int) : RmFileHandle :=
  let pg := fh.pages page_no
  { fh.setPage page_no { pg with pin_count := pg.pin_count + 1 } with
    bpm_calls := fh.bpm_calls ++ [BpmCall.fetch_page page_no] }

/-- Modelled from the spec: `BufferPoolManager::new_page` is declared outside the
sources at hand. It takes a fresh page number from the disk manager's counter
(`allocate_page`, which returns the counter and increments it) and returns the
buffer for that page, pinned. -/
def bpm_new_page (fh : RmFileHandle) : Int × RmFileHandle :=
  let page_no : Int := (fh.next_page_no : Int)
  let pg := fh.pages page_no
  (page_no,
    { fh.setPage page_no { pg with pin_count := pg.pin_count + 1 } with
      next_page_no := fh.next_page_no + 1
      bpm_calls := fh.bpm_calls ++ [BpmCall.new_page page_no] })

/-- Modelled from the spec: `BufferPoolManager::unpin_page` is declared outside the
sources at hand. It releases one pin on the page and records the dirty flag
the caller declares. -/
def bpm_unpin_page (fh : RmFileHandle) (page_no : Int) (is_dirty : Bool) : RmFileHandle :=
  let pg := fh.pages page_no
  { fh.setPage page_no
      { pg with pin_count := pg.pin_count - 1, is_dirty := pg.is_dirty || is_dirty } with
    bpm_calls := fh.bpm_calls ++ [BpmCall.unpin_page page_no is_dirty] }

/-- Page view, write of the slot `slot_no ≥ 0`: the slot holds `buf`. -/
def write_slot (fh : RmFileHandle) (page_no slot_no : Int) (buf : List Byte) : RmFileHandle :=
  let pg := fh.pages page_no
  fh.setPage page_no
    { pg with slots := Function.update pg.slots slot_no
                (memcpy (pg.slots slot_no) buf fh.file_hdr.record_size) }

/-- Page view, slot write: `memcpy(page_handle.get_slot(slot_no), buf, record_size)`.
For a negative slot number the bytes land before the slot array, on the bitmap
and the page header. -/
def memcpy_slot (fh : RmFileHandle) (page_no slot_no : Int) (buf : List Byte) : RmFileHandle :=
  if 0 ≤ slot_no then
    fh.write_slot page_no slot_no buf
  else
    fh.setPage page_no
      ((buf.take fh.file_hdr.record_size).enum.foldl
        (fun pg kb =>
          pg.poke fh.file_hdr (slot_no * (fh.file_hdr.record_size : Int) + (kb.1 : Int)) kb.2)
        (fh.pages page_no))

/-- Page view, slot read: the bytes at `page_handle.get_slot(slot_no)`. For a negative
slot number they are `record_size` bytes before the slot array. -/
def get_slot (fh : RmFileHandle) (page_no slot_no : Int) : List Byte :=
  if 0 ≤ slot_no then
    (fh.pages page_no).slots slot_no
  else
    (List.range fh.file_hdr.record_size).map
      (fun (k : Nat) =>
        (fh.pages page_no).peek fh.file_hdr
          (slot_no * (fh.file_hdr.record_size : Int) + (k : Int)))

/-- Page view, bitmap write: replaces `page_handle.bitmap`. -/
def set_bitmap (fh : RmFileHandle) (page_no : Int) (bm : Int → Bool) : RmFileHandle :=
  let pg := fh.pages page_no
  fh.setPage page_no { pg with bitmap := bm }

/-- The position `pos` is a bit of the bitmap of a page: one of the bits of its
`bitmap_size` bytes, which hold a bit for every slot of the page. -/
def bit_exists (fh : RmFileHandle) (pos : Int) : Prop :=
  0 ≤ pos ∧ (pos < fh.file_hdr.num_records_per_page ∨ pos < 8 * fh.file_hdr.bitmap_size)

instance (fh : RmFileHandle) (pos : Int) : Decidable (fh.bit_exists pos) :=
  inferInstanceAs (Decidable
    (0 ≤ pos ∧ (pos < fh.file_hdr.num_records_per_page ∨ pos < 8 * fh.file_hdr.bitmap_size)))

/-- Page view, `Bitmap::set(page_handle.bitmap, pos)`. -/
def bitmap_set (fh : RmFileHandle) (page_no pos : Int) : RmFileHandle :=
  if fh.bit_exists pos then
    fh.set_bitmap page_no (Bitmap.set (fh.pages page_no).bitmap pos)
  else
    fh.setPage page_no ((fh.pages page_no).put_bit_outside fh.file_hdr pos true)

/-- Page view, `Bitmap::reset(page_handle.bitmap, pos)`. -/
def bitmap_reset (fh : RmFileHandle) (page_no pos : Int) : RmFileHandle :=
  if fh.bit_exists pos then
    fh.set_bitmap page_no (Bitmap.reset (fh.pages page_no).bitmap pos)
  else
    fh.setPage page_no ((fh.pages page_no).put_bit_outside fh.file_hdr pos false)

/-- Page view, header write: replaces `*page_handle.page_hdr`. -/
def set_page_hdr (fh : RmFileHandle) (page_no : Int) (hdr : RmPageHdr) : RmFileHandle :=
  let pg := fh.pages page_no
  fh.setPage page_no { pg with page_hdr := hdr }

/-- File header write: `file_hdr_.first_free_page_no = v`. -/
def set_first_free (fh : RmFileHandle) (v : Int) : RmFileHandle :=
  { fh with file_hdr := { fh.file_hdr with first_free_page_no := v } }

/-! ## Operations of `RmFileHandle` -/

/-- Source `RmFileHandle::fetch_page_handle`. The handle is identified by its page number. -/
def fetch_page_handle (fh : RmFileHandle) (page_no : Int) : Outcome Int :=
  if page_no < 0 ∨ page_no ≥ fh.file_hdr.num_pages then
    (.error (RmError.PageNotExistError page_no), fh)
  else
    (.ok page_no, fh.bpm_fetch_page page_no)

/-- Source `RmFileHandle::create_new_page_handle`. -/
def create_new_page_handle (fh : RmFileHandle) : Outcome Int :=
  let (page_no, fh1) := fh.bpm_new_page
  let fh2 := fh1.set_bitmap page_no
    (Bitmap.init (fh1.pages page_no).bitmap fh1.file_hdr.bitmap_size)
  let fh3 := fh2.set_page_hdr page_no { (fh2.pages page_no).page_hdr with num_records := 0 }
  let fh4 := fh3.set_page_hdr page_no
    { (fh3.pages page_no).page_hdr with next_free_page_no := fh3.file_hdr.first_free_page_no }
  let fh5 := fh4.set_first_free page_no
  let fh6 := { fh5 with file_hdr := { fh5.file_hdr with num_pages := fh5.file_hdr.num_pages + 1 } }
  (.ok page_no, fh6)

/-- Source `RmFileHandle::create_page_handle`. -/
def create_page_handle (fh : RmFileHandle) : Outcome Int :=
  if fh.file_hdr.first_free_page_no = INVALID_PAGE_ID then
    fh.create_new_page_handle
  else
    fh.fetch_page_handle fh.file_hdr.first_free_page_no

/-- Source `RmFileHandle::release_page_handle`. -/
def release_page_handle (fh : RmFileHandle) (page_no : Int) : RmFileHandle :=
  let fh1 := fh.set_page_hdr page_no
    { (fh.pages page_no).page_hdr with next_free_page_no := fh.file_hdr.first_free_page_no }
  fh1.set_first_free page_no

/-- Source `RmFileHandle::get_record`. -/
def get_record (fh : RmFileHandle) (rid : Rid) : Outcome RmRecord :=
  match fh.fetch_page_handle rid.page_no with
  | (.error e, fh1) => (.error e, fh1)
  | (.ok page_no, fh1) =>
    let slot := fh1.get_slot page_no rid.slot_no
    let record := RmRecord.ofSlot fh1.file_hdr.record_size slot
    let fh2 := fh1.bpm_unpin_page page_no false
    (.ok record, fh2)

/-- Source `RmFileHandle::insert_record(char*, Context*)`: insert at a position the
manager chooses. -/
def insert_record (fh : RmFileHandle) (buf : List Byte) : Outcome Rid :=
  match fh.create_page_handle with
  | (.error e, fh1) => (.error e, fh1)
  | (.ok page_no, fh1) =>
    let id := Bitmap.first_bit false (fh1.pages page_no).bitmap fh1.file_hdr.num_records_per_page
    let fh2 := fh1.memcpy_slot page_no id buf
    let fh3 := fh2.bitmap_set page_no id
    let fh4 := fh3.set_page_hdr page_no
      { (fh3.pages page_no).page_hdr with
        num_records := (fh3.pages page_no).page_hdr.num_records + 1 }
    let fh5 :=
      if (fh4.pages page_no).page_hdr.num_records = fh4.file_hdr.num_records_per_page then
        fh4.set_first_free (fh4.pages page_no).page_hdr.next_free_page_no
      else
        fh4
    let rid : Rid := { page_no := page_no, slot_no := id }
    let fh6 := fh5.bpm_unpin_page page_no true
    (.ok rid, fh6)

/-- Source `RmFileHandle::insert_record(const Rid&, char*)`: insert at a given position. -/
def insert_record_at (fh : RmFileHandle) (rid : Rid) (buf : List Byte) : Outcome Unit :=
  match fh.fetch_page_handle rid.page_no with
  | (.error e, fh1) => (.error e, fh1)
  | (.ok page_no, fh1) =>
    let fh2 := fh1.memcpy_slot page_no rid.slot_no buf
    let fh3 := fh2.bitmap_set page_no rid.slot_no
    let fh4 := fh3.set_page_hdr page_no
      { (fh3.pages page_no).page_hdr with
        num_records := (fh3.pages page_no).page_hdr.num_records + 1 }
    let fh5 :=
      if (fh4.pages page_no).page_hdr.num_records = fh4.file_hdr.num_records_per_page then
        fh4.set_first_free (fh4.pages page_no).page_hdr.next_free_page_no
      else
        fh4
    let fh6 := fh5.bpm_unpin_page page_no true
    (.ok (), fh6)

/-- Source `RmFileHandle::delete_record`. -/
def delete_record (fh : RmFileHandle) (rid : Rid) : Outcome Unit :=
  match fh.fetch_page_handle rid.page_no with
  | (.error e, fh1) => (.error e, fh1)
  | (.ok page_no, fh1) =>
    let fh2 := fh1.bitmap_reset page_no rid.slot_no
    let fh3 := fh2.set_page_hdr page_no
      { (fh2.pages page_no).page_hdr with
        num_records := (fh2.pages page_no).page_hdr.num_records - 1 }
    let fh4 :=
      if (fh3.pages page_no).page_hdr.num_records = fh3.file_hdr.num_records_per_page - 1 then
        fh3.release_page_handle page_no
      else
        fh3
    let fh5 := fh4.bpm_unpin_page page_no true
    (.ok (), fh5)

/-- Source `RmFileHandle::update_record`. -/
def update_record (fh : RmFileHandle) (rid : Rid) (buf : List Byte) : Outcome Unit :=
  match fh.fetch_page_handle rid.page_no with
  | (.error e, fh1) => (.error e, fh1)
  | (.ok page_no, fh1) =>
    let fh2 := fh1.memcpy_slot page_no rid.slot_no buf
    let fh3 := fh2.bpm_unpin_page page_no true
    (.ok (), fh3)

end RmFileHandle

/-! ## Observations used to state the claims -/

/-- The page number `p` names an existing page: `0 ≤ p < num_pages`. -/
def RmFileHandle.page_exists (fh : RmFileHandle) (p : Int) : Prop :=
  0 ≤ p ∧ p < fh.file_hdr.num_pages

instance (fh : RmFileHandle) (p : Int) : Decidable (fh.page_exists p) :=
  inferInstanceAs (Decidable (0 ≤ p ∧ p < fh.file_hdr.num_pages))

/-- The slot number `s` names a slot of a page: `0 ≤ s < num_records_per_page`. -/
def RmFileHandle.slot_exists (fh : RmFileHandle) (s : Int) : Prop :=
  0 ≤ s ∧ s < fh.file_hdr.num_records_per_page

instance (fh : RmFileHandle) (s : Int) : Decidable (fh.slot_exists s) :=
  inferInstanceAs (Decidable (0 ≤ s ∧ s < fh.file_hdr.num_records_per_page))

/-- Page `p` has a clear occupancy bit among its first `num_records_per_page` bits. -/
def RmFileHandle.has_free_slot (fh : RmFileHandle) (p : Int) : Prop :=
  ∃ s, fh.slot_exists s ∧ (fh.pages p).bitmap s = false

instance (fh : RmFileHandle) (p : Int) : Decidable (fh.has_free_slot p) :=
  decidable_of_iff
    (¬ ∀ r : Int, 0 ≤ r → r < fh.file_hdr.num_records_per_page → (fh.pages p).bitmap r = true)
    (by
      constructor
      · intro h
        by_contra hne
        apply h
        intro r h0 hn
        by_contra hb
        exact hne ⟨r, ⟨h0, hn⟩, by simpa using hb⟩
      · rintro ⟨s, ⟨h0, hn⟩, hb⟩ h
        have := h s h0 hn
        rw [hb] at this
        exact Bool.noConfusion this)

/-- A well-formed record file: at least one record fits a page; the head of the
free list is either `INVALID_PAGE_ID` or an existing page with a clear
occupancy bit; the disk manager's page counter is in step with `num_pages`. -/
def RmFileHandle.WellFormed (fh : RmFileHandle) : Prop :=
  1 ≤ fh.file_hdr.num_records_per_page ∧
  (fh.file_hdr.first_free_page_no = INVALID_PAGE_ID ∨
    (fh.page_exists fh.file_hdr.first_free_page_no ∧
      fh.has_free_slot fh.file_hdr.first_free_page_no)) ∧
  (fh.next_page_no : Int) = fh.file_hdr.num_pages

instance (fh : RmFileHandle) : Decidable fh.WellFormed :=
  inferInstanceAs (Decidable (1 ≤ fh.file_hdr.num_records_per_page ∧
    (fh.file_hdr.first_free_page_no = INVALID_PAGE_ID ∨
      (fh.page_exists fh.file_hdr.first_free_page_no ∧
        fh.has_free_slot fh.file_hdr.first_free_page_no)) ∧
    (fh.next_page_no : Int) = fh.file_hdr.num_pages))

/-- The rid names a slot of an existing page whose occupancy bit is set. -/
def RmFileHandle.occupied (fh : RmFileHandle) (r : Rid) : Prop :=
  fh.page_exists r.page_no ∧ fh.slot_exists r.slot_no ∧
    (fh.pages r.page_no).bitmap r.slot_no = true

instance (fh : RmFileHandle) (r : Rid) : Decidable (fh.occupied r) :=
  inferInstanceAs (Decidable (fh.page_exists r.page_no ∧ fh.slot_exists r.slot_no ∧
    (fh.pages r.page_no).bitmap r.slot_no = true))

/-- The `record_size` bytes held in slot `s` of page `p`. -/
def RmFileHandle.slot_bytes (fh : RmFileHandle) (p s : Int) : List Byte :=
  ((fh.pages p).slots s).take fh.file_hdr.record_size

/-- The call threw `PageNotExistError` for page number `p`. -/
def Outcome.page_not_exist {α : Type} (o : Outcome α) (p : Int) : Prop :=
  o.1 = .error (RmError.PageNotExistError p)

/-- The call threw. -/
def Outcome.failed {α : Type} (o : Outcome α) : Prop :=
  ∃ e, o.1 = .error e

/-! ## Successive inserts -/

/-- Successive calls `insert_record buf` for the buffers of a list, in order: the
outcome of every call and the state after the last. -/
def RmFileHandle.insert_all (fh : RmFileHandle) :
    List (List Byte) → List (Except RmError Rid) × RmFileHandle
  | [] => ([], fh)
  | buf :: rest =>
    let o := fh.insert_record buf
    let os := RmFileHandle.insert_all o.2 rest
    (o.1 :: os.1, os.2)

/-- State of a file of capacity `m` per page that holds `q` full pages `0 .. q-1`
and, when `c > 0`, a page `q` heading the free list with exactly its slots
`0 .. c-1` occupied. -/
def RmFileHandle.filled_to (fh : RmFileHandle) (m q c : Nat) : Prop :=
  fh.file_hdr.num_records_per_page = (m : Int) ∧
  (fh.next_page_no : Int) = fh.file_hdr.num_pages ∧
  c < m ∧
  (c = 0 → fh.file_hdr.num_pages = (q : Int) ∧
    fh.file_hdr.first_free_page_no = INVALID_PAGE_ID) ∧
  (c ≠ 0 → fh.file_hdr.num_pages = (q : Int) + 1 ∧
    fh.file_hdr.first_free_page_no = (q : Int) ∧
    (fh.pages q).page_hdr.num_records = (c : Int) ∧
    (fh.pages q).page_hdr.next_free_page_no = INVALID_PAGE_ID ∧
    ∀ j : Int, 0 ≤ j → j < (m : Int) → ((fh.pages q).bitmap j = true ↔ j < (c : Int)))

instance (fh : RmFileHandle) (m q c : Nat) : Decidable (fh.filled_to m q c) :=
  inferInstanceAs (Decidable (
    fh.file_hdr.num_records_per_page = (m : Int) ∧
    (fh.next_page_no : Int) = fh.file_hdr.num_pages ∧
    c < m ∧
    (c = 0 → fh.file_hdr.num_pages = (q : Int) ∧
      fh.file_hdr.first_free_page_no = INVALID_PAGE_ID) ∧
    (c ≠ 0 → fh.file_hdr.num_pages = (q : Int) + 1 ∧
      fh.file_hdr.first_free_page_no = (q : Int) ∧
      (fh.pages q).page_hdr.num_records = (c : Int) ∧
      (fh.pages q).page_hdr.next_free_page_no = INVALID_PAGE_ID ∧
      ∀ j : Int, 0 ≤ j → j < (m : Int) → ((fh.pages q).bitmap j = true ↔ j < (c : Int)))))

/-- The position `(page, slot)` that follows `pos` when pages hold `m` records. -/
def RmFileHandle.next_position (m : Nat) (pos : Nat × Nat) : Nat × Nat :=
  if pos.2 + 1 = m then (pos.1 + 1, 0) else (pos.1, pos.2 + 1)

/-! ## Disk manager: page-number allocation -/

/-- State of the `DiskManager`: the per-descriptor page counters `fd2pageno_`, the
open-file table in both directions, and the descriptor of the log file. The
counters are `std::atomic<page_id_t>`; the type `page_id_t` is declared outside
the sources at hand and is the 32-bit `int` that page numbers are everywhere
else in the sources. -/
structure DiskManager where
  fd2pageno_ : Int → Int
  path2fd_ : String → Option Int
  fd2path_ : Int → Option String
  log_fd_ : Int

namespace DiskManager

/-- Source `DiskManager::DiskManager`: every page counter is zeroed. The open-file
table starts empty and no log file is open. -/
def fresh : DiskManager :=
  { fd2pageno_ := fun _ => 0
    path2fd_ := fun _ => none
    fd2path_ := fun _ => none
    log_fd_ := -1 }

/-- Source `DiskManager::allocate_page`: `return fd2pageno_[fd]++`, the increment of
an atomic 32-bit counter, which wraps around. The bound `MAX_FD` is declared
outside the sources at hand and is a parameter. A failed assertion ends the
run: `none`. -/
def allocate_page (MAX_FD : Int) (dm : DiskManager) (fd : Int) : Option (Int × DiskManager) :=
  if fd ≥ 0 ∧ fd < MAX_FD then
    some (dm.fd2pageno_ fd,
      { dm with
        fd2pageno_ := Function.update dm.fd2pageno_ fd (wrap_int32 (dm.fd2pageno_ fd + 1)) })
  else
    none

/-- Source `DiskManager::deallocate_page`: the body is empty. -/
def deallocate_page (dm : DiskManager) (_page_id : Int) : DiskManager :=
  dm

end DiskManager

/-- A call of the page-number interface of the disk manager. -/
inductive DmCall where
  | allocate_page (fd : Int)
  | deallocate_page (page_id : Int)
deriving DecidableEq, Repr

namespace DiskManager

/-- Run a sequence of calls. Each `allocate_page` yields the page number it returns,
each `deallocate_page` yields nothing; a failed assertion ends the run. -/
def run (MAX_FD : Int) (dm : DiskManager) : List DmCall → Option (List (Option Int) × DiskManager)
  | [] => some ([], dm)
  | DmCall.allocate_page fd :: rest =>
    match dm.allocate_page MAX_FD fd with
    | none => none
    | some (page_no, dm1) =>
      match run MAX_FD dm1 rest with
      | none => none
      | some (outs, dm2) => some (some page_no :: outs, dm2)
  | DmCall.deallocate_page page_id :: rest =>
    match run MAX_FD (dm.deallocate_page page_id) rest with
    | none => none
    | some (outs, dm2) => some (none :: outs, dm2)

/-- How many of the calls are `allocate_page fd`. -/
def allocations (fd : Int) (calls : List DmCall) : Nat :=
  calls.count (DmCall.allocate_page fd)

end DiskManager

/-- The buffer-pool calls of one operation: `after` extends `before` by exactly one
pin of one page (`fetch_page` or `new_page`) followed by one `unpin_page` of
that same page with the dirty flag `dirty`. -/
def pinned_once (before after : List BpmCall) (dirty : Bool) : Prop :=
  ∃ p, after = before ++ [BpmCall.fetch_page p, BpmCall.unpin_page p dirty] ∨
    after = before ++ [BpmCall.new_page p, BpmCall.unpin_page p dirty]

/-! ## Invariant I1: record count against occupancy bits -/

/-- Number of set bits among the first `n` bits of a bitmap. -/
def popcount (bm : Int → Bool) (n : Int) : Nat :=
  (List.range n.toNat).countP (fun (i : Nat) => bm (i : Int))

/-- Invariant I1 at page `p`: `num_records` equals the number of set occupancy bits
among the slots of the page. -/
def RmFileHandle.I1_at (fh : RmFileHandle) (p : Int) : Prop :=
  (fh.pages p).page_hdr.num_records
    = (popcount (fh.pages p).bitmap fh.file_hdr.num_records_per_page : Int)

instance (fh : RmFileHandle) (p : Int) : Decidable (fh.I1_at p) :=
  inferInstanceAs (Decidable ((fh.pages p).page_hdr.num_records
    = (popcount (fh.pages p).bitmap fh.file_hdr.num_records_per_page : Int)))

/-- Invariant I1: it holds at every page of the file, `0 ≤ p < num_pages`. -/
def RmFileHandle.I1 (fh : RmFileHandle) : Prop :=
  ∀ p : Int, 0 ≤ p → p < fh.file_hdr.num_pages → fh.I1_at p

instance (fh : RmFileHandle) : Decidable fh.I1 :=
  inferInstanceAs (Decidable (∀ p : Int, 0 ≤ p → p < fh.file_hdr.num_pages → fh.I1_at p))

/-! ## Invariant I2: the free-page list -/

/-- The pages `l`, in order, are the chain that starts at page number `start` and
follows `next_free_page_no` until `INVALID_PAGE_ID`. -/
def RmFileHandle.is_chain (fh : RmFileHandle) : Int → List Int → Prop
  | start, [] => start = INVALID_PAGE_ID
  | start, p :: l =>
    start = p ∧ p ≠ INVALID_PAGE_ID ∧
      RmFileHandle.is_chain fh (fh.pages p).page_hdr.next_free_page_no l

/-- Decision procedure for `is_chain`, by recursion along the list. -/
def RmFileHandle.decide_chain (fh : RmFileHandle) :
    (l : List Int) → (start : Int) → Decidable (fh.is_chain start l)
  | [], start => inferInstanceAs (Decidable (start = INVALID_PAGE_ID))
  | p :: l, start =>
    have := RmFileHandle.decide_chain fh l (fh.pages p).page_hdr.next_free_page_no
    inferInstanceAs (Decidable (start = p ∧ p ≠ INVALID_PAGE_ID ∧
      fh.is_chain (fh.pages p).page_hdr.next_free_page_no l))

instance (fh : RmFileHandle) (start : Int) (l : List Int) : Decidable (fh.is_chain start l) :=
  RmFileHandle.decide_chain fh l start

/-- An empty record file: no page, empty free list, page counter at zero, and room
for at least one record per page. -/
def RmFileHandle.is_empty_file (fh : RmFileHandle) : Prop :=
  fh.file_hdr.num_pages = 0 ∧ fh.file_hdr.first_free_page_no = INVALID_PAGE_ID ∧
    fh.next_page_no = 0 ∧ 1 ≤ fh.file_hdr.num_records_per_page

instance (fh : RmFileHandle) : Decidable fh.is_empty_file :=
  inferInstanceAs (Decidable (fh.file_hdr.num_pages = 0 ∧
    fh.file_hdr.first_free_page_no = INVALID_PAGE_ID ∧
    fh.next_page_no = 0 ∧ 1 ≤ fh.file_hdr.num_records_per_page))

/-- States reached from an empty record file by position-free inserts, deletes of
occupied rids, updates of a slot of the page, and reads. -/
inductive RmFileHandle.Reachable : RmFileHandle → Prop where
  | init (fh : RmFileHandle) : fh.is_empty_file → RmFileHandle.Reachable fh
  | insert_record (fh : RmFileHandle) (buf : List Byte) :
      RmFileHandle.Reachable fh → RmFileHandle.Reachable (fh.insert_record buf).2
  | delete_record (fh : RmFileHandle) (rid : Rid) :
      RmFileHandle.Reachable fh → fh.occupied rid →
      RmFileHandle.Reachable (fh.delete_record rid).2
  | update_record (fh : RmFileHandle) (rid : Rid) (buf : List Byte) :
      RmFileHandle.Reachable fh → fh.slot_exists rid.slot_no →
      RmFileHandle.Reachable (fh.update_record rid buf).2
  | get_record (fh : RmFileHandle) (rid : Rid) :
      RmFileHandle.Reachable fh → RmFileHandle.Reachable (fh.get_record rid).2

/-- The free-list invariant with the list `l` of the pages on the chain: the chain
from `first_free_page_no` is `l` and ends at `INVALID_PAGE_ID`, no page is on it
twice, and the pages on it are exactly the pages of the file that are not full;
I1 holds, and the page counter is in step with `num_pages`. -/
def RmFileHandle.free_list_inv (fh : RmFileHandle) (l : List Int) : Prop :=
  1 ≤ fh.file_hdr.num_records_per_page ∧
  (fh.next_page_no : Int) = fh.file_hdr.num_pages ∧
  fh.I1 ∧
  fh.is_chain fh.file_hdr.first_free_page_no l ∧
  l.Nodup ∧
  ∀ p, p ∈ l ↔ (fh.page_exists p ∧
    (fh.pages p).page_hdr.num_records < fh.file_hdr.num_records_per_page)

/-! ## Operating system: files and descriptors

The disk manager calls `stat`, `open`, `close`, `unlink`, `lseek`, `read` and
`write`. They are modelled on regular files: a path names an inode, an inode
holds the bytes of a file, and a descriptor is an entry of the descriptor table
with the inode it is open on and its offset. A write stores as many bytes as
the medium has room for (`max_file_size`); nothing else fails for a reason
outside the model. Byte counts, offsets and page numbers are naturals. -/

/-- What a path names. -/
inductive Node where
  | regular (inode : Nat)
  | directory (st_size : Nat)
deriving DecidableEq, Repr

/-- An open file description: the inode it is open on and the file offset. -/
structure OpenFile where
  inode : Nat
  offset : Nat
deriving DecidableEq, Repr

/-- State of the operating system as the disk manager sees it. `fds` is the
descriptor table, indexed by descriptor number; `open_calls` lists the paths of
the `open` calls made so far, oldest first. -/
structure Os where
  names : String → Option Node
  inodes : Nat → List Byte
  fds : List (Option OpenFile)
  next_inode : Nat
  max_file_size : Nat
  open_calls : List String

namespace Os

/-- The entry of descriptor `fd`, if it is open. -/
def entry (os : Os) (fd : Int) : Option OpenFile :=
  if fd < 0 then none else (os.fds.getD fd.toNat none)

/-- The lowest descriptor number that is not open. -/
def lowest_free (os : Os) : Nat :=
  os.fds.findIdx (fun e => e.isNone)

/-- The descriptor table with descriptor number `k` set to `e`. -/
def set_entry (os : Os) (k : Nat) (e : Option OpenFile) : Os :=
  { os with fds :=
      if k < os.fds.length then os.fds.set k e
      else os.fds ++ List.replicate (k - os.fds.length) none ++ [e] }

/-- Result of `stat(path)`: whether the path names a regular file, and `st_size`. -/
def stat (os : Os) (path : String) : Option (Bool × Nat) :=
  match os.names path with
  | some (Node.regular i) => some (true, (os.inodes i).length)
  | some (Node.directory sz) => some (false, sz)
  | none => none

/-- Result of `open(path, O_RDWR)`: the lowest free descriptor, opened at offset 0 on
the regular file that `path` names, or -1. -/
def open_rdwr (os : Os) (path : String) : Int × Os :=
  let os1 := { os with open_calls := os.open_calls ++ [path] }
  match os.names path with
  | some (Node.regular i) =>
    ((os1.lowest_free : Int), os1.set_entry os1.lowest_free (some { inode := i, offset := 0 }))
  | _ => (-1, os1)

/-- Result of `open(path, O_CREAT | O_EXCL | O_RDWR, 0666)`: creates an empty regular
file and opens it, or -1 when the path names something already. -/
def open_creat_excl (os : Os) (path : String) : Int × Os :=
  let os1 := { os with open_calls := os.open_calls ++ [path] }
  match os.names path with
  | none =>
    let i := os1.next_inode
    let os2 := { os1 with
      names := Function.update os1.names path (some (Node.regular i))
      inodes := Function.update os1.inodes i []
      next_inode := i + 1 }
    ((os2.lowest_free : Int), os2.set_entry os2.lowest_free (some { inode := i, offset := 0 }))
  | some _ => (-1, os1)

/-- Result of `close(fd)`. -/
def close (os : Os) (fd : Int) : Int × Os :=
  match os.entry fd with
  | some _ => (0, os.set_entry fd.toNat none)
  | none => (-1, os)

/-- Result of `unlink(path)`: removes the name of a regular file; descriptors open on
the file keep its inode. -/
def unlink (os : Os) (path : String) : Int × Os :=
  match os.names path with
  | some (Node.regular _) => (0, { os with names := Function.update os.names path none })
  | _ => (-1, os)

/-- Result of `lseek(fd, offset, SEEK_SET)`. -/
def lseek_set (os : Os) (fd : Int) (offset : Nat) : Int × Os :=
  match os.entry fd with
  | some e => ((offset : Int), os.set_entry fd.toNat (some { e with offset := offset }))
  | none => (-1, os)

/-- Result of `lseek(fd, 0, SEEK_END)`. -/
def lseek_end (os : Os) (fd : Int) : Int × Os :=
  match os.entry fd with
  | some e =>
    (((os.inodes e.inode).length : Int),
      os.set_entry fd.toNat (some { e with offset := (os.inodes e.inode).length }))
  | none => (-1, os)

/-- The bytes of a file after `bytes` are stored at offset `off`: a gap between the
old end of file and `off` reads as zero bytes. -/
def write_at (content : List Byte) (off : Nat) (bytes : List Byte) : List Byte :=
  (content ++ List.replicate (off - content.length) 0).take off ++ bytes
    ++ content.drop (off + bytes.length)

/-- Result of `write(fd, data, n)`: stores at the descriptor's offset as many of the
`n` bytes as the medium has room for and returns their number; -1 when the
descriptor is not open or there is room for none of `n > 0` bytes. -/
def write (os : Os) (fd : Int) (data : List Byte) (n : Nat) : Int × Os :=
  match os.entry fd with
  | none => (-1, os)
  | some e =>
    let k := min n (os.max_file_size - e.offset)
    if n = 0 then (0, os)
    else if k = 0 then (-1, os)
    else
      let os1 := { os with
        inodes := Function.update os.inodes e.inode
          (write_at (os.inodes e.inode) e.offset (data.take k)) }
      ((k : Int), os1.set_entry fd.toNat (some { e with offset := e.offset + k }))

/-- Result of `read(fd, buf, n)`: the number of bytes read and the bytes stored in
`buf`, at most `n` and at most what lies between the offset and end of file;
-1 when the descriptor is not open. -/
def read (os : Os) (fd : Int) (n : Nat) : Int × List Byte × Os :=
  match os.entry fd with
  | none => (-1, [], os)
  | some e =>
    let bytes := ((os.inodes e.inode).drop e.offset).take n
    ((bytes.length : Int), bytes,
      os.set_entry fd.toNat (some { e with offset := e.offset + bytes.length }))

end Os

/-! ## Disk manager: file lifecycle, page I/O and the log -/

/-- The disk manager together with the operating system it acts on. -/
structure World where
  dm : DiskManager
  os : Os

/-- Errors thrown by the disk manager; `assertion_failed` stands for a failed `assert`. -/
inductive DmError where
  | runtime_error (what : String)
  | FileNotOpenError (fd : Int)
  | UnixError
  | assertion_failed
deriving DecidableEq, Repr

/-- Outcome of a disk manager call together with the state it leaves. -/
abbrev DmOutcome (α : Type) := Except DmError α × World

namespace DiskManager

/-- Source `DiskManager::is_file`. -/
def is_file (w : World) (path : String) : Bool :=
  match w.os.stat path with
  | some (is_reg, _) => is_reg
  | none => false

/-- Source `DiskManager::create_file`. -/
def create_file (w : World) (path : String) : DmOutcome Unit :=
  if is_file w path then
    (.error (DmError.runtime_error "DiskManager::create_file Error: File already exists"), w)
  else
    let (fd, os1) := w.os.open_creat_excl path
    if fd = -1 then
      (.error (DmError.runtime_error "DiskManager::create_file Error: Unable to create file"),
        { w with os := os1 })
    else
      let (_, os2) := os1.close fd
      (.ok (), { w with os := os2 })

/-- Source `DiskManager::destroy_file`. -/
def destroy_file (w : World) (path : String) : DmOutcome Unit :=
  if !is_file w path then
    (.error (DmError.runtime_error "DiskManager::destroy_file Error: File does not exist"), w)
  else if (w.dm.path2fd_ path).isSome then
    (.error (DmError.runtime_error "DiskManager::destroy_file Error: File not closed"), w)
  else
    let (r, os1) := w.os.unlink path
    if r = -1 then
      (.error (DmError.runtime_error "DiskManager::destroy_file Error: Unable to delete file"),
        { w with os := os1 })
    else
      (.ok (), { w with os := os1 })

/-- Source `DiskManager::open_file`. -/
def open_file (w : World) (path : String) : DmOutcome Int :=
  match w.dm.path2fd_ path with
  | some fd => (.ok fd, w)
  | none =>
    let (fd, os1) := w.os.open_rdwr path
    if fd = -1 then
      (.error (DmError.runtime_error "DiskManager::open_file Error: Unable to open file"),
        { w with os := os1 })
    else
      (.ok fd,
        { dm := { w.dm with
            path2fd_ := Function.update w.dm.path2fd_ path (some fd)
            fd2path_ := Function.update w.dm.fd2path_ fd (some path) }
          os := os1 })

/-- Source `DiskManager::close_file`. -/
def close_file (w : World) (fd : Int) : DmOutcome Unit :=
  match w.dm.fd2path_ fd with
  | none =>
    (.error (DmError.runtime_error "DiskManager::close_file Error: File already closed"), w)
  | some path =>
    let (r, os1) := w.os.close fd
    if r = -1 then
      (.error (DmError.runtime_error "DiskManager::close_file Error: Unable to close file"),
        { w with os := os1 })
    else
      (.ok (),
        { dm := { w.dm with
            path2fd_ := Function.update w.dm.path2fd_ path none
            fd2path_ := Function.update w.dm.fd2path_ fd none }
          os := os1 })

/-- Source `DiskManager::get_file_size`: the return type is `int`, so `st_size` is
narrowed to 32 bits. -/
def get_file_size (w : World) (file_name : String) : Int :=
  match w.os.stat file_name with
  | some (_, st_size) => wrap_int32 (st_size : Int)
  | none => -1

/-- Source `DiskManager::get_file_name`. -/
def get_file_name (w : World) (fd : Int) : DmOutcome String :=
  match w.dm.fd2path_ fd with
  | none => (.error (DmError.FileNotOpenError fd), w)
  | some path => (.ok path, w)

/-- Source `DiskManager::get_file_fd`. -/
def get_file_fd (w : World) (file_name : String) : DmOutcome Int :=
  match w.dm.path2fd_ file_name with
  | none => open_file w file_name
  | some fd => (.ok fd, w)

/-- Source `DiskManager::write_page`. -/
def write_page (w : World) (fd : Int) (page_no : Nat) (offset : List Byte) (num_bytes : Nat) :
    DmOutcome Unit :=
  let page_size := 4096
  let page_offset := page_size * page_no
  let (result, os1) := w.os.lseek_set fd page_offset
  if result = -1 then
    (.error (DmError.runtime_error "DiskManager::write_page lseek Error"), { w with os := os1 })
  else
    let (bytes_write, os2) := os1.write fd offset num_bytes
    if bytes_write ≠ (num_bytes : Int) then
      (.error (DmError.runtime_error "DiskManager::write_page Error"), { w with os := os2 })
    else
      (.ok (), { w with os := os2 })

/-- Source `DiskManager::read_page`; the result is what the call stores in `offset`. -/
def read_page (w : World) (fd : Int) (page_no : Nat) (num_bytes : Nat) :
    DmOutcome (List Byte) :=
  let page_size := 4096
  let page_offset := page_no * page_size
  let (f_offset, os1) := w.os.lseek_set fd page_offset
  if f_offset = -1 then
    (.error (DmError.runtime_error "DiskManager::read_page lseek Error"), { w with os := os1 })
  else
    let (bytes_read, bytes, os2) := os1.read fd num_bytes
    if bytes_read ≠ (num_bytes : Int) then
      (.error (DmError.runtime_error "DiskManager::read_page Error"), { w with os := os2 })
    else
      (.ok bytes, { w with os := os2 })

/-- The first step of `read_log` and `write_log`: `if (log_fd_ == -1) log_fd_ =
open_file(LOG_FILE_NAME)`. -/
def open_log (LOG_FILE_NAME : String) (w : World) : DmOutcome Unit :=
  if w.dm.log_fd_ = -1 then
    match open_file w LOG_FILE_NAME with
    | (.error e, w1) => (.error e, w1)
    | (.ok fd, w1) => (.ok (), { w1 with dm := { w1.dm with log_fd_ := fd } })
  else
    (.ok (), w)

/-- Source `DiskManager::read_log`. The name `LOG_FILE_NAME` is declared outside the
sources at hand and is a parameter. The arguments `size` and `offset` are
non-negative `int`s, `file_size` is the `int` that `get_file_size` returns. The
result is the returned count and what the call stores in `log_data`. -/
def read_log (LOG_FILE_NAME : String) (w : World) (size offset : Nat) :
    DmOutcome (Int × List Byte) :=
  match open_log LOG_FILE_NAME w with
  | (.error e, w1) => (.error e, w1)
  | (.ok (), w1) =>
    let file_size := get_file_size w1 LOG_FILE_NAME
    if (offset : Int) > file_size then
      (.ok (-1, []), w1)
    else
      let size' : Int := min (size : Int) (file_size - (offset : Int))
      if size' = 0 then (.ok (0, []), w1)
      else
        let (_, os2) := w1.os.lseek_set w1.dm.log_fd_ offset
        let (bytes_read, bytes, os3) := os2.read w1.dm.log_fd_ size'.toNat
        if bytes_read = size' then
          (.ok (bytes_read, bytes), { w1 with os := os3 })
        else
          (.error DmError.assertion_failed, { w1 with os := os3 })

/-- Source `DiskManager::write_log`. -/
def write_log (LOG_FILE_NAME : String) (w : World) (log_data : List Byte) (size : Nat) :
    DmOutcome Unit :=
  match open_log LOG_FILE_NAME w with
  | (.error e, w1) => (.error e, w1)
  | (.ok (), w1) =>
    let (_, os2) := w1.os.lseek_end w1.dm.log_fd_
    let (bytes_write, os3) := os2.write w1.dm.log_fd_ log_data size
    if bytes_write ≠ (size : Int) then
      (.error DmError.UnixError, { w1 with os := os3 })
    else
      (.ok (), { w1 with os := os3 })

end DiskManager

/-- Worlds reached from a freshly constructed disk manager, on any state of the
operating system, by `open_file`, `close_file` and `get_file_fd` calls. -/
inductive DiskManager.TableReachable : World → Prop where
  | init (os : Os) : DiskManager.TableReachable { dm := DiskManager.fresh, os := os }
  | open_file (w : World) (path : String) :
      DiskManager.TableReachable w → DiskManager.TableReachable (DiskManager.open_file w path).2
  | close_file (w : World) (fd : Int) :
      DiskManager.TableReachable w → DiskManager.TableReachable (DiskManager.close_file w fd).2
  | get_file_fd (w : World) (path : String) :
      DiskManager.TableReachable w →
      DiskManager.TableReachable (DiskManager.get_file_fd w path).2

/-- The open-file table is consistent: `path2fd_` and `fd2path_` are inverse to each
other, and every tracked descriptor is open. -/
def DiskManager.table_inv (w : World) : Prop :=
  (∀ path fd, w.dm.path2fd_ path = some fd ↔ w.dm.fd2path_ fd = some path) ∧
  (∀ fd path, w.dm.fd2path_ fd = some path → (w.os.entry fd).isSome = true)

/-- The log file exists, as inode `i`, and the descriptor the manager uses for it is
open on it: `log_fd_` when it is set, and otherwise the descriptor tracked for
the log path, if one is. -/
def DiskManager.log_ready (LOG_FILE_NAME : String) (w : World) (i : Nat) : Prop :=
  w.os.names LOG_FILE_NAME = some (Node.regular i) ∧
  (w.dm.log_fd_ = -1 →
    ∀ fd, w.dm.path2fd_ LOG_FILE_NAME = some fd → ∃ e, w.os.entry fd = some e ∧ e.inode = i) ∧
  (w.dm.log_fd_ ≠ -1 → ∃ e, w.os.entry w.dm.log_fd_ = some e ∧ e.inode = i)

/-! ## Sample states -/

/-- A page with no record, no pin and empty slots. -/
def blank_page : Page :=
  { page_hdr := { next_free_page_no := INVALID_PAGE_ID, num_records := 0 }
    bitmap := fun _ => false
    slots := fun _ => []
    pin_count := 0
    is_dirty := false }

/-- A record file with no page yet. -/
def empty_file (record_size : Nat) (num_records_per_page : Int) : RmFileHandle :=
  { file_hdr :=
      { record_size := record_size
        num_pages := 0
        num_records_per_page := num_records_per_page
        first_free_page_no := INVALID_PAGE_ID
        bitmap_size := (num_records_per_page + 7) / 8 }
    pages := fun _ => blank_page
    next_page_no := 0
    bpm_calls := [] }

/-- A file of two-byte records, two per page, with two pages: page 0 is full,
page 1 holds one record in slot 0 and heads the free list. -/
def sample_file : RmFileHandle :=
  { file_hdr :=
      { record_size := 2
        num_pages := 2
        num_records_per_page := 2
        first_free_page_no := 1
        bitmap_size := 1 }
    pages := fun p =>
      if p = 0 then
        { page_hdr := { next_free_page_no := 1, num_records := 2 }
          bitmap := fun s => decide (s = 0 ∨ s = 1)
          slots := fun s => if s = 0 then [1, 2] else if s = 1 then [3, 4] else []
          pin_count := 0
          is_dirty := false }
      else if p = 1 then
        { page_hdr := { next_free_page_no := INVALID_PAGE_ID, num_records := 1 }
          bitmap := fun s => decide (s = 0)
          slots := fun s => if s = 0 then [5, 6] else [0, 0]
          pin_count := 0
          is_dirty := false }
      else blank_page
    next_page_no := 2
    bpm_calls := [] }

/-- The sample file with its free-list head moved to the full page 0. -/
def sample_full_head : RmFileHandle :=
  { sample_file with file_hdr := { sample_file.file_hdr with first_free_page_no := 0 } }

/-- The sample file with the disk manager's page counter ahead of `num_pages`, and
a stale header in the buffer of the page number in between. -/
def sample_out_of_step : RmFileHandle :=
  { sample_file with
    next_page_no := 5
    pages := Function.update sample_file.pages 2
      { blank_page with page_hdr := { next_free_page_no := INVALID_PAGE_ID, num_records := 7 } } }

/-- The file reached from an empty one (two-byte records, two per page) by two
inserts, which fill page 0, and the delete of the record in slot 0 of page 0. -/
def sample_run : RmFileHandle :=
  ((((empty_file 2 2).insert_record [1, 2]).2.insert_record [3, 4]).2.delete_record ⟨0, 0⟩).2

/-- A file of one-byte records, eight per page under a bitmap of one byte, reached
from an empty file by one insert: the record 255 is in slot 0 of page 0. -/
def sample_one_byte : RmFileHandle :=
  ((empty_file 1 8).insert_record [255]).2

/-- A file of nine-byte records, two per page under a bitmap of one byte, reached
from an empty file by one insert: page 0 holds one record and heads the free
list. -/
def sample_nine_byte : RmFileHandle :=
  ((empty_file 9 2).insert_record [1, 2, 3, 4, 5, 6, 7, 8, 9]).2

/-- An operating system with a three-byte log file `db.log`, an empty file `t.db`
and a directory `dir`; no descriptor is open. -/
def sample_os : Os :=
  { names := fun p =>
      if p = "db.log" then some (Node.regular 0)
      else if p = "t.db" then some (Node.regular 1)
      else if p = "dir" then some (Node.directory 4096)
      else none
    inodes := fun i => if i = 0 then [1, 2, 3] else []
    fds := []
    next_inode := 2
    max_file_size := 65536
    open_calls := [] }

/-- A freshly constructed disk manager on `sample_os`. -/
def sample_world : World :=
  { dm := DiskManager.fresh, os := sample_os }

/-- The world reached from `sample_world` by three calls: `read_log`, which opens the
log on descriptor 0 and keeps it in `log_fd_`; `close_file 0`, which closes the
descriptor and leaves `log_fd_` as it is; and `open_file "t.db"`, which is given
descriptor 0 again. -/
def sample_stale_log : World :=
  (DiskManager.open_file
    (DiskManager.close_file (DiskManager.read_log "db.log" sample_world 0 0).2 0).2 "t.db").2

/-- The world `sample_stale_log` after `write_page` has stored two bytes in `t.db`. -/
def sample_stale_log_written : World :=
  (DiskManager.write_page sample_stale_log 0 0 [9, 9] 2).2

/-- A freshly constructed disk manager on `sample_os` with a log of `L` zero bytes
and a medium with room for files of 4294967296 bytes. -/
def sample_long_log (L : Nat) : World :=
  { dm := DiskManager.fresh
    os := { sample_os with
      inodes := fun i => if i = 0 then List.replicate L 0 else []
      max_file_size := 4294967296 } }

/-! ## Projection lemmas for the state writers -/

namespace Page

@[simp] theorem poke_pin_count (hdr : RmFileHdr) (pg : Page) (o : Int) (b : Byte) :
    (pg.poke hdr o b).pin_count = pg.pin_count := by
  unfold poke
  split_ifs <;> rfl

@[simp] theorem poke_is_dirty (hdr : RmFileHdr) (pg : Page) (o : Int) (b : Byte) :
    (pg.poke hdr o b).is_dirty = pg.is_dirty := by
  unfold poke
  split_ifs <;> rfl

@[simp] theorem put_bit_outside_pin_count (hdr : RmFileHdr) (pg : Page) (pos : Int) (v : Bool) :
    (pg.put_bit_outside hdr pos v).pin_count = pg.pin_count := by
  unfold put_bit_outside
  split_ifs <;> simp

@[simp] theorem put_bit_outside_is_dirty (hdr : RmFileHdr) (pg : Page) (pos : Int) (v : Bool) :
    (pg.put_bit_outside hdr pos v).is_dirty = pg.is_dirty := by
  unfold put_bit_outside
  split_ifs <;> simp

theorem foldl_poke_pin_count (hdr : RmFileHdr) (f : Nat → Int) (l : List (Nat × Byte)) :
    ∀ pg : Page, (l.foldl (fun pg kb => pg.poke hdr (f kb.1) kb.2) pg).pin_count = pg.pin_count ∧
      (l.foldl (fun pg kb => pg.poke hdr (f kb.1) kb.2) pg).is_dirty = pg.is_dirty := by
  induction l with
  | nil => intro pg; exact ⟨rfl, rfl⟩
  | cons a l ih =>
    intro pg
    simp only [List.foldl_cons]
    obtain ⟨h1, h2⟩ := ih (pg.poke hdr (f a.1) a.2)
    exact ⟨by rw [h1, poke_pin_count], by rw [h2, poke_is_dirty]⟩

end Page

namespace RmFileHandle

@[simp] theorem setPage_pages (fh : RmFileHandle) (p q : Int) (pg : Page) :
    (fh.setPage p pg).pages q = if q = p then pg else fh.pages q := by
  simp [setPage, Function.update_apply]

@[simp] theorem setPage_file_hdr (fh : RmFileHandle) (p : Int) (pg : Page) :
    (fh.setPage p pg).file_hdr = fh.file_hdr := rfl

@[simp] theorem setPage_next_page_no (fh : RmFileHandle) (p : Int) (pg : Page) :
    (fh.setPage p pg).next_page_no = fh.next_page_no := rfl

@[simp] theorem set_first_free_pages (fh : RmFileHandle) (v : Int) :
    (fh.set_first_free v).pages = fh.pages := rfl

@[simp] theorem set_first_free_file_hdr (fh : RmFileHandle) (v : Int) :
    (fh.set_first_free v).file_hdr = { fh.file_hdr with first_free_page_no := v } := rfl

@[simp] theorem set_first_free_next_page_no (fh : RmFileHandle) (v : Int) :
    (fh.set_first_free v).next_page_no = fh.next_page_no := rfl

/-- A slot write leaves the file header, the page counter, the buffer-pool calls, every
other page and the pool's bookkeeping of the page as they are. -/
theorem memcpy_slot_frame (fh : RmFileHandle) (p s : Int) (buf : List Byte) :
    (fh.memcpy_slot p s buf).file_hdr = fh.file_hdr ∧
    (fh.memcpy_slot p s buf).next_page_no = fh.next_page_no ∧
    (fh.memcpy_slot p s buf).bpm_calls = fh.bpm_calls ∧
    (∀ q, q ≠ p → (fh.memcpy_slot p s buf).pages q = fh.pages q) ∧
    (∀ q, ((fh.memcpy_slot p s buf).pages q).pin_count = (fh.pages q).pin_count) ∧
    (∀ q, ((fh.memcpy_slot p s buf).pages q).is_dirty = (fh.pages q).is_dirty) := by
  unfold memcpy_slot
  split_ifs with h
  · refine ⟨rfl, rfl, rfl, ?_, ?_, ?_⟩
    · intro q hq; simp [write_slot, hq]
    · intro q; by_cases hq : q = p <;> simp [write_slot, hq]
    · intro q; by_cases hq : q = p <;> simp [write_slot, hq]
  · have hf := Page.foldl_poke_pin_count fh.file_hdr
      (fun k => s * (fh.file_hdr.record_size : Int) + (k : Int))
      (buf.take fh.file_hdr.record_size).enum (fh.pages p)
    refine ⟨rfl, rfl, rfl, ?_, ?_, ?_⟩
    · intro q hq; simp [hq]
    · intro q
      by_cases hq : q = p
      · subst hq; simp only [setPage_pages, if_true]; exact hf.1
      · simp [hq]
    · intro q
      by_cases hq : q = p
      · subst hq; simp only [setPage_pages, if_true]; exact hf.2
      · simp [hq]

theorem memcpy_slot_of_nonneg (fh : RmFileHandle) (p s : Int) (buf : List Byte) (h : 0 ≤ s) :
    fh.memcpy_slot p s buf = fh.write_slot p s buf := by
  unfold memcpy_slot
  rw [if_pos h]

/-- A bit write leaves the file header, the page counter, the buffer-pool calls, every
other page and the pool's bookkeeping of the page as they are. -/
theorem bitmap_set_frame (fh : RmFileHandle) (p pos : Int) :
    (fh.bitmap_set p pos).file_hdr = fh.file_hdr ∧
    (fh.bitmap_set p pos).next_page_no = fh.next_page_no ∧
    (fh.bitmap_set p pos).bpm_calls = fh.bpm_calls ∧
    (∀ q, q ≠ p → (fh.bitmap_set p pos).pages q = fh.pages q) ∧
    (∀ q, ((fh.bitmap_set p pos).pages q).pin_count = (fh.pages q).pin_count) ∧
    (∀ q, ((fh.bitmap_set p pos).pages q).is_dirty = (fh.pages q).is_dirty) := by
  unfold bitmap_set
  split_ifs with h
  · refine ⟨rfl, rfl, rfl, ?_, ?_, ?_⟩
    · intro q hq; simp [set_bitmap, hq]
    · intro q; by_cases hq : q = p <;> simp [set_bitmap, hq]
    · intro q; by_cases hq : q = p <;> simp [set_bitmap, hq]
  · refine ⟨rfl, rfl, rfl, ?_, ?_, ?_⟩
    · intro q hq; simp [hq]
    · intro q; by_cases hq : q = p <;> simp [hq]
    · intro q; by_cases hq : q = p <;> simp [hq]

theorem bitmap_reset_frame (fh : RmFileHandle) (p pos : Int) :
    (fh.bitmap_reset p pos).file_hdr = fh.file_hdr ∧
    (fh.bitmap_reset p pos).next_page_no = fh.next_page_no ∧
    (fh.bitmap_reset p pos).bpm_calls = fh.bpm_calls ∧
    (∀ q, q ≠ p → (fh.bitmap_reset p pos).pages q = fh.pages q) ∧
    (∀ q, ((fh.bitmap_reset p pos).pages q).pin_count = (fh.pages q).pin_count) ∧
    (∀ q, ((fh.bitmap_reset p pos).pages q).is_dirty = (fh.pages q).is_dirty) := by
  unfold bitmap_reset
  split_ifs with h
  · refine ⟨rfl, rfl, rfl, ?_, ?_, ?_⟩
    · intro q hq; simp [set_bitmap, hq]
    · intro q; by_cases hq : q = p <;> simp [set_bitmap, hq]
    · intro q; by_cases hq : q = p <;> simp [set_bitmap, hq]
  · refine ⟨rfl, rfl, rfl, ?_, ?_, ?_⟩
    · intro q hq; simp [hq]
    · intro q; by_cases hq : q = p <;> simp [hq]
    · intro q; by_cases hq : q = p <;> simp [hq]

theorem bitmap_set_of_exists (fh : RmFileHandle) (p pos : Int) (h : fh.bit_exists pos) :
    fh.bitmap_set p pos = fh.set_bitmap p (Bitmap.set (fh.pages p).bitmap pos) := by
  unfold bitmap_set
  rw [if_pos h]

theorem bitmap_reset_of_exists (fh : RmFileHandle) (p pos : Int) (h : fh.bit_exists pos) :
    fh.bitmap_reset p pos = fh.set_bitmap p (Bitmap.reset (fh.pages p).bitmap pos) := by
  unfold bitmap_reset
  rw [if_pos h]

theorem bit_exists_of_slot_exists (fh fh' : RmFileHandle) (s : Int) (h : fh.slot_exists s)
    (hhdr : fh'.file_hdr = fh.file_hdr) : fh'.bit_exists s := by
  unfold bit_exists
  rw [hhdr]
  exact ⟨h.1, Or.inl h.2⟩

theorem get_slot_of_nonneg (fh : RmFileHandle) (p s : Int) (h : 0 ≤ s) :
    fh.get_slot p s = (fh.pages p).slots s := by
  unfold get_slot
  rw [if_pos h]

@[simp] theorem memcpy_slot_file_hdr (fh : RmFileHandle) (p s : Int) (buf : List Byte) :
    (fh.memcpy_slot p s buf).file_hdr = fh.file_hdr := (memcpy_slot_frame fh p s buf).1

@[simp] theorem memcpy_slot_next_page_no (fh : RmFileHandle) (p s : Int) (buf : List Byte) :
    (fh.memcpy_slot p s buf).next_page_no = fh.next_page_no := (memcpy_slot_frame fh p s buf).2.1

@[simp] theorem memcpy_slot_pin_count (fh : RmFileHandle) (p s q : Int) (buf : List Byte) :
    ((fh.memcpy_slot p s buf).pages q).pin_count = (fh.pages q).pin_count :=
  (memcpy_slot_frame fh p s buf).2.2.2.2.1 q

@[simp] theorem memcpy_slot_is_dirty (fh : RmFileHandle) (p s q : Int) (buf : List Byte) :
    ((fh.memcpy_slot p s buf).pages q).is_dirty = (fh.pages q).is_dirty :=
  (memcpy_slot_frame fh p s buf).2.2.2.2.2 q

theorem memcpy_slot_pages_ne (fh : RmFileHandle) (p s q : Int) (buf : List Byte) (h : q ≠ p) :
    (fh.memcpy_slot p s buf).pages q = fh.pages q := (memcpy_slot_frame fh p s buf).2.2.2.1 q h

@[simp] theorem bitmap_set_file_hdr (fh : RmFileHandle) (p pos : Int) :
    (fh.bitmap_set p pos).file_hdr = fh.file_hdr := (bitmap_set_frame fh p pos).1

@[simp] theorem bitmap_set_next_page_no (fh : RmFileHandle) (p pos : Int) :
    (fh.bitmap_set p pos).next_page_no = fh.next_page_no := (bitmap_set_frame fh p pos).2.1

@[simp] theorem bitmap_set_pin_count (fh : RmFileHandle) (p pos q : Int) :
    ((fh.bitmap_set p pos).pages q).pin_count = (fh.pages q).pin_count :=
  (bitmap_set_frame fh p pos).2.2.2.2.1 q

@[simp] theorem bitmap_set_is_dirty (fh : RmFileHandle) (p pos q : Int) :
    ((fh.bitmap_set p pos).pages q).is_dirty = (fh.pages q).is_dirty :=
  (bitmap_set_frame fh p pos).2.2.2.2.2 q

theorem bitmap_set_pages_ne (fh : RmFileHandle) (p pos q : Int) (h : q ≠ p) :
    (fh.bitmap_set p pos).pages q = fh.pages q := (bitmap_set_frame fh p pos).2.2.2.1 q h

@[simp] theorem bitmap_reset_file_hdr (fh : RmFileHandle) (p pos : Int) :
    (fh.bitmap_reset p pos).file_hdr = fh.file_hdr := (bitmap_reset_frame fh p pos).1

@[simp] theorem bitmap_reset_next_page_no (fh : RmFileHandle) (p pos : Int) :
    (fh.bitmap_reset p pos).next_page_no = fh.next_page_no := (bitmap_reset_frame fh p pos).2.1

@[simp] theorem bitmap_reset_pin_count (fh : RmFileHandle) (p pos q : Int) :
    ((fh.bitmap_reset p pos).pages q).pin_count = (fh.pages q).pin_count :=
  (bitmap_reset_frame fh p pos).2.2.2.2.1 q

@[simp] theorem bitmap_reset_is_dirty (fh : RmFileHandle) (p pos q : Int) :
    ((fh.bitmap_reset p pos).pages q).is_dirty = (fh.pages q).is_dirty :=
  (bitmap_reset_frame fh p pos).2.2.2.2.2 q

theorem bitmap_reset_pages_ne (fh : RmFileHandle) (p pos q : Int) (h : q ≠ p) :
    (fh.bitmap_reset p pos).pages q = fh.pages q := (bitmap_reset_frame fh p pos).2.2.2.1 q h

theorem fetch_page_handle_ok (fh : RmFileHandle) (p : Int)
    (h0 : 0 ≤ p) (h1 : p < fh.file_hdr.num_pages) :
    fh.fetch_page_handle p = (.ok p, fh.bpm_fetch_page p) := by
  have : ¬ (p < 0 ∨ p ≥ fh.file_hdr.num_pages) := by omega
  simp [fetch_page_handle, this]

theorem fetch_page_handle_err (fh : RmFileHandle) (p : Int)
    (h : p < 0 ∨ p ≥ fh.file_hdr.num_pages) :
    fh.fetch_page_handle p = (.error (RmError.PageNotExistError p), fh) := by
  simp [fetch_page_handle, h]

/-- Pinning a page changes no byte of any page. -/
theorem get_slot_bpm_fetch_page (fh : RmFileHandle) (p q s : Int) :
    (fh.bpm_fetch_page p).get_slot q s = fh.get_slot q s := by
  unfold get_slot Page.peek
  by_cases h : q = p <;> simp [bpm_fetch_page, h]

/-- What `get_record` does on an existing page: it returns the bytes at the slot's
address and leaves the page pinned and unpinned once. -/
theorem get_record_of_page (fh : RmFileHandle) (rid : Rid) (hp : fh.page_exists rid.page_no) :
    fh.get_record rid
      = (.ok (RmRecord.ofSlot fh.file_hdr.record_size (fh.get_slot rid.page_no rid.slot_no)),
          (fh.bpm_fetch_page rid.page_no).bpm_unpin_page rid.page_no false) := by
  rw [get_record, fetch_page_handle_ok fh _ hp.1 hp.2]
  simp only [get_slot_bpm_fetch_page]
  rfl

theorem get_record_ok (fh : RmFileHandle) (rid : Rid) (hp : fh.page_exists rid.page_no)
    (hs : 0 ≤ rid.slot_no) :
    fh.get_record rid
      = (.ok (RmRecord.ofSlot fh.file_hdr.record_size ((fh.pages rid.page_no).slots rid.slot_no)),
          (fh.bpm_fetch_page rid.page_no).bpm_unpin_page rid.page_no false) := by
  rw [get_record_of_page fh rid hp, get_slot_of_nonneg fh _ _ hs]

theorem bpm_fetch_page_file_hdr (fh : RmFileHandle) (p : Int) :
    (fh.bpm_fetch_page p).file_hdr = fh.file_hdr := rfl

theorem bpm_fetch_page_next_page_no (fh : RmFileHandle) (p : Int) :
    (fh.bpm_fetch_page p).next_page_no = fh.next_page_no := rfl

theorem bpm_fetch_page_pages (fh : RmFileHandle) (p q : Int) :
    ((fh.bpm_fetch_page p).pages q).page_hdr = (fh.pages q).page_hdr ∧
    ((fh.bpm_fetch_page p).pages q).bitmap = (fh.pages q).bitmap ∧
    ((fh.bpm_fetch_page p).pages q).slots = (fh.pages q).slots ∧
    ((fh.bpm_fetch_page p).pages q).pin_count
      = (fh.pages q).pin_count + (if q = p then 1 else 0) := by
  by_cases h : q = p <;> simp [bpm_fetch_page, h]

/-- What `create_page_handle` does when the free list is empty: the page counter
supplies the page, which is initialised and made the head of the free list. -/
theorem create_page_handle_new (fh : RmFileHandle)
    (h : fh.file_hdr.first_free_page_no = INVALID_PAGE_ID) :
    ∃ fh1, fh.create_page_handle = (.ok (fh.next_page_no : Int), fh1) ∧
      fh1.file_hdr = { fh.file_hdr with
        num_pages := fh.file_hdr.num_pages + 1
        first_free_page_no := (fh.next_page_no : Int) } ∧
      fh1.next_page_no = fh.next_page_no + 1 ∧
      (∀ q, q ≠ (fh.next_page_no : Int) → fh1.pages q = fh.pages q) ∧
      (fh1.pages fh.next_page_no).page_hdr
        = { next_free_page_no := INVALID_PAGE_ID, num_records := 0 } ∧
      (fh1.pages fh.next_page_no).bitmap = (fun _ => false) ∧
      (fh1.pages fh.next_page_no).slots = (fh.pages fh.next_page_no).slots ∧
      (fh1.pages fh.next_page_no).pin_count = (fh.pages fh.next_page_no).pin_count + 1 := by
  refine ⟨(fh.create_page_handle).2, ?_, ?_, ?_, ?_, ?_, ?_, ?_, ?_⟩
  · simp [create_page_handle, h, create_new_page_handle, bpm_new_page]
  · simp [create_page_handle, h, create_new_page_handle, bpm_new_page, set_bitmap, set_page_hdr]
  · simp [create_page_handle, h, create_new_page_handle, bpm_new_page, set_bitmap, set_page_hdr]
  · intro q hq
    simp [create_page_handle, h, create_new_page_handle, bpm_new_page, set_bitmap, set_page_hdr,
      hq]
  · simp [create_page_handle, h, create_new_page_handle, bpm_new_page, set_bitmap, set_page_hdr]
  · simp [create_page_handle, h, create_new_page_handle, bpm_new_page, set_bitmap, set_page_hdr]
    rfl
  · simp [create_page_handle, h, create_new_page_handle, bpm_new_page, set_bitmap, set_page_hdr]
  · simp [create_page_handle, h, create_new_page_handle, bpm_new_page, set_bitmap, set_page_hdr]

/-- What `create_page_handle` does when the free list has a head that exists. -/
theorem create_page_handle_head (fh : RmFileHandle)
    (h : fh.file_hdr.first_free_page_no ≠ INVALID_PAGE_ID)
    (hp : fh.page_exists fh.file_hdr.first_free_page_no) :
    fh.create_page_handle
      = (.ok fh.file_hdr.first_free_page_no, fh.bpm_fetch_page fh.file_hdr.first_free_page_no) := by
  rw [create_page_handle, if_neg h, fetch_page_handle_ok fh _ hp.1 hp.2]

/-- What the position-free `insert_record` does to the page that
`create_page_handle` hands it. -/
theorem insert_record_of_page (fh fh1 : RmFileHandle) (P : Int) (buf : List Byte)
    (h : fh.create_page_handle = (.ok P, fh1))
    (hid : fh1.slot_exists
      (Bitmap.first_bit false (fh1.pages P).bitmap fh1.file_hdr.num_records_per_page)) :
    ∃ fh', fh.insert_record buf
        = (.ok ⟨P, Bitmap.first_bit false (fh1.pages P).bitmap
            fh1.file_hdr.num_records_per_page⟩, fh') ∧
      fh'.file_hdr = { fh1.file_hdr with
        first_free_page_no :=
          if (fh1.pages P).page_hdr.num_records + 1 = fh1.file_hdr.num_records_per_page
          then (fh1.pages P).page_hdr.next_free_page_no
          else fh1.file_hdr.first_free_page_no } ∧
      fh'.next_page_no = fh1.next_page_no ∧
      (∀ q, q ≠ P → fh'.pages q = fh1.pages q) ∧
      (fh'.pages P).page_hdr = { (fh1.pages P).page_hdr with
        num_records := (fh1.pages P).page_hdr.num_records + 1 } ∧
      (fh'.pages P).bitmap = Function.update (fh1.pages P).bitmap
        (Bitmap.first_bit false (fh1.pages P).bitmap fh1.file_hdr.num_records_per_page) true ∧
      (fh'.pages P).slots = Function.update (fh1.pages P).slots
        (Bitmap.first_bit false (fh1.pages P).bitmap fh1.file_hdr.num_records_per_page)
        (memcpy ((fh1.pages P).slots
          (Bitmap.first_bit false (fh1.pages P).bitmap fh1.file_hdr.num_records_per_page))
          buf fh1.file_hdr.record_size) ∧
      (fh'.pages P).pin_count = (fh1.pages P).pin_count - 1 := by
  have e1 := memcpy_slot_of_nonneg fh1 P _ buf hid.1
  have e2 := bitmap_set_of_exists (fh1.write_slot P
    (Bitmap.first_bit false (fh1.pages P).bitmap fh1.file_hdr.num_records_per_page) buf) P _
    (bit_exists_of_slot_exists fh1 _ _ hid rfl)
  refine ⟨_, by rw [insert_record, h], ?_, ?_, ?_, ?_, ?_, ?_, ?_⟩ <;> dsimp only <;>
    rw [e1, e2]
  · split_ifs with h1 h2 h2 <;>
      simp [bpm_unpin_page, set_page_hdr, set_bitmap, write_slot] at h1 h2 ⊢
    · exact absurd h1 h2
    · exact absurd h2 h1
  · split_ifs <;> simp [bpm_unpin_page, set_page_hdr, set_bitmap, write_slot]
  · intro q hq
    split_ifs <;> simp [bpm_unpin_page, set_page_hdr, set_bitmap, write_slot, hq]
  · split_ifs <;> simp [bpm_unpin_page, set_page_hdr, set_bitmap, write_slot]
  · split_ifs <;> simp [bpm_unpin_page, set_page_hdr, set_bitmap, write_slot, Bitmap.set]
  · split_ifs <;> simp [bpm_unpin_page, set_page_hdr, set_bitmap, write_slot]
  · split_ifs <;> simp [bpm_unpin_page, set_page_hdr, set_bitmap, write_slot]

/-- Two states in which the page of `r` exists, the record size agrees and the slot
of `r` holds the same bytes give the same record for `r`. -/
theorem get_record_congr (fh fh' : RmFileHandle) (r : Rid)
    (hp : fh.page_exists r.page_no) (hs : 0 ≤ r.slot_no) (hp' : fh'.page_exists r.page_no)
    (hrs : fh'.file_hdr.record_size = fh.file_hdr.record_size)
    (hslot : (fh'.pages r.page_no).slots r.slot_no = (fh.pages r.page_no).slots r.slot_no) :
    (fh'.get_record r).1 = (fh.get_record r).1 := by
  rw [get_record_ok fh r hp hs, get_record_ok fh' r hp' hs, hrs, hslot]

/-- What `delete_record` does to an existing page. -/
theorem delete_record_of_page (fh : RmFileHandle) (rid : Rid)
    (hp : fh.page_exists rid.page_no) (hs : fh.slot_exists rid.slot_no) :
    ∃ fh', fh.delete_record rid = (.ok (), fh') ∧
      fh'.file_hdr = { fh.file_hdr with
        first_free_page_no :=
          if (fh.pages rid.page_no).page_hdr.num_records - 1
              = fh.file_hdr.num_records_per_page - 1
          then rid.page_no else fh.file_hdr.first_free_page_no } ∧
      fh'.next_page_no = fh.next_page_no ∧
      (∀ q, q ≠ rid.page_no → fh'.pages q = fh.pages q) ∧
      (fh'.pages rid.page_no).page_hdr =
        { next_free_page_no :=
            if (fh.pages rid.page_no).page_hdr.num_records - 1
                = fh.file_hdr.num_records_per_page - 1
            then fh.file_hdr.first_free_page_no
            else (fh.pages rid.page_no).page_hdr.next_free_page_no
          num_records := (fh.pages rid.page_no).page_hdr.num_records - 1 } ∧
      (fh'.pages rid.page_no).bitmap
        = Function.update (fh.pages rid.page_no).bitmap rid.slot_no false ∧
      (fh'.pages rid.page_no).slots = (fh.pages rid.page_no).slots ∧
      (fh'.pages rid.page_no).pin_count = (fh.pages rid.page_no).pin_count := by
  have e1 := bitmap_reset_of_exists (fh.bpm_fetch_page rid.page_no) rid.page_no rid.slot_no
    (bit_exists_of_slot_exists fh _ _ hs rfl)
  refine ⟨_, by rw [delete_record, fetch_page_handle_ok fh _ hp.1 hp.2], ?_, ?_, ?_, ?_, ?_, ?_,
    ?_⟩ <;> dsimp only <;> rw [e1]
  · split_ifs with h1 h2 h2 <;>
      simp [bpm_unpin_page, release_page_handle, set_page_hdr, set_bitmap, bpm_fetch_page]
        at h1 h2 ⊢
    · exact absurd h1 h2
    · exact absurd h2 h1
  · split_ifs <;>
      simp [bpm_unpin_page, release_page_handle, set_page_hdr, set_bitmap, bpm_fetch_page]
  · intro q hq
    split_ifs <;>
      simp [bpm_unpin_page, release_page_handle, set_page_hdr, set_bitmap, bpm_fetch_page, hq]
  · split_ifs with h1 h2 h2 <;>
      simp [bpm_unpin_page, release_page_handle, set_page_hdr, set_bitmap, bpm_fetch_page]
        at h1 h2 ⊢
    · exact absurd h1 h2
    · exact absurd h2 h1
  · split_ifs <;>
      simp [bpm_unpin_page, release_page_handle, set_page_hdr, set_bitmap, bpm_fetch_page,
        Bitmap.reset]
  · split_ifs <;>
      simp [bpm_unpin_page, release_page_handle, set_page_hdr, set_bitmap, bpm_fetch_page]
  · split_ifs <;>
      simp [bpm_unpin_page, release_page_handle, set_page_hdr, set_bitmap, bpm_fetch_page]

/-- What `update_record` does to an existing page. -/
theorem update_record_of_page (fh : RmFileHandle) (rid : Rid) (buf : List Byte)
    (hp : fh.page_exists rid.page_no) (hs : 0 ≤ rid.slot_no) :
    ∃ fh', fh.update_record rid buf = (.ok (), fh') ∧
      fh'.file_hdr = fh.file_hdr ∧
      fh'.next_page_no = fh.next_page_no ∧
      (∀ q, q ≠ rid.page_no → fh'.pages q = fh.pages q) ∧
      (fh'.pages rid.page_no).page_hdr = (fh.pages rid.page_no).page_hdr ∧
      (fh'.pages rid.page_no).bitmap = (fh.pages rid.page_no).bitmap ∧
      (fh'.pages rid.page_no).slots = Function.update (fh.pages rid.page_no).slots rid.slot_no
        (memcpy ((fh.pages rid.page_no).slots rid.slot_no) buf fh.file_hdr.record_size) ∧
      (fh'.pages rid.page_no).pin_count = (fh.pages rid.page_no).pin_count := by
  have e1 := memcpy_slot_of_nonneg (fh.bpm_fetch_page rid.page_no) rid.page_no rid.slot_no buf hs
  refine ⟨_, by rw [update_record, fetch_page_handle_ok fh _ hp.1 hp.2], ?_, ?_, ?_, ?_, ?_, ?_,
    ?_⟩ <;> dsimp only <;> rw [e1]
  · simp [bpm_unpin_page, write_slot, bpm_fetch_page]
  · simp [bpm_unpin_page, write_slot, bpm_fetch_page]
  · intro q hq
    simp [bpm_unpin_page, write_slot, bpm_fetch_page, hq]
  · simp [bpm_unpin_page, write_slot, bpm_fetch_page]
  · simp [bpm_unpin_page, write_slot, bpm_fetch_page]
  · simp [bpm_unpin_page, write_slot, bpm_fetch_page]
  · simp [bpm_unpin_page, write_slot, bpm_fetch_page]

end RmFileHandle

/-! ## The bitmap scan and the slot copy -/

theorem take_memcpy (dst src : List Byte) (n : Nat) (h : src.length = n) :
    (memcpy dst src n).take n = src := by
  subst h
  simp [memcpy]


namespace Bitmap

/-- A scan over a range that holds a bit equal to `bit` ends on the lowest such bit. -/
theorem first_bit_found (bit : Bool) (bm : Int → Bool) (n : Int)
    (h : ∃ i, 0 ≤ i ∧ i < n ∧ bm i = bit) :
    0 ≤ first_bit bit bm n ∧ first_bit bit bm n < n ∧ bm (first_bit bit bm n) = bit ∧
      ∀ j, 0 ≤ j → j < first_bit bit bm n → bm j ≠ bit := by
  obtain ⟨i, hi0, hin, hib⟩ := h
  unfold first_bit
  cases hf : (List.range n.toNat).find? (fun (i : Nat) => bm (i : Int) == bit) with
  | none =>
    exfalso
    rw [List.find?_range_eq_none] at hf
    have := hf i.toNat (by omega)
    simp [Int.toNat_of_nonneg hi0, hib] at this
  | some k =>
    rw [List.find?_range_eq_some] at hf
    obtain ⟨hk, hmem, hlow⟩ := hf
    rw [List.mem_range] at hmem
    refine ⟨by simp, by simp only; omega, by simpa using hk, ?_⟩
    intro j hj0 hjk
    have := hlow j.toNat (by simp only at hjk; omega)
    simpa [Int.toNat_of_nonneg hj0] using this

/-- The scan result is determined by being the lowest bit equal to `bit`. -/
theorem first_bit_eq (bit : Bool) (bm : Int → Bool) (n s : Int)
    (hs0 : 0 ≤ s) (hsn : s < n) (hsb : bm s = bit)
    (hlow : ∀ j, 0 ≤ j → j < s → bm j ≠ bit) :
    first_bit bit bm n = s := by
  obtain ⟨h0, _, hb, hl⟩ := first_bit_found bit bm n ⟨s, hs0, hsn, hsb⟩
  rcases lt_trichotomy (first_bit bit bm n) s with hlt | heq | hgt
  · exact absurd hb (hlow _ h0 hlt)
  · exact heq
  · exact absurd hsb (hl s hs0 hgt)

end Bitmap

/-! ## First-fit placement -/

namespace RmFileHandle

/-- On a page with a clear bit among its slots the bitmap scan ends on a slot of the
page. -/
theorem first_bit_slot_exists (fh : RmFileHandle) (P : Int) (h : fh.has_free_slot P) :
    fh.slot_exists
      (Bitmap.first_bit false (fh.pages P).bitmap fh.file_hdr.num_records_per_page) := by
  obtain ⟨i, hi, hib⟩ := h
  obtain ⟨h0, h1, _⟩ := Bitmap.first_bit_found false (fh.pages P).bitmap
    fh.file_hdr.num_records_per_page ⟨i, hi.1, hi.2, hib⟩
  exact ⟨h0, h1⟩

theorem has_free_slot_bpm_fetch_page (fh : RmFileHandle) (p P : Int) (h : fh.has_free_slot P) :
    (fh.bpm_fetch_page p).has_free_slot P := by
  obtain ⟨i, hi, hib⟩ := h
  exact ⟨i, hi, by rw [(bpm_fetch_page_pages fh p P).2.1]; exact hib⟩

/-- The position-free insert on the page `P` that `create_page_handle` hands it,
when `P` has a clear bit: the record goes to the lowest clear bit. -/
theorem insert_record_place (fh fh1 : RmFileHandle) (P : Int) (buf : List Byte)
    (hc : fh.create_page_handle = (.ok P, fh1)) (hfree : fh1.has_free_slot P)
    (hlen : buf.length = fh1.file_hdr.record_size) :
    ∃ s fh', fh.insert_record buf = (.ok ⟨P, s⟩, fh') ∧
      fh1.slot_exists s ∧ (fh1.pages P).bitmap s = false ∧
      (∀ j, 0 ≤ j → j < s → (fh1.pages P).bitmap j = true) ∧
      (fh'.pages P).bitmap s = true ∧ fh'.slot_bytes P s = buf ∧
      (fh'.pages P).page_hdr.num_records = (fh1.pages P).page_hdr.num_records + 1 ∧
      (∀ j, j ≠ s → (fh'.pages P).bitmap j = (fh1.pages P).bitmap j ∧
        (fh'.pages P).slots j = (fh1.pages P).slots j) := by
  obtain ⟨i, hi', hib⟩ := hfree
  obtain ⟨h0, h1, h2, h3⟩ := Bitmap.first_bit_found false (fh1.pages P).bitmap
    fh1.file_hdr.num_records_per_page ⟨i, hi'.1, hi'.2, hib⟩
  obtain ⟨fh', hi, hhdr, _, _, hph, hbm, hslots, _⟩ :=
    insert_record_of_page fh fh1 P buf hc ⟨h0, h1⟩
  have hrs : fh'.file_hdr.record_size = fh1.file_hdr.record_size := by rw [hhdr]
  refine ⟨_, fh', hi, ⟨h0, h1⟩, h2, ?_, ?_, ?_, ?_, ?_⟩
  · intro j hj0 hj
    simpa using h3 j hj0 hj
  · rw [hbm, Function.update_same]
  · rw [slot_bytes, hslots, Function.update_same, hrs, take_memcpy _ _ _ hlen]
  · rw [hph]
  · intro j hj
    rw [hbm, hslots, Function.update_noteq hj, Function.update_noteq hj]
    exact ⟨rfl, rfl⟩

end RmFileHandle

/-! ## Filling pages one record at a time -/

namespace RmFileHandle

/-- One insert into the page `P` handed over by `create_page_handle`, when `P`
heads the free list, ends it, and has exactly its slots `0 .. c-1` occupied. -/
theorem insert_record_fill (fh fh1 : RmFileHandle) (P : Int) (buf : List Byte) (m c : Nat)
    (hc : fh.create_page_handle = (.ok P, fh1))
    (hn1 : fh1.file_hdr.num_records_per_page = (m : Int)) (hcm : c < m)
    (hnum : (fh1.pages P).page_hdr.num_records = (c : Int))
    (hnext : (fh1.pages P).page_hdr.next_free_page_no = INVALID_PAGE_ID)
    (hff1 : fh1.file_hdr.first_free_page_no = P)
    (hbits : ∀ j : Int, 0 ≤ j → j < (m : Int) →
      ((fh1.pages P).bitmap j = true ↔ j < (c : Int))) :
    ∃ fh', fh.insert_record buf = (.ok ⟨P, (c : Int)⟩, fh') ∧
      fh'.file_hdr.num_records_per_page = (m : Int) ∧
      fh'.file_hdr.num_pages = fh1.file_hdr.num_pages ∧
      fh'.next_page_no = fh1.next_page_no ∧
      fh'.file_hdr.first_free_page_no = (if c + 1 = m then INVALID_PAGE_ID else P) ∧
      (fh'.pages P).page_hdr.num_records = ((c + 1 : Nat) : Int) ∧
      (fh'.pages P).page_hdr.next_free_page_no = INVALID_PAGE_ID ∧
      (∀ j : Int, 0 ≤ j → j < (m : Int) →
        ((fh'.pages P).bitmap j = true ↔ j < ((c + 1 : Nat) : Int))) := by
  have hfb : Bitmap.first_bit false (fh1.pages P).bitmap fh1.file_hdr.num_records_per_page
      = (c : Int) := by
    rw [hn1]
    apply Bitmap.first_bit_eq _ _ _ _ (Int.ofNat_nonneg c) (by omega)
    · have := (hbits c (Int.ofNat_nonneg c) (by omega)).not
      simpa using this
    · intro j hj0 hjc
      have := (hbits j hj0 (by omega)).2 hjc
      rw [this]; decide
  obtain ⟨fh', hi, hhdr, hnp, _, hph, hbm, _, _⟩ := insert_record_of_page fh fh1 P buf hc
    (by rw [hfb]; exact ⟨Int.ofNat_nonneg c, by rw [hn1]; omega⟩)
  rw [hfb] at hi hbm
  refine ⟨fh', hi, by rw [hhdr]; exact hn1, by rw [hhdr], hnp, ?_, ?_, ?_, ?_⟩
  · rw [hhdr]
    simp only
    rw [hnum, hn1, hnext, hff1]
    by_cases h : c + 1 = m
    · rw [if_pos h, if_pos (by omega)]
    · rw [if_neg h, if_neg (by omega)]
  · rw [hph]; simp only; rw [hnum]; omega
  · rw [hph]; exact hnext
  · intro j hj0 hjm
    rw [hbm]
    by_cases hjc : j = (c : Int)
    · subst hjc
      rw [Function.update_same]
      simp
    · rw [Function.update_noteq hjc, hbits j hj0 hjm]
      omega

/-- One insert in a file filled up to position `(q, c)`: the record goes to slot
`c` of page `q`, and the file is filled up to the next position. -/
theorem insert_record_filled_to (fh : RmFileHandle) (m q c : Nat) (buf : List Byte)
    (h : fh.filled_to m q c) :
    ∃ fh', fh.insert_record buf = (.ok ⟨(q : Int), (c : Int)⟩, fh') ∧
      fh'.filled_to m (if c + 1 = m then q + 1 else q) (if c + 1 = m then 0 else c + 1) := by
  obtain ⟨hn, hstep, hcm, h0, h1⟩ := h
  by_cases hc0 : c = 0
  · subst hc0
    obtain ⟨hnp, hff⟩ := h0 rfl
    have hq : (fh.next_page_no : Int) = (q : Int) := by rw [hstep, hnp]
    obtain ⟨fh1, hc, hhdr1, hnp1, _, hph1, hbm1, _, _⟩ := create_page_handle_new fh hff
    rw [hq] at hc hhdr1 hph1 hbm1
    obtain ⟨fh', hi, hn', hpages', hnext', hff', hnum', hnf', hbits'⟩ :=
      insert_record_fill fh fh1 (q : Int) buf m 0 hc (by rw [hhdr1]; exact hn) hcm
        (by rw [hph1]; rfl) (by rw [hph1]) (by rw [hhdr1])
        (by intro j hj0 _; rw [hbm1]; simp; omega)
    have hpg : fh'.file_hdr.num_pages = (q : Int) + 1 := by rw [hpages', hhdr1]; simp only; omega
    have hnx : (fh'.next_page_no : Int) = (q : Int) + 1 := by
      rw [hnext', hnp1]; push_cast; omega
    refine ⟨fh', hi, hn', by rw [hnx, hpg], ?_, ?_, ?_⟩
    · split_ifs <;> omega
    · intro hz
      have hm1 : 0 + 1 = m := by
        by_contra hne; rw [if_neg hne] at hz; omega
      rw [if_pos hm1]
      rw [if_pos hm1] at hff'
      exact ⟨by rw [hpg]; push_cast; rfl, hff'⟩
    · intro hz
      have hm1 : ¬ 0 + 1 = m := by
        intro he; rw [if_pos he] at hz; exact hz rfl
      rw [if_neg hm1] at hff' ⊢
      rw [if_neg hm1]
      exact ⟨hpg, hff', hnum', hnf', hbits'⟩
  · obtain ⟨hnp, hff, hnum, hnf, hbits⟩ := h1 hc0
    have hne : fh.file_hdr.first_free_page_no ≠ INVALID_PAGE_ID := by
      rw [hff]; unfold INVALID_PAGE_ID; omega
    have hp : fh.page_exists fh.file_hdr.first_free_page_no := by
      rw [hff]; exact ⟨Int.ofNat_nonneg q, by rw [hnp]; omega⟩
    have hc := create_page_handle_head fh hne hp
    rw [hff] at hc
    have hpg := bpm_fetch_page_pages fh (q : Int) (q : Int)
    obtain ⟨fh', hi, hn', hpages', hnext', hff', hnum', hnf', hbits'⟩ :=
      insert_record_fill fh _ (q : Int) buf m c hc hn hcm (by rw [hpg.1]; exact hnum)
        (by rw [hpg.1]; exact hnf) hff (by rw [hpg.2.1]; exact hbits)
    rw [bpm_fetch_page_file_hdr] at hpages'
    rw [bpm_fetch_page_next_page_no] at hnext'
    refine ⟨fh', hi, hn', by rw [hnext', hpages']; exact hstep, ?_, ?_, ?_⟩
    · split_ifs <;> omega
    · intro hz
      have hm1 : c + 1 = m := by
        by_contra hne'; rw [if_neg hne'] at hz; omega
      rw [if_pos hm1]
      rw [if_pos hm1] at hff'
      exact ⟨by rw [hpages', hnp]; push_cast; rfl, hff'⟩
    · intro hz
      have hm1 : ¬ c + 1 = m := by
        intro he; rw [if_pos he] at hz; exact hz rfl
      rw [if_neg hm1] at hff' ⊢
      rw [if_neg hm1]
      exact ⟨by rw [hpages', hnp], hff', hnum', hnf', hbits'⟩

/-- Successive inserts in a file filled up to `pos` go to the successive positions. -/
theorem insert_all_filled_to (m : Nat) (bufs : List (List Byte)) :
    ∀ (fh : RmFileHandle) (pos : Nat × Nat), fh.filled_to m pos.1 pos.2 →
      (fh.insert_all bufs).2.filled_to m ((next_position m)^[bufs.length] pos).1
        ((next_position m)^[bufs.length] pos).2 ∧
      ∀ t, t < bufs.length →
        (fh.insert_all bufs).1[t]? = some (.ok ⟨(((next_position m)^[t] pos).1 : Int),
          (((next_position m)^[t] pos).2 : Int)⟩) := by
  induction bufs with
  | nil =>
    intro fh pos h
    exact ⟨h, fun t ht => absurd ht (Nat.not_lt_zero t)⟩
  | cons buf rest ih =>
    intro fh pos h
    obtain ⟨fh', hi, hfill⟩ := insert_record_filled_to fh m pos.1 pos.2 buf h
    have hnext : next_position m pos
        = (if pos.2 + 1 = m then pos.1 + 1 else pos.1, if pos.2 + 1 = m then 0 else pos.2 + 1) := by
      unfold next_position; split_ifs <;> rfl
    have hfill' : fh'.filled_to m (next_position m pos).1 (next_position m pos).2 := by
      rw [hnext]; exact hfill
    obtain ⟨ih1, ih2⟩ := ih fh' (next_position m pos) hfill'
    simp only [insert_all, hi, List.length_cons, Function.iterate_succ_apply]
    refine ⟨ih1, ?_⟩
    intro t ht
    cases t with
    | zero => simp
    | succ t =>
      simp only [List.getElem?_cons_succ, Function.iterate_succ_apply]
      exact ih2 t (by omega)

/-- The positions reached from `(0, 0)` within the first two pages. -/
theorem next_position_iterate (m : Nat) (hm : 1 ≤ m) (t : Nat) :
    (t < m → (next_position m)^[t] (0, 0) = (0, t)) ∧
    (m ≤ t → t < 2 * m → (next_position m)^[t] (0, 0) = (1, t - m)) ∧
    (t = 2 * m → (next_position m)^[t] (0, 0) = (2, 0)) := by
  induction t with
  | zero =>
    refine ⟨fun _ => rfl, fun h => by omega, fun h => by omega⟩
  | succ t ih =>
    obtain ⟨ih1, ih2, _⟩ := ih
    refine ⟨?_, ?_, ?_⟩
    · intro h
      rw [Function.iterate_succ_apply', ih1 (by omega), next_position, if_neg (by simp; omega)]
    · intro h1 h2
      rw [Function.iterate_succ_apply']
      by_cases htm : t < m
      · rw [ih1 htm, next_position, if_pos (by simp; omega)]
        simp; omega
      · rw [ih2 (by omega) (by omega), next_position, if_neg (by simp; omega)]
        simp; omega
    · intro h
      rw [Function.iterate_succ_apply', ih2 (by omega) (by omega), next_position,
        if_pos (by simp; omega)]

end RmFileHandle

/-! ## Page-number allocation -/

theorem wrap_int32_of_range (x : Int) (h0 : -2147483648 ≤ x) (h1 : x < 2147483648) :
    wrap_int32 x = x := by
  unfold wrap_int32
  omega

theorem wrap_int32_add (a b : Int) : wrap_int32 (wrap_int32 a + b) = wrap_int32 (a + b) := by
  unfold wrap_int32
  omega

theorem wrap_int32_idem (a : Int) : wrap_int32 (wrap_int32 a) = wrap_int32 a := by
  unfold wrap_int32
  omega

namespace DiskManager

theorem allocations_cons (fd : Int) (c : DmCall) (calls : List DmCall) :
    allocations fd (c :: calls)
      = allocations fd calls + (if c = DmCall.allocate_page fd then 1 else 0) := by
  unfold allocations
  rw [List.count_cons]
  by_cases h : c = DmCall.allocate_page fd <;> simp [h]

/-- A run whose `allocate_page` calls all pass the assertion goes through; every
`allocate_page fd` returns the counter of `fd` at the start advanced, with
wrap-around, by the number of earlier `allocate_page fd` calls, and the counters
end advanced by the number of calls made for them. -/
theorem run_counts (MAX_FD : Int) (calls : List DmCall) :
    ∀ dm : DiskManager,
      (∀ fd, wrap_int32 (dm.fd2pageno_ fd) = dm.fd2pageno_ fd) →
      (∀ fd, DmCall.allocate_page fd ∈ calls → 0 ≤ fd ∧ fd < MAX_FD) →
      ∃ outs dm', run MAX_FD dm calls = some (outs, dm') ∧
        outs.length = calls.length ∧
        (∀ fd, dm'.fd2pageno_ fd
          = wrap_int32 (dm.fd2pageno_ fd + (allocations fd calls : Int))) ∧
        (∀ i fd, calls[i]? = some (DmCall.allocate_page fd) →
          outs[i]? = some (some
            (wrap_int32 (dm.fd2pageno_ fd + (allocations fd (calls.take i) : Int))))) := by
  induction calls with
  | nil =>
    intro dm hdm _
    exact ⟨[], dm, rfl, rfl, fun fd => by simp [allocations, hdm], fun i fd h => by simp at h⟩
  | cons c rest ih =>
    intro dm hdm hfd
    have hrest : ∀ fd, DmCall.allocate_page fd ∈ rest → 0 ≤ fd ∧ fd < MAX_FD :=
      fun fd h => hfd fd (List.mem_cons_of_mem _ h)
    cases c with
    | allocate_page fd0 =>
      have hin := hfd fd0 (List.mem_cons_self _ _)
      have hcond : fd0 ≥ 0 ∧ fd0 < MAX_FD := ⟨hin.1, hin.2⟩
      have hdm1 : ∀ fd, wrap_int32 ((Function.update dm.fd2pageno_ fd0
          (wrap_int32 (dm.fd2pageno_ fd0 + 1))) fd)
            = (Function.update dm.fd2pageno_ fd0 (wrap_int32 (dm.fd2pageno_ fd0 + 1))) fd := by
        intro fd
        by_cases h : fd = fd0
        · subst h
          rw [Function.update_same, wrap_int32_idem]
        · rw [Function.update_noteq h, hdm]
      obtain ⟨outs, dm', hrun, hl, hctr, hout⟩ :=
        ih { dm with
             fd2pageno_ := Function.update dm.fd2pageno_ fd0 (wrap_int32 (dm.fd2pageno_ fd0 + 1)) }
          hdm1 hrest
      refine ⟨some (dm.fd2pageno_ fd0) :: outs, dm', ?_, by simp [hl], ?_, ?_⟩
      · simp only [run, allocate_page, if_pos hcond, hrun]
      · intro fd
        rw [hctr fd, allocations_cons]
        by_cases h : fd = fd0
        · subst h
          simp only [Function.update_same, if_true, Nat.cast_add, Nat.cast_one]
          rw [wrap_int32_add]
          congr 1
          omega
        · have h' : ¬ DmCall.allocate_page fd0 = DmCall.allocate_page fd := by
            intro he; injection he with he; exact h he.symm
          simp [Function.update_noteq h, h']
      · intro i fd hi
        cases i with
        | zero =>
          simp only [List.getElem?_cons_zero, Option.some.injEq] at hi
          injection hi with hi
          subst hi
          simp [allocations, hdm]
        | succ i =>
          simp only [List.getElem?_cons_succ] at hi
          simp only [List.getElem?_cons_succ, List.take_succ_cons]
          rw [hout i fd hi, allocations_cons]
          by_cases h : fd = fd0
          · subst h
            simp only [Function.update_same, if_true, Nat.cast_add, Nat.cast_one]
            rw [wrap_int32_add]
            congr 3
            omega
          · have h' : ¬ DmCall.allocate_page fd0 = DmCall.allocate_page fd := by
              intro he; injection he with he; exact h he.symm
            simp [Function.update_noteq h, h']
    | deallocate_page pid =>
      obtain ⟨outs, dm', hrun, hl, hctr, hout⟩ := ih dm hdm hrest
      refine ⟨none :: outs, dm', ?_, by simp [hl], ?_, ?_⟩
      · simp only [run, deallocate_page, hrun]
      · intro fd
        rw [hctr fd, allocations_cons]
        simp
      · intro i fd hi
        cases i with
        | zero => simp at hi
        | succ i =>
          simp only [List.getElem?_cons_succ] at hi
          simp only [List.getElem?_cons_succ, List.take_succ_cons]
          rw [hout i fd hi, allocations_cons]
          simp

/-- Between two `allocate_page fd` calls the count of earlier ones grows. -/
theorem allocations_take_lt (fd : Int) (calls : List DmCall) (i1 i2 : Nat) (h : i1 < i2)
    (h1 : calls[i1]? = some (DmCall.allocate_page fd)) :
    allocations fd (calls.take i1) < allocations fd (calls.take i2) := by
  have hsub : (calls.take (i1 + 1)).Sublist (calls.take i2) := by
    have : calls.take (i1 + 1) = (calls.take i2).take (i1 + 1) := by
      rw [List.take_take, Nat.min_eq_left (by omega)]
    rw [this]
    exact List.take_sublist _ _
  have hle := hsub.count_le (DmCall.allocate_page fd)
  have hsucc : allocations fd (calls.take (i1 + 1)) = allocations fd (calls.take i1) + 1 := by
    unfold allocations
    rw [List.take_succ, h1]
    simp
  unfold allocations at hsucc ⊢
  omega

end DiskManager

/-! ## Buffer-pool calls of the operations -/

namespace RmFileHandle

@[simp] theorem setPage_bpm_calls (fh : RmFileHandle) (p : Int) (pg : Page) :
    (fh.setPage p pg).bpm_calls = fh.bpm_calls := rfl

@[simp] theorem set_first_free_bpm_calls (fh : RmFileHandle) (v : Int) :
    (fh.set_first_free v).bpm_calls = fh.bpm_calls := rfl

@[simp] theorem memcpy_slot_bpm_calls (fh : RmFileHandle) (p s : Int) (buf : List Byte) :
    (fh.memcpy_slot p s buf).bpm_calls = fh.bpm_calls := (memcpy_slot_frame fh p s buf).2.2.1

@[simp] theorem bitmap_set_bpm_calls (fh : RmFileHandle) (p pos : Int) :
    (fh.bitmap_set p pos).bpm_calls = fh.bpm_calls := (bitmap_set_frame fh p pos).2.2.1

@[simp] theorem bitmap_reset_bpm_calls (fh : RmFileHandle) (p pos : Int) :
    (fh.bitmap_reset p pos).bpm_calls = fh.bpm_calls := (bitmap_reset_frame fh p pos).2.2.1

theorem create_page_handle_new_calls (fh : RmFileHandle)
    (h : fh.file_hdr.first_free_page_no = INVALID_PAGE_ID) :
    (fh.create_page_handle).2.bpm_calls
      = fh.bpm_calls ++ [BpmCall.new_page (fh.next_page_no : Int)] := by
  simp [create_page_handle, h, create_new_page_handle, bpm_new_page, set_bitmap, set_page_hdr,
    set_first_free]

theorem insert_record_calls (fh fh1 : RmFileHandle) (P : Int) (buf : List Byte)
    (h : fh.create_page_handle = (.ok P, fh1)) :
    (fh.insert_record buf).2.bpm_calls = fh1.bpm_calls ++ [BpmCall.unpin_page P true] := by
  rw [insert_record, h]
  dsimp only
  split_ifs <;>
    simp [bpm_unpin_page, set_page_hdr, set_bitmap, write_slot]

end RmFileHandle

/-! ## Counting occupancy bits -/

theorem countP_range_update (bm : Int → Bool) (s : Int) (b : Bool) (N : Nat) :
    (List.range N).countP (fun (i : Nat) => Function.update bm s b (i : Int))
        + (if 0 ≤ s ∧ s < (N : Int) ∧ bm s = true then 1 else 0)
      = (List.range N).countP (fun (i : Nat) => bm (i : Int))
        + (if 0 ≤ s ∧ s < (N : Int) ∧ b = true then 1 else 0) := by
  induction N with
  | zero =>
    have h1 : ¬ (0 ≤ s ∧ s < ((0 : Nat) : Int) ∧ bm s = true) := by omega
    have h2 : ¬ (0 ≤ s ∧ s < ((0 : Nat) : Int) ∧ b = true) := by omega
    rw [if_neg h1, if_neg h2]
    rfl
  | succ N ih =>
    rw [List.range_succ, List.countP_append, List.countP_append]
    have t1 : List.countP (fun (i : Nat) => Function.update bm s b (i : Int)) [N]
        = if Function.update bm s b (N : Int) = true then 1 else 0 := by
      simp [List.countP_cons]
    have t2 : List.countP (fun (i : Nat) => bm (i : Int)) [N]
        = if bm (N : Int) = true then 1 else 0 := by
      simp [List.countP_cons]
    rw [t1, t2]
    by_cases hs : (N : Int) = s
    · subst hs
      have h1 : ¬ ((0 : Int) ≤ (N : Int) ∧ (N : Int) < (N : Int) ∧ bm N = true) := by omega
      have h2 : ¬ ((0 : Int) ≤ (N : Int) ∧ (N : Int) < (N : Int) ∧ b = true) := by omega
      rw [if_neg h1, if_neg h2] at ih
      rw [Function.update_same]
      have e1 : ((0 : Int) ≤ (N : Int) ∧ (N : Int) < ((N + 1 : Nat) : Int) ∧ bm N = true)
          ↔ bm N = true := by
        constructor
        · exact fun h => h.2.2
        · exact fun h => ⟨by omega, by omega, h⟩
      have e2 : ((0 : Int) ≤ (N : Int) ∧ (N : Int) < ((N + 1 : Nat) : Int) ∧ b = true)
          ↔ b = true := by
        constructor
        · exact fun h => h.2.2
        · exact fun h => ⟨by omega, by omega, h⟩
      simp only [e1, e2]
      omega
    · have e1 : (0 ≤ s ∧ s < ((N + 1 : Nat) : Int) ∧ bm s = true)
          ↔ (0 ≤ s ∧ s < (N : Int) ∧ bm s = true) := by
        constructor <;> rintro ⟨a, b', c⟩ <;> exact ⟨a, by omega, c⟩
      have e2 : (0 ≤ s ∧ s < ((N + 1 : Nat) : Int) ∧ b = true)
          ↔ (0 ≤ s ∧ s < (N : Int) ∧ b = true) := by
        constructor <;> rintro ⟨a, b', c⟩ <;> exact ⟨a, by omega, c⟩
      rw [Function.update_noteq hs]
      simp only [e1, e2]
      omega

theorem popcount_update (bm : Int → Bool) (n s : Int) (b : Bool) :
    popcount (Function.update bm s b) n + (if 0 ≤ s ∧ s < n ∧ bm s = true then 1 else 0)
      = popcount bm n + (if 0 ≤ s ∧ s < n ∧ b = true then 1 else 0) := by
  have h := countP_range_update bm s b n.toNat
  have e : ∀ c : Prop, (0 ≤ s ∧ s < (n.toNat : Int) ∧ c) ↔ (0 ≤ s ∧ s < n ∧ c) := by
    intro c
    constructor <;> rintro ⟨a, b', c'⟩ <;> exact ⟨a, by omega, c'⟩
  simp only [e] at h
  exact h

theorem popcount_le (bm : Int → Bool) (n : Int) : popcount bm n ≤ n.toNat := by
  unfold popcount
  calc (List.range n.toNat).countP (fun (i : Nat) => bm (i : Int))
      ≤ (List.range n.toNat).length := List.countP_le_length _
    _ = n.toNat := List.length_range _

theorem popcount_clear : ∀ n : Int, popcount (fun _ => false) n = 0 := by
  intro n
  simp [popcount]

/-- A page with fewer set bits than slots has a clear bit among them. -/
theorem exists_clear_of_popcount_lt (bm : Int → Bool) (n : Int)
    (h : (popcount bm n : Int) < n) : ∃ s, (0 ≤ s ∧ s < n) ∧ bm s = false := by
  by_contra hne
  have hall : ∀ i ∈ List.range n.toNat, (fun (i : Nat) => bm (i : Int)) i = true := by
    intro i hi
    rw [List.mem_range] at hi
    by_contra hb
    exact hne ⟨(i : Int), ⟨by omega, by omega⟩, by simpa using hb⟩
  have : popcount bm n = n.toNat := by
    unfold popcount
    rw [List.countP_eq_length.2 hall, List.length_range]
  omega

/-! ## Invariant I1 page by page -/

namespace RmFileHandle

theorem I1_at_of_eq (fh fh' : RmFileHandle) (p : Int)
    (hn : fh'.file_hdr.num_records_per_page = fh.file_hdr.num_records_per_page)
    (hh : (fh'.pages p).page_hdr.num_records = (fh.pages p).page_hdr.num_records)
    (hb : (fh'.pages p).bitmap = (fh.pages p).bitmap) (h : fh.I1_at p) : fh'.I1_at p := by
  unfold I1_at at h ⊢
  rw [hn, hh, hb]
  exact h

/-- What `create_new_page_handle` does, whatever the free list is. -/
theorem create_new_page_handle_spec (fh : RmFileHandle) :
    (fh.create_new_page_handle).1 = .ok (fh.next_page_no : Int) ∧
    (fh.create_new_page_handle).2.file_hdr = { fh.file_hdr with
      num_pages := fh.file_hdr.num_pages + 1
      first_free_page_no := (fh.next_page_no : Int) } ∧
    (fh.create_new_page_handle).2.next_page_no = fh.next_page_no + 1 ∧
    (∀ q, q ≠ (fh.next_page_no : Int) →
      (fh.create_new_page_handle).2.pages q = fh.pages q) ∧
    ((fh.create_new_page_handle).2.pages fh.next_page_no).page_hdr
      = { next_free_page_no := fh.file_hdr.first_free_page_no, num_records := 0 } ∧
    ((fh.create_new_page_handle).2.pages fh.next_page_no).bitmap = (fun _ => false) := by
  refine ⟨?_, ?_, ?_, ?_, ?_, ?_⟩
  · simp [create_new_page_handle, bpm_new_page]
  · simp [create_new_page_handle, bpm_new_page, set_bitmap, set_page_hdr]
  · simp [create_new_page_handle, bpm_new_page, set_bitmap, set_page_hdr]
  · intro q hq
    simp [create_new_page_handle, bpm_new_page, set_bitmap, set_page_hdr, hq]
  · simp [create_new_page_handle, bpm_new_page, set_bitmap, set_page_hdr]
  · simp [create_new_page_handle, bpm_new_page, set_bitmap, set_page_hdr]
    rfl

/-- What the fixed-position `insert_record` does to an existing page. -/
theorem insert_record_at_of_page (fh : RmFileHandle) (rid : Rid) (buf : List Byte)
    (hp : fh.page_exists rid.page_no) (hs : fh.slot_exists rid.slot_no) :
    ∃ fh', fh.insert_record_at rid buf = (.ok (), fh') ∧
      fh'.file_hdr = { fh.file_hdr with
        first_free_page_no :=
          if (fh.pages rid.page_no).page_hdr.num_records + 1
              = fh.file_hdr.num_records_per_page
          then (fh.pages rid.page_no).page_hdr.next_free_page_no
          else fh.file_hdr.first_free_page_no } ∧
      fh'.next_page_no = fh.next_page_no ∧
      (∀ q, q ≠ rid.page_no → fh'.pages q = fh.pages q) ∧
      (fh'.pages rid.page_no).page_hdr = { (fh.pages rid.page_no).page_hdr with
        num_records := (fh.pages rid.page_no).page_hdr.num_records + 1 } ∧
      (fh'.pages rid.page_no).bitmap
        = Function.update (fh.pages rid.page_no).bitmap rid.slot_no true := by
  have e1 := memcpy_slot_of_nonneg (fh.bpm_fetch_page rid.page_no) rid.page_no rid.slot_no buf
    hs.1
  have e2 := bitmap_set_of_exists
    ((fh.bpm_fetch_page rid.page_no).write_slot rid.page_no rid.slot_no buf) rid.page_no
    rid.slot_no (bit_exists_of_slot_exists fh _ _ hs rfl)
  refine ⟨_, by rw [insert_record_at, fetch_page_handle_ok fh _ hp.1 hp.2], ?_, ?_, ?_, ?_, ?_⟩
    <;> dsimp only <;> rw [e1, e2]
  · split_ifs with h1 h2 h2 <;>
      simp [bpm_unpin_page, set_page_hdr, set_bitmap, write_slot, bpm_fetch_page] at h1 h2 ⊢
    · exact absurd h1 h2
    · exact absurd h2 h1
  · split_ifs <;> simp [bpm_unpin_page, set_page_hdr, set_bitmap, write_slot, bpm_fetch_page]
  · intro q hq
    split_ifs <;>
      simp [bpm_unpin_page, set_page_hdr, set_bitmap, write_slot, bpm_fetch_page, hq]
  · split_ifs <;> simp [bpm_unpin_page, set_page_hdr, set_bitmap, write_slot, bpm_fetch_page]
  · split_ifs <;>
      simp [bpm_unpin_page, set_page_hdr, set_bitmap, write_slot, bpm_fetch_page, Bitmap.set]

/-- An operation that throws on a page number outside the file leaves the state. -/
theorem no_page_no_effect (fh : RmFileHandle) (rid : Rid) (buf : List Byte)
    (hp : ¬ fh.page_exists rid.page_no) :
    (fh.get_record rid).2 = fh ∧ (fh.insert_record_at rid buf).2 = fh ∧
    (fh.delete_record rid).2 = fh ∧ (fh.update_record rid buf).2 = fh := by
  have he := fetch_page_handle_err fh rid.page_no (by unfold page_exists at hp; omega)
  refine ⟨?_, ?_, ?_, ?_⟩
  · rw [get_record, he]
  · rw [insert_record_at, he]
  · rw [delete_record, he]
  · rw [update_record, he]

theorem get_record_I1_at (fh : RmFileHandle) (rid : Rid) (q : Int) (h : fh.I1_at q) :
    (fh.get_record rid).2.I1_at q := by
  by_cases hp : fh.page_exists rid.page_no
  · rw [get_record_of_page fh rid hp]
    apply I1_at_of_eq fh _ q _ _ _ h
    · simp [bpm_unpin_page, bpm_fetch_page]
    · by_cases hq : q = rid.page_no <;> simp [bpm_unpin_page, bpm_fetch_page, hq]
    · by_cases hq : q = rid.page_no <;> simp [bpm_unpin_page, bpm_fetch_page, hq]
  · rw [(no_page_no_effect fh rid [] hp).1]
    exact h

theorem update_record_I1_at (fh : RmFileHandle) (rid : Rid) (buf : List Byte) (q : Int)
    (hs : 0 ≤ rid.slot_no) (h : fh.I1_at q) : (fh.update_record rid buf).2.I1_at q := by
  by_cases hp : fh.page_exists rid.page_no
  · obtain ⟨fh', hu, hhdr, _, hoth, hph, hbm, _⟩ := update_record_of_page fh rid buf hp hs
    rw [hu]
    apply I1_at_of_eq fh fh' q (by rw [hhdr]) _ _ h
    · by_cases hq : q = rid.page_no
      · rw [hq, hph]
      · rw [hoth q hq]
    · by_cases hq : q = rid.page_no
      · rw [hq, hbm]
      · rw [hoth q hq]
  · rw [(no_page_no_effect fh rid buf hp).2.2.2]
    exact h

theorem delete_record_I1_at (fh : RmFileHandle) (rid : Rid) (q : Int)
    (hs : fh.slot_exists rid.slot_no) (hb : (fh.pages rid.page_no).bitmap rid.slot_no = true)
    (h : fh.I1_at q) : (fh.delete_record rid).2.I1_at q := by
  by_cases hp : fh.page_exists rid.page_no
  · obtain ⟨fh', hd, hhdr, _, hoth, hph, hbm, _⟩ := delete_record_of_page fh rid hp hs
    rw [hd]
    by_cases hq : q = rid.page_no
    · subst hq
      unfold I1_at at h ⊢
      simp only
      rw [hph, hbm, hhdr]
      simp only
      have hpc := popcount_update (fh.pages rid.page_no).bitmap
        fh.file_hdr.num_records_per_page rid.slot_no false
      rw [if_pos ⟨hs.1, hs.2, hb⟩, if_neg (by simp)] at hpc
      rw [h]
      omega
    · exact I1_at_of_eq fh fh' q (by rw [hhdr]) (by rw [hoth q hq]) (by rw [hoth q hq]) h
  · rw [(no_page_no_effect fh rid [] hp).2.2.1]
    exact h

theorem insert_record_at_I1_at (fh : RmFileHandle) (rid : Rid) (buf : List Byte) (q : Int)
    (hs : fh.slot_exists rid.slot_no) (hb : (fh.pages rid.page_no).bitmap rid.slot_no = false)
    (h : fh.I1_at q) : (fh.insert_record_at rid buf).2.I1_at q := by
  by_cases hp : fh.page_exists rid.page_no
  · obtain ⟨fh', hd, hhdr, _, hoth, hph, hbm⟩ := insert_record_at_of_page fh rid buf hp hs
    rw [hd]
    by_cases hq : q = rid.page_no
    · subst hq
      unfold I1_at at h ⊢
      simp only
      rw [hph, hbm, hhdr]
      simp only
      have hpc := popcount_update (fh.pages rid.page_no).bitmap
        fh.file_hdr.num_records_per_page rid.slot_no true
      rw [if_neg (by rw [hb]; simp), if_pos ⟨hs.1, hs.2, rfl⟩] at hpc
      rw [h]
      omega
    · exact I1_at_of_eq fh fh' q (by rw [hhdr]) (by rw [hoth q hq]) (by rw [hoth q hq]) h
  · rw [(no_page_no_effect fh rid buf hp).2.1]
    exact h

theorem create_new_page_handle_I1_at (fh : RmFileHandle) (q : Int)
    (h : q = (fh.next_page_no : Int) ∨ fh.I1_at q) : (fh.create_new_page_handle).2.I1_at q := by
  obtain ⟨_, hhdr, _, hoth, hph, hbm⟩ := create_new_page_handle_spec fh
  by_cases hq : q = (fh.next_page_no : Int)
  · subst hq
    unfold I1_at
    rw [hph, hbm, popcount_clear]
    rfl
  · exact I1_at_of_eq fh _ q (by rw [hhdr]) (by rw [hoth q hq]) (by rw [hoth q hq])
      (h.resolve_left hq)

theorem create_page_handle_I1_at (fh : RmFileHandle) (q : Int)
    (h : (fh.file_hdr.first_free_page_no = INVALID_PAGE_ID ∧ q = (fh.next_page_no : Int))
      ∨ fh.I1_at q) : (fh.create_page_handle).2.I1_at q := by
  by_cases hinv : fh.file_hdr.first_free_page_no = INVALID_PAGE_ID
  · rw [create_page_handle, if_pos hinv]
    apply create_new_page_handle_I1_at
    rcases h with h | h
    · exact Or.inl h.2
    · exact Or.inr h
  · have hq : fh.I1_at q := h.resolve_left (fun h' => hinv h'.1)
    rw [create_page_handle, if_neg hinv]
    by_cases hp : fh.page_exists fh.file_hdr.first_free_page_no
    · rw [fetch_page_handle_ok fh _ hp.1 hp.2]
      have hpg := bpm_fetch_page_pages fh fh.file_hdr.first_free_page_no q
      exact I1_at_of_eq fh _ q rfl (by rw [hpg.1]) hpg.2.1 hq
    · rw [fetch_page_handle_err fh _ (by unfold page_exists at hp; omega)]
      exact hq

/-- The position-free insert keeps I1 at a page when the page it obtains has a
clear bit among its slots. -/
theorem insert_record_I1_at (fh : RmFileHandle) (buf : List Byte) (q : Int)
    (hnew : fh.file_hdr.first_free_page_no = INVALID_PAGE_ID →
      1 ≤ fh.file_hdr.num_records_per_page)
    (hhead : fh.file_hdr.first_free_page_no ≠ INVALID_PAGE_ID →
      fh.has_free_slot fh.file_hdr.first_free_page_no)
    (h : (fh.file_hdr.first_free_page_no = INVALID_PAGE_ID ∧ q = (fh.next_page_no : Int))
      ∨ fh.I1_at q) : (fh.insert_record buf).2.I1_at q := by
  have hcq := create_page_handle_I1_at fh q h
  by_cases hok : ∃ P fh1, fh.create_page_handle = (.ok P, fh1)
  · obtain ⟨P, fh1, hc⟩ := hok
    rw [hc] at hcq
    simp only at hcq
    have hfree : fh1.has_free_slot P := by
      by_cases hinv : fh.file_hdr.first_free_page_no = INVALID_PAGE_ID
      · obtain ⟨fh1', hc', hhdr1, _, _, _, hbm1, _⟩ := create_page_handle_new fh hinv
        rw [hc] at hc'
        simp only [Prod.mk.injEq, Except.ok.injEq] at hc'
        obtain ⟨hq', hf'⟩ := hc'
        subst hf' hq'
        exact ⟨0, ⟨le_refl _, by rw [hhdr1]; exact hnew hinv⟩, by rw [hbm1]⟩
      · obtain ⟨s0, hs0, hsb0⟩ := hhead hinv
        have hpx : fh.page_exists fh.file_hdr.first_free_page_no := by
          by_contra hne
          rw [create_page_handle, if_neg hinv,
            fetch_page_handle_err fh _ (by unfold page_exists at hne; omega)] at hc
          simp at hc
        rw [create_page_handle_head fh hinv hpx] at hc
        simp only [Prod.mk.injEq, Except.ok.injEq] at hc
        obtain ⟨hq', hf'⟩ := hc
        subst hf' hq'
        exact ⟨s0, hs0, by rw [(bpm_fetch_page_pages fh _ _).2.1]; exact hsb0⟩
    obtain ⟨i, hi', hib⟩ := hfree
    obtain ⟨h0, h1, h2, _⟩ := Bitmap.first_bit_found false (fh1.pages P).bitmap
      fh1.file_hdr.num_records_per_page ⟨i, hi'.1, hi'.2, hib⟩
    obtain ⟨fh', hi, hhdr, _, hoth, hph, hbm, _⟩ :=
      insert_record_of_page fh fh1 P buf hc ⟨h0, h1⟩
    rw [hi]
    simp only
    by_cases hq : q = P
    · subst hq
      unfold I1_at at hcq ⊢
      rw [hph, hbm, hhdr]
      simp only
      have hpc := popcount_update (fh1.pages q).bitmap fh1.file_hdr.num_records_per_page
        (Bitmap.first_bit false (fh1.pages q).bitmap fh1.file_hdr.num_records_per_page) true
      rw [if_neg (by rw [h2]; simp), if_pos ⟨h0, h1, rfl⟩] at hpc
      rw [hcq]
      omega
    · exact I1_at_of_eq fh1 fh' q (by rw [hhdr]) (by rw [hoth q hq]) (by rw [hoth q hq]) hcq
  · have hfail : fh.insert_record buf = ((fh.insert_record buf).1, (fh.create_page_handle).2) := by
      rw [insert_record]
      rcases hcp : fh.create_page_handle with ⟨r, g⟩
      cases r with
      | error e => rfl
      | ok P => exact absurd ⟨P, g, hcp⟩ hok
    rw [hfail]
    exact hcq

end RmFileHandle

namespace RmFileHandle

theorem num_pages_unchanged (fh : RmFileHandle) (rid : Rid) (buf : List Byte) :
    (fh.get_record rid).2.file_hdr.num_pages = fh.file_hdr.num_pages ∧
    (fh.insert_record_at rid buf).2.file_hdr.num_pages = fh.file_hdr.num_pages ∧
    (fh.delete_record rid).2.file_hdr.num_pages = fh.file_hdr.num_pages ∧
    (fh.update_record rid buf).2.file_hdr.num_pages = fh.file_hdr.num_pages := by
  by_cases hp : fh.page_exists rid.page_no
  · refine ⟨?_, ?_, ?_, ?_⟩
    · rw [get_record_of_page fh rid hp]
      simp [bpm_unpin_page, bpm_fetch_page]
    · rw [insert_record_at, fetch_page_handle_ok fh _ hp.1 hp.2]
      dsimp only
      split_ifs <;> simp [bpm_unpin_page, set_page_hdr, bpm_fetch_page]
    · rw [delete_record, fetch_page_handle_ok fh _ hp.1 hp.2]
      dsimp only
      split_ifs <;> simp [bpm_unpin_page, set_page_hdr, release_page_handle, bpm_fetch_page]
    · rw [update_record, fetch_page_handle_ok fh _ hp.1 hp.2]
      simp [bpm_unpin_page, bpm_fetch_page]
  · obtain ⟨h1, h2, h3, h4⟩ := no_page_no_effect fh rid buf hp
    rw [h1, h2, h3, h4]
    exact ⟨rfl, rfl, rfl, rfl⟩

/-- Whatever slot it writes, the position-free insert returns, on the page that
`create_page_handle` hands it, and leaves the page count and every pin but the
one it releases as they are. -/
theorem insert_record_bookkeeping (fh fh1 : RmFileHandle) (P : Int) (buf : List Byte)
    (h : fh.create_page_handle = (.ok P, fh1)) :
    ∃ s fh', fh.insert_record buf = (.ok ⟨P, s⟩, fh') ∧
      fh'.file_hdr.num_pages = fh1.file_hdr.num_pages ∧
      (∀ q, q ≠ P → (fh'.pages q).pin_count = (fh1.pages q).pin_count) ∧
      (fh'.pages P).pin_count = (fh1.pages P).pin_count - 1 := by
  refine ⟨_, _, by rw [insert_record, h], ?_, ?_, ?_⟩
  · dsimp only
    split_ifs <;> simp [bpm_unpin_page, set_page_hdr]
  · intro q hq
    dsimp only
    split_ifs <;> simp [bpm_unpin_page, set_page_hdr, hq]
  · dsimp only
    split_ifs <;> simp [bpm_unpin_page, set_page_hdr]

/-- The position-free insert adds a page exactly when the free list is empty. -/
theorem insert_record_num_pages (fh : RmFileHandle) (buf : List Byte) :
    (fh.insert_record buf).2.file_hdr.num_pages
      = if fh.file_hdr.first_free_page_no = INVALID_PAGE_ID
        then fh.file_hdr.num_pages + 1 else fh.file_hdr.num_pages := by
  by_cases hinv : fh.file_hdr.first_free_page_no = INVALID_PAGE_ID
  · obtain ⟨fh1, hc, hhdr1, _⟩ := create_page_handle_new fh hinv
    obtain ⟨s, fh', hi, hnum, _⟩ := insert_record_bookkeeping fh fh1 _ buf hc
    rw [hi, if_pos hinv]
    simp only
    rw [hnum, hhdr1]
  · rw [if_neg hinv]
    by_cases hp : fh.page_exists fh.file_hdr.first_free_page_no
    · obtain ⟨s, fh', hi, hnum, _⟩ :=
        insert_record_bookkeeping fh _ _ buf (create_page_handle_head fh hinv hp)
      rw [hi]
      simp only
      rw [hnum]
      rfl
    · rw [insert_record, create_page_handle, if_neg hinv,
        fetch_page_handle_err fh _ (by unfold page_exists at hp; omega)]

theorem create_page_handle_num_pages (fh : RmFileHandle) :
    (fh.create_page_handle).2.file_hdr.num_pages
      = if fh.file_hdr.first_free_page_no = INVALID_PAGE_ID
        then fh.file_hdr.num_pages + 1 else fh.file_hdr.num_pages := by
  by_cases hinv : fh.file_hdr.first_free_page_no = INVALID_PAGE_ID
  · rw [create_page_handle, if_pos hinv, if_pos hinv, (create_new_page_handle_spec fh).2.1]
  · rw [if_neg hinv, create_page_handle, if_neg hinv]
    by_cases hp : fh.page_exists fh.file_hdr.first_free_page_no
    · rw [fetch_page_handle_ok fh _ hp.1 hp.2]
      rfl
    · rw [fetch_page_handle_err fh _ (by unfold page_exists at hp; omega)]

end RmFileHandle

/-! ## The free-page list along the operations -/

namespace RmFileHandle

theorem is_chain_congr (fh fh' : RmFileHandle) (l : List Int) :
    ∀ start, (∀ p ∈ l, (fh'.pages p).page_hdr.next_free_page_no
        = (fh.pages p).page_hdr.next_free_page_no) →
      fh.is_chain start l → fh'.is_chain start l := by
  induction l with
  | nil => intro start _ h; exact h
  | cons p l ih =>
    intro start hnext h
    obtain ⟨h1, h2, h3⟩ := h
    refine ⟨h1, h2, ?_⟩
    rw [hnext p (List.mem_cons_self _ _)]
    exact ih _ (fun q hq => hnext q (List.mem_cons_of_mem _ hq)) h3

theorem is_chain_invalid (fh : RmFileHandle) (l : List Int)
    (h : fh.is_chain INVALID_PAGE_ID l) : l = [] := by
  cases l with
  | nil => rfl
  | cons p l => exact absurd h.1.symm h.2.1

theorem is_chain_valid (fh : RmFileHandle) (start : Int) (l : List Int)
    (hs : start ≠ INVALID_PAGE_ID) (h : fh.is_chain start l) :
    ∃ l0, l = start :: l0 ∧ fh.is_chain (fh.pages start).page_hdr.next_free_page_no l0 := by
  cases l with
  | nil => exact absurd h hs
  | cons p l =>
    obtain ⟨h1, _, h3⟩ := h
    subst h1
    exact ⟨l, rfl, h3⟩

/-- In a state with I1, `num_records` of a page of the file is at most the capacity. -/
theorem num_records_le (fh : RmFileHandle) (p : Int) (hI : fh.I1) (hp : fh.page_exists p)
    (hn : 1 ≤ fh.file_hdr.num_records_per_page) :
    (fh.pages p).page_hdr.num_records ≤ fh.file_hdr.num_records_per_page := by
  have h := hI p hp.1 hp.2
  unfold I1_at at h
  have := popcount_le (fh.pages p).bitmap fh.file_hdr.num_records_per_page
  omega

/-- The free-list invariant holds in an empty file. -/
theorem free_list_inv_init (fh : RmFileHandle) (h : fh.is_empty_file) :
    fh.free_list_inv [] := by
  obtain ⟨hp, hff, hnp, hn⟩ := h
  refine ⟨hn, by rw [hnp, hp]; rfl, ?_, hff, List.nodup_nil, ?_⟩
  · intro p h0 h1
    rw [hp] at h1
    omega
  · intro p
    constructor
    · intro h; exact absurd h (List.not_mem_nil p)
    · rintro ⟨⟨h0, h1⟩, _⟩
      rw [hp] at h1
      omega

/-- The free-list invariant depends only on the file header, the page counter and
the headers and bitmaps of the pages. -/
theorem free_list_inv_congr (fh fh' : RmFileHandle) (l : List Int)
    (hhdr : fh'.file_hdr = fh.file_hdr) (hnp : fh'.next_page_no = fh.next_page_no)
    (hpg : ∀ p, (fh'.pages p).page_hdr = (fh.pages p).page_hdr ∧
      (fh'.pages p).bitmap = (fh.pages p).bitmap)
    (h : fh.free_list_inv l) : fh'.free_list_inv l := by
  obtain ⟨hn, hstep, hI, hch, hnd, hmem⟩ := h
  refine ⟨by rw [hhdr]; exact hn, by rw [hnp, hhdr]; exact hstep, ?_, ?_, hnd, ?_⟩
  · intro p h0 h1
    rw [hhdr] at h1
    exact I1_at_of_eq fh fh' p (by rw [hhdr]) (by rw [(hpg p).1]) (hpg p).2 (hI p h0 h1)
  · rw [hhdr]
    exact is_chain_congr fh fh' l _ (fun p _ => by rw [(hpg p).1]) hch
  · intro p
    rw [hmem p, (hpg p).1]
    unfold page_exists
    rw [hhdr]

theorem free_list_inv_get_record (fh : RmFileHandle) (rid : Rid) (l : List Int)
    (h : fh.free_list_inv l) : (fh.get_record rid).2.free_list_inv l := by
  by_cases hp : fh.page_exists rid.page_no
  · rw [get_record_of_page fh rid hp]
    apply free_list_inv_congr fh _ l _ _ _ h
    · simp [bpm_unpin_page, bpm_fetch_page]
    · simp [bpm_unpin_page, bpm_fetch_page]
    · intro p
      by_cases hq : p = rid.page_no <;> simp [bpm_unpin_page, bpm_fetch_page, hq]
  · rw [(no_page_no_effect fh rid [] hp).1]
    exact h

theorem free_list_inv_update_record (fh : RmFileHandle) (rid : Rid) (buf : List Byte)
    (l : List Int) (hs : 0 ≤ rid.slot_no) (h : fh.free_list_inv l) :
    (fh.update_record rid buf).2.free_list_inv l := by
  by_cases hp : fh.page_exists rid.page_no
  · obtain ⟨fh', hu, hhdr, hnp, hoth, hph, hbm, _⟩ := update_record_of_page fh rid buf hp hs
    rw [hu]
    apply free_list_inv_congr fh fh' l hhdr hnp _ h
    intro p
    by_cases hq : p = rid.page_no
    · rw [hq]; exact ⟨hph, hbm⟩
    · rw [hoth p hq]; exact ⟨rfl, rfl⟩
  · rw [(no_page_no_effect fh rid buf hp).2.2.2]
    exact h

/-- A position-free insert keeps the free-list invariant: the head leaves the list
when the insert fills it, and a page created for the insert joins the list
unless one record fills it. -/
theorem free_list_inv_insert_record (fh : RmFileHandle) (buf : List Byte) (l : List Int)
    (h : fh.free_list_inv l) : ∃ l', (fh.insert_record buf).2.free_list_inv l' := by
  obtain ⟨hn, hstep, hI, hch, hnd, hmem⟩ := h
  by_cases hinv : fh.file_hdr.first_free_page_no = INVALID_PAGE_ID
  · -- a new page
    rw [hinv] at hch
    have hl := is_chain_invalid fh l hch
    subst hl
    have hI' : (fh.insert_record buf).2.I1 := by
      intro p h0 h1
      rw [insert_record_num_pages, if_pos hinv] at h1
      apply insert_record_I1_at fh buf p (fun _ => hn) (fun hne => absurd hinv hne)
      by_cases hp : p = (fh.next_page_no : Int)
      · exact Or.inl ⟨hinv, hp⟩
      · exact Or.inr (hI p h0 (by omega))
    obtain ⟨fh1, hc, hhdr1, hnp1, hoth1, hph1, hbm1, _, _⟩ := create_page_handle_new fh hinv
    obtain ⟨fh', hi, hhdr, hnp, hoth, hph, _⟩ := insert_record_of_page fh fh1 _ buf hc
      (first_bit_slot_exists fh1 _ ⟨0, ⟨le_refl _, by rw [hhdr1]; exact hn⟩, by rw [hbm1]⟩)
    rw [hi] at hI' ⊢
    simp only at hI' ⊢
    have hn' : fh'.file_hdr.num_records_per_page = fh.file_hdr.num_records_per_page := by
      rw [hhdr, hhdr1]
    have hpages' : fh'.file_hdr.num_pages = fh.file_hdr.num_pages + 1 := by rw [hhdr, hhdr1]
    have hnr' : (fh'.pages fh.next_page_no).page_hdr.num_records = 1 := by
      rw [hph, hph1]; rfl
    have hnext' : (fh'.pages fh.next_page_no).page_hdr.next_free_page_no = INVALID_PAGE_ID := by
      rw [hph, hph1]
    have hold : ∀ p, fh.page_exists p →
        ¬ (fh'.pages p).page_hdr.num_records < fh'.file_hdr.num_records_per_page := by
      intro p hp hlt
      have hne : p ≠ (fh.next_page_no : Int) := by have := hp.2; omega
      rw [hoth p hne, hoth1 p hne, hn'] at hlt
      exact List.not_mem_nil p ((hmem p).2 ⟨hp, hlt⟩)
    by_cases h1 : fh.file_hdr.num_records_per_page = 1
    · refine ⟨[], by rw [hn']; exact hn, by rw [hnp, hnp1, hpages']; push_cast; omega, hI', ?_,
        List.nodup_nil, ?_⟩
      · show fh'.file_hdr.first_free_page_no = INVALID_PAGE_ID
        rw [hhdr, hhdr1]
        simp only
        rw [hph1]
        simp only
        rw [if_pos (by omega)]
      · intro p
        constructor
        · intro h; exact absurd h (List.not_mem_nil p)
        · rintro ⟨⟨h0, h1'⟩, hlt⟩
          exfalso
          rw [hpages'] at h1'
          by_cases hp : p = (fh.next_page_no : Int)
          · subst hp
            rw [hnr', hn'] at hlt
            omega
          · exact hold p ⟨h0, by omega⟩ hlt
    · refine ⟨[(fh.next_page_no : Int)], by rw [hn']; exact hn,
        by rw [hnp, hnp1, hpages']; push_cast; omega, hI', ?_, List.nodup_singleton _, ?_⟩
      · have hff' : fh'.file_hdr.first_free_page_no = (fh.next_page_no : Int) := by
          rw [hhdr, hhdr1]
          simp only
          rw [hph1]
          simp only
          rw [if_neg (by omega)]
        rw [hff']
        refine ⟨rfl, by unfold INVALID_PAGE_ID; omega, ?_⟩
        rw [hnext']
        rfl
      · intro p
        rw [List.mem_singleton]
        constructor
        · intro hp
          subst hp
          refine ⟨⟨Int.ofNat_nonneg _, by rw [hpages']; omega⟩, ?_⟩
          rw [hnr', hn']
          omega
        · rintro ⟨⟨h0, h1'⟩, hlt⟩
          by_contra hp
          rw [hpages'] at h1'
          exact hold p ⟨h0, by omega⟩ hlt
  · -- the head of the free list
    obtain ⟨l0, hl, hch0⟩ := is_chain_valid fh _ l hinv hch
    subst hl
    obtain ⟨hp, hlt⟩ := (hmem _).1 (List.mem_cons_self _ _)
    have hIff := hI _ hp.1 hp.2
    have hfree : fh.has_free_slot fh.file_hdr.first_free_page_no := by
      apply exists_clear_of_popcount_lt
      unfold I1_at at hIff
      rw [← hIff]
      exact hlt
    have hI' : (fh.insert_record buf).2.I1 := by
      intro p h0 h1
      rw [insert_record_num_pages, if_neg hinv] at h1
      exact insert_record_I1_at fh buf p (fun h => absurd h hinv) (fun _ => hfree)
        (Or.inr (hI p h0 h1))
    have hc := create_page_handle_head fh hinv hp
    obtain ⟨fh', hi, hhdr, hnp, hoth, hph, _⟩ := insert_record_of_page fh _ _ buf hc
      (first_bit_slot_exists _ _ (has_free_slot_bpm_fetch_page fh _ _ hfree))
    have hpg := bpm_fetch_page_pages fh fh.file_hdr.first_free_page_no
    rw [hi] at hI' ⊢
    simp only at hI' ⊢
    rw [(hpg _).1] at hph
    simp only [bpm_fetch_page_file_hdr, (hpg _).1] at hhdr
    rw [bpm_fetch_page_next_page_no] at hnp
    have hn' : fh'.file_hdr.num_records_per_page = fh.file_hdr.num_records_per_page := by
      rw [hhdr]
    have hpages' : fh'.file_hdr.num_pages = fh.file_hdr.num_pages := by rw [hhdr]
    have hnextall : ∀ p, (fh'.pages p).page_hdr.next_free_page_no
        = (fh.pages p).page_hdr.next_free_page_no := by
      intro p
      by_cases hq : p = fh.file_hdr.first_free_page_no
      · rw [hq, hph]
      · rw [hoth p hq, (hpg p).1]
    have hnroth : ∀ p, p ≠ fh.file_hdr.first_free_page_no →
        (fh'.pages p).page_hdr.num_records = (fh.pages p).page_hdr.num_records := by
      intro p hq
      rw [hoth p hq, (hpg p).1]
    have hnrff : (fh'.pages fh.file_hdr.first_free_page_no).page_hdr.num_records
        = (fh.pages fh.file_hdr.first_free_page_no).page_hdr.num_records + 1 := by
      rw [hph]
    have hnd0 := List.nodup_cons.1 hnd
    by_cases hfull : (fh.pages fh.file_hdr.first_free_page_no).page_hdr.num_records + 1
        = fh.file_hdr.num_records_per_page
    · refine ⟨l0, by rw [hn']; exact hn, by rw [hnp, hpages']; exact hstep, hI', ?_, hnd0.2, ?_⟩
      · have hff' : fh'.file_hdr.first_free_page_no
            = (fh.pages fh.file_hdr.first_free_page_no).page_hdr.next_free_page_no := by
          rw [hhdr]
          simp only
          rw [if_pos hfull]
        rw [hff']
        exact is_chain_congr fh fh' l0 _ (fun p _ => hnextall p) hch0
      · intro p
        unfold page_exists
        rw [hn', hpages']
        by_cases hq : p = fh.file_hdr.first_free_page_no
        · subst hq
          rw [hnrff]
          constructor
          · intro hin; exact absurd hin hnd0.1
          · rintro ⟨_, hlt'⟩; omega
        · rw [hnroth p hq]
          rw [← page_exists, ← hmem p, List.mem_cons]
          constructor
          · intro hin; exact Or.inr hin
          · intro hin; exact hin.resolve_left hq
    · refine ⟨fh.file_hdr.first_free_page_no :: l0, by rw [hn']; exact hn,
        by rw [hnp, hpages']; exact hstep, hI', ?_, hnd, ?_⟩
      · have hff' : fh'.file_hdr.first_free_page_no = fh.file_hdr.first_free_page_no := by
          rw [hhdr]
          simp only
          rw [if_neg hfull]
        rw [hff']
        exact is_chain_congr fh fh' _ _ (fun p _ => hnextall p) hch
      · intro p
        unfold page_exists
        rw [hn', hpages']
        by_cases hq : p = fh.file_hdr.first_free_page_no
        · subst hq
          rw [hnrff]
          constructor
          · intro _; exact ⟨hp, by omega⟩
          · intro _; exact List.mem_cons_self _ _
        · rw [hnroth p hq]
          rw [← page_exists, ← hmem p]

/-- Deleting an occupied record keeps the free-list invariant: the page joins the
list at its head exactly when it was full. -/
theorem free_list_inv_delete_record (fh : RmFileHandle) (rid : Rid) (l : List Int)
    (h : fh.free_list_inv l) (hocc : fh.occupied rid) :
    ∃ l', (fh.delete_record rid).2.free_list_inv l' := by
  obtain ⟨hn, hstep, hI, hch, hnd, hmem⟩ := h
  obtain ⟨hp, hs, hb⟩ := hocc
  have hI' : (fh.delete_record rid).2.I1 := by
    intro p h0 h1
    rw [(num_pages_unchanged fh rid []).2.2.1] at h1
    exact delete_record_I1_at fh rid p hs hb (hI p h0 h1)
  have hle := num_records_le fh rid.page_no hI hp hn
  obtain ⟨fh', hd, hhdr, hnp, hoth, hph, _⟩ := delete_record_of_page fh rid hp hs
  rw [hd] at hI' ⊢
  simp only at hI' ⊢
  have hn' : fh'.file_hdr.num_records_per_page = fh.file_hdr.num_records_per_page := by
    rw [hhdr]
  have hpages' : fh'.file_hdr.num_pages = fh.file_hdr.num_pages := by rw [hhdr]
  have hnroth : ∀ p, p ≠ rid.page_no →
      (fh'.pages p).page_hdr.num_records = (fh.pages p).page_hdr.num_records := by
    intro p hq
    rw [hoth p hq]
  have hnr : (fh'.pages rid.page_no).page_hdr.num_records
      = (fh.pages rid.page_no).page_hdr.num_records - 1 := by
    rw [hph]
  by_cases hfull : (fh.pages rid.page_no).page_hdr.num_records
      = fh.file_hdr.num_records_per_page
  · have hcond : (fh.pages rid.page_no).page_hdr.num_records - 1
        = fh.file_hdr.num_records_per_page - 1 := by omega
    rw [if_pos hcond] at hhdr hph
    have hnotin : rid.page_no ∉ l := by
      intro hin
      have := ((hmem _).1 hin).2
      omega
    refine ⟨rid.page_no :: l, by rw [hn']; exact hn, by rw [hnp, hpages']; exact hstep, hI', ?_,
      List.nodup_cons.2 ⟨hnotin, hnd⟩, ?_⟩
    · have hff' : fh'.file_hdr.first_free_page_no = rid.page_no := by rw [hhdr]
      rw [hff']
      refine ⟨rfl, by have := hp.1; unfold INVALID_PAGE_ID; omega, ?_⟩
      have hnx : (fh'.pages rid.page_no).page_hdr.next_free_page_no
          = fh.file_hdr.first_free_page_no := by rw [hph]
      rw [hnx]
      apply is_chain_congr fh fh' l _ _ hch
      intro p hpl
      have hq : p ≠ rid.page_no := fun he => hnotin (he ▸ hpl)
      rw [hoth p hq]
    · intro p
      unfold page_exists
      rw [hn', hpages', List.mem_cons]
      by_cases hq : p = rid.page_no
      · subst hq
        rw [hnr]
        constructor
        · intro _; exact ⟨hp, by omega⟩
        · intro _; exact Or.inl rfl
      · rw [hnroth p hq, ← page_exists, ← hmem p]
        constructor
        · intro hin; exact hin.resolve_left hq
        · intro hin; exact Or.inr hin
  · have hcond : ¬ (fh.pages rid.page_no).page_hdr.num_records - 1
        = fh.file_hdr.num_records_per_page - 1 := by omega
    rw [if_neg hcond] at hhdr hph
    refine ⟨l, by rw [hn']; exact hn, by rw [hnp, hpages']; exact hstep, hI', ?_, hnd, ?_⟩
    · have hff' : fh'.file_hdr.first_free_page_no = fh.file_hdr.first_free_page_no := by
        rw [hhdr]
      rw [hff']
      apply is_chain_congr fh fh' l _ _ hch
      intro p _
      by_cases hq : p = rid.page_no
      · rw [hq, hph]
      · rw [hoth p hq]
    · intro p
      unfold page_exists
      rw [hn', hpages']
      by_cases hq : p = rid.page_no
      · subst hq
        rw [hnr]
        have hin : rid.page_no ∈ l := (hmem _).2 ⟨hp, by omega⟩
        constructor
        · intro _; exact ⟨hp, by omega⟩
        · intro _; exact hin
      · rw [hnroth p hq, ← page_exists, ← hmem p]

/-- Every reachable state satisfies the free-list invariant, for some list. -/
theorem reachable_free_list_inv (fh : RmFileHandle) (h : fh.Reachable) :
    ∃ l, fh.free_list_inv l := by
  induction h with
  | init fh h0 => exact ⟨[], free_list_inv_init fh h0⟩
  | insert_record fh buf _ ih =>
    obtain ⟨l, hl⟩ := ih
    exact free_list_inv_insert_record fh buf l hl
  | delete_record fh rid _ hocc ih =>
    obtain ⟨l, hl⟩ := ih
    exact free_list_inv_delete_record fh rid l hl hocc
  | update_record fh rid buf _ hs ih =>
    obtain ⟨l, hl⟩ := ih
    exact ⟨l, free_list_inv_update_record fh rid buf l hs.1 hl⟩
  | get_record fh rid _ ih =>
    obtain ⟨l, hl⟩ := ih
    exact ⟨l, free_list_inv_get_record fh rid l hl⟩

/-- Under the free-list invariant `create_page_handle` returns a page: the head of
the list, or else a new page numbered `num_pages`. -/
theorem create_page_handle_of_inv (fh : RmFileHandle) (l : List Int)
    (h : fh.free_list_inv l) :
    ∃ P fh1, fh.create_page_handle = (.ok P, fh1) ∧
      ((P = fh.file_hdr.num_pages ∧ l = []) ∨ P ∈ l) := by
  obtain ⟨_, hstep, _, hch, _, hmem⟩ := h
  by_cases hinv : fh.file_hdr.first_free_page_no = INVALID_PAGE_ID
  · obtain ⟨fh1, hc, _⟩ := create_page_handle_new fh hinv
    rw [hinv] at hch
    exact ⟨_, fh1, hc, Or.inl ⟨hstep, is_chain_invalid fh l hch⟩⟩
  · obtain ⟨l0, hl, _⟩ := is_chain_valid fh _ l hinv hch
    have hin : fh.file_hdr.first_free_page_no ∈ l := by rw [hl]; exact List.mem_cons_self _ _
    exact ⟨_, _, create_page_handle_head fh hinv ((hmem _).1 hin).1, Or.inr hin⟩

end RmFileHandle

/-! ## The descriptor table -/

namespace Os

@[simp] theorem set_entry_names (os : Os) (k : Nat) (e : Option OpenFile) :
    (os.set_entry k e).names = os.names := rfl

@[simp] theorem set_entry_inodes (os : Os) (k : Nat) (e : Option OpenFile) :
    (os.set_entry k e).inodes = os.inodes := rfl

@[simp] theorem set_entry_max_file_size (os : Os) (k : Nat) (e : Option OpenFile) :
    (os.set_entry k e).max_file_size = os.max_file_size := rfl

@[simp] theorem set_entry_open_calls (os : Os) (k : Nat) (e : Option OpenFile) :
    (os.set_entry k e).open_calls = os.open_calls := rfl

theorem entry_natCast (os : Os) (k : Nat) : os.entry (k : Int) = os.fds.getD k none := by
  unfold entry
  rw [if_neg (by omega)]
  simp

@[simp] theorem entry_set_entry_same (os : Os) (k : Nat) (e : Option OpenFile) :
    (os.set_entry k e).entry (k : Int) = e := by
  rw [entry_natCast]
  unfold set_entry
  by_cases h : k < os.fds.length
  · simp [h, List.getD_eq_getElem?_getD, List.getElem?_set]
  · simp [h, List.getD_eq_getElem?_getD, List.getElem?_append]

theorem entry_set_entry_other (os : Os) (k : Nat) (e : Option OpenFile) (fd : Int)
    (h : fd ≠ (k : Int)) : (os.set_entry k e).entry fd = os.entry fd := by
  unfold entry
  by_cases hneg : fd < 0
  · rw [if_pos hneg, if_pos hneg]
  · rw [if_neg hneg, if_neg hneg]
    have hk : fd.toNat ≠ k := by omega
    unfold set_entry
    by_cases hlt : k < os.fds.length
    · simp [hlt, List.getD_eq_getElem?_getD, List.getElem?_set, Ne.symm hk]
    · simp only [hlt, if_false, List.getD_eq_getElem?_getD]
      by_cases h1 : fd.toNat < os.fds.length
      · rw [List.append_assoc, List.getElem?_append_left h1]
      · rw [List.getElem?_eq_none (by omega : os.fds.length ≤ fd.toNat)]
        by_cases h2 : fd.toNat < os.fds.length + (k - os.fds.length)
        · rw [List.getElem?_append_left (by simp; omega),
            List.getElem?_append_right (by omega)]
          simp only [List.getElem?_replicate]
          split_ifs <;> rfl
        · rw [List.getElem?_eq_none (by simp; omega)]

theorem entry_lowest_free (os : Os) : os.entry (os.lowest_free : Int) = none := by
  rw [entry_natCast, List.getD_eq_getElem?_getD]
  unfold lowest_free
  by_cases h : List.findIdx (fun e => e.isNone) os.fds < os.fds.length
  · have := List.findIdx_getElem (w := h)
    rw [List.getElem?_eq_getElem h]
    simpa using this
  · rw [List.getElem?_eq_none (by omega)]
    rfl

end Os

/-! ## The open-file table -/

namespace Os

/-- What `open` does to the descriptor table: nothing when it returns -1; otherwise
the descriptor it returns was free, is open afterwards, and no other changed. -/
theorem open_rdwr_entries (os : Os) (path : String) :
    ((os.open_rdwr path).1 = -1 → ∀ fd, (os.open_rdwr path).2.entry fd = os.entry fd) ∧
    ((os.open_rdwr path).1 ≠ -1 →
      os.entry (os.open_rdwr path).1 = none ∧
      ((os.open_rdwr path).2.entry (os.open_rdwr path).1).isSome = true ∧
      ∀ fd, fd ≠ (os.open_rdwr path).1 → (os.open_rdwr path).2.entry fd = os.entry fd) := by
  have hlf : ({ os with open_calls := os.open_calls ++ [path] } : Os).lowest_free
      = os.lowest_free := rfl
  have hent : ∀ fd, ({ os with open_calls := os.open_calls ++ [path] } : Os).entry fd
      = os.entry fd := fun _ => rfl
  unfold open_rdwr
  cases hn : os.names path with
  | none =>
    simp only
    exact ⟨fun _ fd => hent fd, fun h => absurd rfl h⟩
  | some nd =>
    cases nd with
    | directory sz =>
      simp only
      exact ⟨fun _ fd => hent fd, fun h => absurd rfl h⟩
    | regular i =>
      simp only
      rw [hlf]
      refine ⟨fun h => ?_, fun _ => ⟨entry_lowest_free os, ?_, ?_⟩⟩
      · exfalso; omega
      · rw [entry_set_entry_same]; rfl
      · intro fd hfd
        rw [entry_set_entry_other _ _ _ _ hfd]
        exact hent fd

/-- What `close` does to the descriptor table when the descriptor is open. -/
theorem close_entries (os : Os) (fd : Int) (h : (os.entry fd).isSome = true) :
    (os.close fd).1 = 0 ∧ ∀ fd', fd' ≠ fd → (os.close fd).2.entry fd' = os.entry fd' := by
  unfold close
  cases he : os.entry fd with
  | none => rw [he] at h; exact Bool.noConfusion h
  | some e =>
    have h0 : 0 ≤ fd := by
      by_contra hneg
      unfold entry at he
      rw [if_pos (by omega)] at he
      exact Option.noConfusion he
    refine ⟨rfl, fun fd' hne => entry_set_entry_other _ _ _ _ (by omega)⟩

end Os

namespace DiskManager

theorem table_inv_open_file (w : World) (path : String) (h : table_inv w) :
    table_inv (open_file w path).2 := by
  obtain ⟨hbij, hopen⟩ := h
  unfold open_file
  cases hq : w.dm.path2fd_ path with
  | some fd0 => exact ⟨hbij, hopen⟩
  | none =>
    simp only
    obtain ⟨hfail, hok⟩ := Os.open_rdwr_entries w.os path
    split_ifs with hneg
    · refine ⟨hbij, fun fd p hfp => ?_⟩
      simp only
      rw [hfail hneg fd]
      exact hopen fd p hfp
    · obtain ⟨hfree, hnow, hoth⟩ := hok hneg
      have huntracked : ∀ p, w.dm.fd2path_ (w.os.open_rdwr path).1 ≠ some p := by
        intro p hp
        have := hopen _ p hp
        rw [hfree] at this
        exact Bool.noConfusion this
      refine ⟨fun p fd => ?_, fun fd p hfp => ?_⟩
      · simp only [Function.update_apply]
        by_cases hp : p = path
        · subst hp
          rw [if_pos rfl]
          by_cases hfd : fd = (w.os.open_rdwr p).1
          · subst hfd
            simp
          · rw [if_neg hfd]
            constructor
            · intro he
              simp only [Option.some.injEq] at he
              exact absurd he.symm hfd
            · intro he
              have := (hbij p fd).2 he
              rw [hq] at this
              exact Option.noConfusion this
        · rw [if_neg hp]
          by_cases hfd : fd = (w.os.open_rdwr path).1
          · subst hfd
            rw [if_pos rfl]
            constructor
            · intro he
              exact absurd ((hbij p _).1 he) (huntracked p)
            · intro he
              simp only [Option.some.injEq] at he
              exact absurd he.symm hp
          · rw [if_neg hfd]
            exact hbij p fd
      · simp only at hfp ⊢
        by_cases hfd : fd = (w.os.open_rdwr path).1
        · subst hfd
          exact hnow
        · rw [Function.update_noteq hfd] at hfp
          rw [hoth fd hfd]
          exact hopen fd p hfp

theorem table_inv_close_file (w : World) (fd : Int) (h : table_inv w) :
    table_inv (close_file w fd).2 := by
  obtain ⟨hbij, hopen⟩ := h
  unfold close_file
  cases hq : w.dm.fd2path_ fd with
  | none => exact ⟨hbij, hopen⟩
  | some path =>
    simp only
    obtain ⟨hret, hoth⟩ := Os.close_entries w.os fd (hopen fd path hq)
    rw [if_neg (by rw [hret]; decide)]
    refine ⟨fun p fd' => ?_, fun fd' p hfp => ?_⟩
    · simp only [Function.update_apply]
      by_cases hp : p = path
      · subst hp
        rw [if_pos rfl]
        by_cases hfd : fd' = fd
        · subst hfd
          simp
        · rw [if_neg hfd]
          constructor
          · intro he; exact Option.noConfusion he
          · intro he
            have h1 := (hbij p fd').2 he
            have h2 := (hbij p fd).2 hq
            rw [h1] at h2
            simp only [Option.some.injEq] at h2
            exact absurd h2 hfd
      · rw [if_neg hp]
        by_cases hfd : fd' = fd
        · subst hfd
          rw [if_pos rfl]
          constructor
          · intro he
            have := (hbij p fd').1 he
            rw [hq] at this
            simp only [Option.some.injEq] at this
            exact absurd this.symm hp
          · intro he; exact Option.noConfusion he
        · rw [if_neg hfd]
          exact hbij p fd'
    · simp only at hfp ⊢
      by_cases hfd : fd' = fd
      · subst hfd
        rw [Function.update_same] at hfp
        exact Option.noConfusion hfp
      · rw [Function.update_noteq hfd] at hfp
        rw [hoth fd' hfd]
        exact hopen fd' p hfp

theorem table_inv_get_file_fd (w : World) (path : String) (h : table_inv w) :
    table_inv (get_file_fd w path).2 := by
  unfold get_file_fd
  cases hq : w.dm.path2fd_ path with
  | some fd0 => exact h
  | none => exact table_inv_open_file w path h

theorem reachable_table_inv (w : World) (h : TableReachable w) : table_inv w := by
  induction h with
  | init os =>
    refine ⟨fun p fd => ?_, fun fd p hfp => ?_⟩
    · constructor <;> intro he <;> exact Option.noConfusion he
    · exact Option.noConfusion hfp
  | open_file w path _ ih => exact table_inv_open_file w path ih
  | close_file w fd _ ih => exact table_inv_close_file w fd ih
  | get_file_fd w path _ ih => exact table_inv_get_file_fd w path ih

end DiskManager

/-! ## Reading and writing at an offset -/

namespace Os

theorem entry_nonneg (os : Os) (fd : Int) (e : OpenFile) (h : os.entry fd = some e) :
    0 ≤ fd := by
  by_contra hneg
  unfold entry at h
  rw [if_pos (by omega)] at h
  exact Option.noConfusion h

theorem entry_set_entry_self (os : Os) (fd : Int) (e' : Option OpenFile) (h0 : 0 ≤ fd) :
    (os.set_entry fd.toNat e').entry fd = e' := by
  have := entry_set_entry_same os fd.toNat e'
  rwa [Int.toNat_of_nonneg h0] at this

theorem length_write_at_head (content : List Byte) (off : Nat) :
    ((content ++ List.replicate (off - content.length) 0).take off).length = off := by
  simp
  omega

theorem write_at_drop_take (content : List Byte) (off : Nat) (bytes : List Byte) :
    ((write_at content off bytes).drop off).take bytes.length = bytes := by
  unfold write_at
  rw [List.append_assoc,
    List.drop_left' (length_write_at_head content off)]
  simp

theorem write_at_outside (content : List Byte) (off : Nat) (bytes : List Byte) (k : Nat)
    (hk : k < content.length) (hout : k < off ∨ off + bytes.length ≤ k) :
    (write_at content off bytes)[k]? = content[k]? := by
  unfold write_at
  have hpre := length_write_at_head content off
  rcases hout with h | h
  · rw [List.append_assoc, List.getElem?_append_left (by rw [hpre]; exact h),
      List.getElem?_take_of_lt h, List.getElem?_append_left hk]
  · rw [List.getElem?_append_right (by simp; omega)]
    simp only [List.length_append, hpre, List.getElem?_drop]
    congr 1
    omega

theorem length_write_at (content : List Byte) (off : Nat) (bytes : List Byte) :
    (write_at content off bytes).length = max content.length (off + bytes.length) := by
  unfold write_at
  simp only [List.length_append, length_write_at_head, List.length_drop]
  omega

theorem lseek_set_of_entry (os : Os) (fd : Int) (off : Nat) (e : OpenFile)
    (h : os.entry fd = some e) :
    os.lseek_set fd off
      = ((off : Int), os.set_entry fd.toNat (some { e with offset := off })) := by
  unfold lseek_set
  rw [h]

theorem lseek_set_of_closed (os : Os) (fd : Int) (off : Nat) (h : os.entry fd = none) :
    os.lseek_set fd off = (-1, os) := by
  unfold lseek_set
  rw [h]

/-- A `write` that returns the full count `n`: either `n = 0` and nothing changes, or
the `n` bytes are stored at the offset of the descriptor. -/
theorem write_full (os : Os) (fd : Int) (data : List Byte) (n : Nat) (e : OpenFile)
    (h : os.entry fd = some e) (hret : (os.write fd data n).1 = (n : Int)) :
    (n = 0 ∧ (os.write fd data n).2 = os) ∨
    (0 < n ∧ (os.write fd data n).2.inodes
        = Function.update os.inodes e.inode
            (write_at (os.inodes e.inode) e.offset (data.take n)) ∧
      (os.write fd data n).2.names = os.names ∧
      (os.write fd data n).2.entry fd = some { e with offset := e.offset + n } ∧
      ∀ fd', fd' ≠ fd → (os.write fd data n).2.entry fd' = os.entry fd') := by
  have h0 := entry_nonneg os fd e h
  unfold write at hret ⊢
  rw [h] at hret ⊢
  simp only at hret ⊢
  by_cases hn : n = 0
  · left
    rw [if_pos hn]
    exact ⟨hn, rfl⟩
  · right
    rw [if_neg hn] at hret ⊢
    by_cases hk : min n (os.max_file_size - e.offset) = 0
    · rw [if_pos hk] at hret
      simp only at hret
      omega
    · rw [if_neg hk] at hret ⊢
      simp only at hret
      have hkn : min n (os.max_file_size - e.offset) = n := by omega
      rw [hkn]
      refine ⟨by omega, rfl, rfl, ?_, ?_⟩
      · exact entry_set_entry_self _ fd _ h0
      · intro fd' hne
        rw [entry_set_entry_other _ _ _ _ (by omega)]
        rfl

theorem read_of_entry (os : Os) (fd : Int) (n : Nat) (e : OpenFile)
    (h : os.entry fd = some e) :
    os.read fd n
      = (((((os.inodes e.inode).drop e.offset).take n).length : Int),
          ((os.inodes e.inode).drop e.offset).take n,
          os.set_entry fd.toNat (some { e with
            offset := e.offset + (((os.inodes e.inode).drop e.offset).take n).length })) := by
  unfold read
  rw [h]

end Os

namespace DiskManager

/-- On an open descriptor `read_page` returns the `num_bytes` bytes at the page
offset when the file has them, and throws otherwise. -/
theorem read_page_of_entry (w : World) (fd : Int) (page_no num_bytes : Nat) (e : OpenFile)
    (h : w.os.entry fd = some e) :
    ((((w.os.inodes e.inode).drop (page_no * 4096)).take num_bytes).length = num_bytes →
      ∃ w', read_page w fd page_no num_bytes
        = (.ok (((w.os.inodes e.inode).drop (page_no * 4096)).take num_bytes), w')) ∧
    ((((w.os.inodes e.inode).drop (page_no * 4096)).take num_bytes).length ≠ num_bytes →
      ∃ err w', read_page w fd page_no num_bytes = (.error err, w')) := by
  have h0 := Os.entry_nonneg _ _ _ h
  have he2 := Os.entry_set_entry_self w.os fd
    (some { inode := e.inode, offset := page_no * 4096 }) h0
  unfold read_page
  simp only [Os.lseek_set_of_entry _ _ _ _ h]
  rw [if_neg (by omega)]
  simp only [Os.read_of_entry _ _ _ _ he2, Os.set_entry_inodes]
  constructor
  · intro hl
    rw [if_neg (by rw [hl]; simp)]
    exact ⟨_, rfl⟩
  · intro hl
    rw [if_pos (by
      intro hc
      exact hl (Nat.cast_inj.1 hc))]
    exact ⟨_, _, rfl⟩

/-- A `write_page` that returns was made on an open descriptor, and either had no
byte to write and changed no file, or stored its bytes at the page offset. -/
theorem write_page_ok (w w1 : World) (fd : Int) (page_no : Nat) (data : List Byte) (n : Nat)
    (hw : write_page w fd page_no data n = (.ok (), w1)) :
    ∃ e, w.os.entry fd = some e ∧ w1.dm = w.dm ∧ w1.os.names = w.os.names ∧
      (∃ e1, w1.os.entry fd = some e1 ∧ e1.inode = e.inode) ∧
      ((n = 0 ∧ w1.os.inodes = w.os.inodes) ∨
        (0 < n ∧ w1.os.inodes = Function.update w.os.inodes e.inode
          (Os.write_at (w.os.inodes e.inode) (page_no * 4096) (data.take n)))) := by
  cases he : w.os.entry fd with
  | none =>
    exfalso
    unfold write_page at hw
    simp only [Os.lseek_set_of_closed _ _ _ he] at hw
    simp at hw
  | some e =>
    have h0 := Os.entry_nonneg _ _ _ he
    have hmul : 4096 * page_no = page_no * 4096 := Nat.mul_comm _ _
    unfold write_page at hw
    simp only [Os.lseek_set_of_entry _ _ _ _ he, hmul] at hw
    rw [if_neg (by omega)] at hw
    have he1 : (w.os.set_entry fd.toNat (some { e with offset := page_no * 4096 })).entry fd
        = some { e with offset := page_no * 4096 } := Os.entry_set_entry_self _ fd _ h0
    split_ifs at hw with hne
    · simp at hw
    · simp only [Prod.mk.injEq, true_and] at hw
      have hret : ((w.os.set_entry fd.toNat (some { e with offset := page_no * 4096 })).write
          fd data n).1 = (n : Int) := by
        by_contra hc
        exact hne hc
      refine ⟨e, rfl, by rw [← hw], ?_, ?_, ?_⟩
      · rcases Os.write_full _ fd data n _ he1 hret with ⟨_, hsame⟩ | ⟨_, _, hnames, _, _⟩
        · rw [← hw]; simp only; rw [hsame]; rfl
        · rw [← hw]; simp only; rw [hnames]; rfl
      · rcases Os.write_full _ fd data n _ he1 hret with ⟨_, hsame⟩ | ⟨_, _, _, hent, _⟩
        · rw [← hw]; simp only; rw [hsame]; exact ⟨_, he1, rfl⟩
        · rw [← hw]; simp only; exact ⟨_, hent, rfl⟩
      · rcases Os.write_full _ fd data n _ he1 hret with ⟨hn0, hsame⟩ | ⟨hnpos, hino, _, _, _⟩
        · left
          rw [← hw]; simp only; rw [hsame]
          exact ⟨hn0, rfl⟩
        · right
          rw [← hw]; simp only
          exact ⟨hnpos, hino⟩

end DiskManager

/-! ## The log stream -/

namespace Os

theorem write_at_end (content bytes : List Byte) :
    write_at content content.length bytes = content ++ bytes := by
  unfold write_at
  simp

theorem take_min_length (l : List Byte) (n : Nat) : l.take (min n l.length) = l.take n := by
  by_cases h : n ≤ l.length
  · rw [Nat.min_eq_left h]
  · rw [Nat.min_eq_right (by omega), List.take_length, List.take_of_length_le (by omega)]

theorem lseek_end_of_entry (os : Os) (fd : Int) (e : OpenFile) (h : os.entry fd = some e) :
    os.lseek_end fd
      = (((os.inodes e.inode).length : Int),
          os.set_entry fd.toNat (some { e with offset := (os.inodes e.inode).length })) := by
  unfold lseek_end
  rw [h]

end Os

namespace DiskManager

/-- With the log ready, the first step of `read_log` and `write_log` leaves `log_fd_`
set to a descriptor open on the log file and touches no file. -/
theorem open_log_of_ready (LOG : String) (w : World) (i : Nat) (h : log_ready LOG w i) :
    ∃ w1 e, open_log LOG w = (.ok (), w1) ∧
      w1.os.entry w1.dm.log_fd_ = some e ∧ e.inode = i ∧
      w1.os.names = w.os.names ∧ w1.os.inodes = w.os.inodes := by
  obtain ⟨hname, hunset, hset⟩ := h
  unfold open_log
  by_cases hfd : w.dm.log_fd_ = -1
  · rw [if_pos hfd]
    unfold open_file
    cases hq : w.dm.path2fd_ LOG with
    | some fd =>
      obtain ⟨e, he, hi⟩ := hunset hfd fd hq
      exact ⟨_, e, rfl, he, hi, rfl, rfl⟩
    | none =>
      have hopen : w.os.open_rdwr LOG
          = ((w.os.lowest_free : Int),
              ({ w.os with open_calls := w.os.open_calls ++ [LOG] } : Os).set_entry
                w.os.lowest_free (some { inode := i, offset := 0 })) := by
        unfold Os.open_rdwr
        rw [hname]
        rfl
      simp only [hopen]
      rw [if_neg (by omega)]
      refine ⟨_, { inode := i, offset := 0 }, rfl, ?_, rfl, rfl, rfl⟩
      simp only
      exact Os.entry_set_entry_same _ _ _
  · rw [if_neg hfd]
    obtain ⟨e, he, hi⟩ := hset hfd
    exact ⟨w, e, rfl, he, hi, rfl, rfl⟩

/-- With the log ready, `read_log` returns. With `file_size` the length of the log
narrowed to `int`, it returns -1 when `offset > file_size`, and otherwise the
bytes from `offset`, at most `size` and at most `file_size - offset`; it changes
no file and no name. -/
theorem read_log_of_ready (LOG : String) (w : World) (size offset i : Nat)
    (h : log_ready LOG w i) :
    ∃ w', read_log LOG w size offset
        = (.ok (if (offset : Int) > wrap_int32 ((w.os.inodes i).length : Int) then ((-1 : Int), [])
            else (min (size : Int) (wrap_int32 ((w.os.inodes i).length : Int) - (offset : Int)),
              ((w.os.inodes i).drop offset).take
                (min (size : Int)
                  (wrap_int32 ((w.os.inodes i).length : Int) - (offset : Int))).toNat)), w') ∧
      w'.os.inodes = w.os.inodes ∧ w'.os.names = w.os.names ∧
      log_ready LOG w' i := by
  obtain ⟨w1, e, hopen, he, hi, hnames, hinodes⟩ := open_log_of_ready LOG w i h
  have he' : w1.os.entry w1.dm.log_fd_ = some { inode := i, offset := e.offset } := by
    rw [he, ← hi]
  have hname1 : w1.os.names LOG = some (Node.regular i) := by rw [hnames]; exact h.1
  have hsize : get_file_size w1 LOG = wrap_int32 ((w.os.inodes i).length : Int) := by
    unfold get_file_size Os.stat
    rw [hname1, hinodes]
  have hle : wrap_int32 ((w.os.inodes i).length : Int) ≤ ((w.os.inodes i).length : Int) := by
    unfold wrap_int32
    omega
  have h0 := Os.entry_nonneg _ _ _ he
  have hready1 : log_ready LOG w1 i := by
    refine ⟨hname1, fun hc => ?_, fun _ => ⟨e, he, hi⟩⟩
    rw [hc] at h0
    omega
  unfold read_log
  rw [hopen]
  simp only [hsize]
  by_cases hpast : (offset : Int) > wrap_int32 ((w.os.inodes i).length : Int)
  · rw [if_pos hpast, if_pos hpast]
    exact ⟨w1, rfl, hinodes, hnames, hready1⟩
  · rw [if_neg hpast, if_neg hpast]
    obtain ⟨m, hm⟩ : ∃ m : Nat,
        min (size : Int) (wrap_int32 ((w.os.inodes i).length : Int) - (offset : Int)) = (m : Int) :=
      ⟨(min (size : Int) (wrap_int32 ((w.os.inodes i).length : Int) - (offset : Int))).toNat,
        by omega⟩
    have hmle : m ≤ (w.os.inodes i).length - offset := by omega
    rw [hm]
    by_cases hz : (m : Int) = 0
    · rw [if_pos hz, hz]
      refine ⟨w1, ?_, hinodes, hnames, hready1⟩
      rfl
    · rw [if_neg hz]
      simp only [Os.lseek_set_of_entry _ _ _ _ he']
      have he2 := Os.entry_set_entry_self w1.os w1.dm.log_fd_
        (some { inode := i, offset := offset }) h0
      simp only [Os.read_of_entry _ _ _ _ he2, Os.set_entry_inodes, Int.toNat_ofNat, hinodes]
      have hl : (((w.os.inodes i).drop offset).take m).length = m := by
        simp only [List.length_take, List.length_drop]
        omega
      rw [hl, if_pos rfl]
      refine ⟨_, rfl, hinodes, hnames, ?_⟩
      refine ⟨hname1, fun hc => ?_, fun _ => ⟨_, Os.entry_set_entry_self _ _ _ h0, rfl⟩⟩
      exfalso
      change w1.dm.log_fd_ = -1 at hc
      rw [hc] at h0
      omega

/-- With the log ready, a `write_log` that returns has appended its bytes to the log
and left the log ready. -/
theorem write_log_ok (LOG : String) (w w1 : World) (data : List Byte) (n i : Nat)
    (h : log_ready LOG w i) (hw : write_log LOG w data n = (.ok (), w1)) :
    w1.os.names = w.os.names ∧
    w1.os.inodes i = w.os.inodes i ++ data.take n ∧
    (∀ j, j ≠ i → w1.os.inodes j = w.os.inodes j) ∧
    log_ready LOG w1 i := by
  obtain ⟨w0, e, hopen, he, hi, hnames, hinodes⟩ := open_log_of_ready LOG w i h
  have he' : w0.os.entry w0.dm.log_fd_ = some { inode := i, offset := e.offset } := by
    rw [he, ← hi]
  have h0 := Os.entry_nonneg _ _ _ he
  have hname0 : w0.os.names LOG = some (Node.regular i) := by rw [hnames]; exact h.1
  have hne : w0.dm.log_fd_ ≠ -1 := by omega
  unfold write_log at hw
  rw [hopen] at hw
  simp only [Os.lseek_end_of_entry _ _ _ he'] at hw
  have he2 := Os.entry_set_entry_self w0.os w0.dm.log_fd_
    (some { inode := i, offset := (w0.os.inodes i).length }) h0
  split_ifs at hw with hbad
  · simp at hw
  · simp only [Prod.mk.injEq, true_and] at hw
    have hret : ((w0.os.set_entry w0.dm.log_fd_.toNat
        (some { inode := i, offset := (w0.os.inodes i).length })).write
          w0.dm.log_fd_ data n).1 = (n : Int) := by
      by_contra hc
      exact hbad hc
    rcases Os.write_full _ _ data n _ he2 hret with ⟨hn0, hsame⟩ | ⟨_, hino, hnm, hent, _⟩
    · rw [hsame] at hw
      subst hw
      subst hn0
      refine ⟨hnames, ?_, fun j _ => ?_, hname0, fun hc => absurd hc hne,
        fun _ => ⟨_, he2, rfl⟩⟩
      · simp only [Os.set_entry_inodes, List.take_zero, List.append_nil]
        rw [hinodes]
      · simp only [Os.set_entry_inodes]
        rw [hinodes]
    · subst hw
      simp only [Os.set_entry_inodes] at hino
      refine ⟨?_, ?_, fun j hj => ?_, ?_, fun hc => absurd hc hne, fun _ => ⟨_, hent, rfl⟩⟩
      · simp only
        rw [hnm]
        exact hnames
      · simp only
        rw [hino, Function.update_same, Os.write_at_end, hinodes]
      · simp only
        rw [hino, Function.update_noteq hj, hinodes]
      · simp only
        rw [hnm]
        exact hname0

/-- The first step of `read_log` and `write_log` leaves the room on the medium as it is. -/
theorem open_log_max_file_size (LOG : String) (w : World) :
    (open_log LOG w).2.os.max_file_size = w.os.max_file_size := by
  unfold open_log
  by_cases hfd : w.dm.log_fd_ = -1
  · rw [if_pos hfd]
    unfold open_file
    cases hq : w.dm.path2fd_ LOG with
    | some fd => rfl
    | none =>
      simp only
      unfold Os.open_rdwr
      rcases w.os.names LOG with _ | ⟨_ | _⟩ <;> simp only <;> split_ifs <;> rfl
  · rw [if_neg hfd]

/-- With the log ready and room on the medium for `n` more bytes, `write_log` returns. -/
theorem write_log_returns (LOG : String) (w : World) (data : List Byte) (n i : Nat)
    (h : log_ready LOG w i) (hroom : (w.os.inodes i).length + n ≤ w.os.max_file_size) :
    ∃ w1, write_log LOG w data n = (.ok (), w1) := by
  obtain ⟨w0, e, hopen, he, hi, hnames, hinodes⟩ := open_log_of_ready LOG w i h
  have hmax : w0.os.max_file_size = w.os.max_file_size := by
    have := open_log_max_file_size LOG w
    rw [hopen] at this
    exact this
  have he' : w0.os.entry w0.dm.log_fd_ = some { inode := i, offset := e.offset } := by
    rw [he, ← hi]
  have h0 := Os.entry_nonneg _ _ _ he
  unfold write_log
  rw [hopen]
  simp only [Os.lseek_end_of_entry _ _ _ he']
  have he2 := Os.entry_set_entry_self w0.os w0.dm.log_fd_
    (some { inode := i, offset := (w0.os.inodes i).length }) h0
  have hret : ((w0.os.set_entry w0.dm.log_fd_.toNat
      (some { inode := i, offset := (w0.os.inodes i).length })).write
        w0.dm.log_fd_ data n).1 = (n : Int) := by
    unfold Os.write
    rw [he2]
    simp only [Os.set_entry_max_file_size, hmax, hinodes]
    have hk : min n (w.os.max_file_size - (w.os.inodes i).length) = n := by omega
    rw [hk]
    by_cases hn : n = 0
    · rw [if_pos hn, hn]
      rfl
    · rw [if_neg hn, if_neg hn]
  rw [if_neg (by rw [hret]; exact fun hc => hc rfl)]
  exact ⟨_, rfl⟩

end DiskManager

/-! ## Claims -/

open RmFileHandle

/-- C1: in a well-formed record file, `insert_record b` for a buffer `b` of
`record_size` bytes returns a rid naming an existing page and one of its slots,
and `get_record` of that rid then returns a record of size `record_size` whose
bytes are `b`. -/
theorem get_record_insert_record (fh : RmFileHandle) (buf : List Byte)
    (hwf : fh.WellFormed) (hlen : buf.length = fh.file_hdr.record_size) :
    ∃ rid fh', fh.insert_record buf = (.ok rid, fh') ∧
      fh'.page_exists rid.page_no ∧ fh'.slot_exists rid.slot_no ∧
      (fh'.get_record rid).1 = .ok { data := buf, size := fh.file_hdr.record_size } := by
  obtain ⟨hn, hhead, hstep⟩ := hwf
  by_cases hinv : fh.file_hdr.first_free_page_no = INVALID_PAGE_ID
  · obtain ⟨fh1, hc, hhdr1, _, _, _, hbm1, _, _⟩ := create_page_handle_new fh hinv
    have hslot : fh1.slot_exists
        (Bitmap.first_bit false (fh1.pages fh.next_page_no).bitmap
          fh1.file_hdr.num_records_per_page) := by
      have := Bitmap.first_bit_found false (fh1.pages fh.next_page_no).bitmap
        fh1.file_hdr.num_records_per_page ⟨0, le_refl _, by rw [hhdr1]; exact hn, by rw [hbm1]⟩
      exact ⟨this.1, this.2.1⟩
    obtain ⟨fh', hi, hhdr, _, _, _, _, hslots, _⟩ :=
      insert_record_of_page fh fh1 _ buf hc hslot
    have hpage : fh'.page_exists (fh.next_page_no : Int) := by
      constructor
      · exact Int.ofNat_nonneg _
      · rw [hhdr, hhdr1]; simp only; omega
    refine ⟨_, fh', hi, hpage, ?_, ?_⟩
    · simpa [slot_exists, hhdr] using hslot
    · have hrs1 : fh1.file_hdr.record_size = fh.file_hdr.record_size := by rw [hhdr1]
      have hrs : fh'.file_hdr.record_size = fh.file_hdr.record_size := by rw [hhdr, hhdr1]
      rw [get_record_ok fh' _ hpage hslot.1]
      simp only [hslots, Function.update_same, RmRecord.ofSlot]
      rw [hrs, hrs1, take_memcpy _ _ _ hlen]
  · obtain ⟨hp, hfree⟩ := hhead.resolve_left hinv
    have hc := create_page_handle_head fh hinv hp
    obtain ⟨s, hs, hsb⟩ := hfree
    have hfound := Bitmap.first_bit_found false
      ((fh.bpm_fetch_page fh.file_hdr.first_free_page_no).pages
        fh.file_hdr.first_free_page_no).bitmap
      (fh.bpm_fetch_page fh.file_hdr.first_free_page_no).file_hdr.num_records_per_page
      ⟨s, hs.1, hs.2, by rw [(bpm_fetch_page_pages fh _ _).2.1]; exact hsb⟩
    obtain ⟨fh', hi, hhdr, _, _, _, _, hslots, _⟩ :=
      insert_record_of_page fh _ _ buf hc ⟨hfound.1, hfound.2.1⟩
    have hpage : fh'.page_exists fh.file_hdr.first_free_page_no := by
      refine ⟨hp.1, ?_⟩
      rw [hhdr]; exact hp.2
    refine ⟨_, fh', hi, hpage, ?_, ?_⟩
    · exact ⟨hfound.1, by rw [hhdr]; exact hfound.2.1⟩
    · have hrs : fh'.file_hdr.record_size = fh.file_hdr.record_size := by rw [hhdr]; rfl
      rw [get_record_ok fh' _ hpage hfound.1]
      simp only [hslots, Function.update_same, RmRecord.ofSlot]
      rw [hrs, bpm_fetch_page_file_hdr, take_memcpy _ _ _ hlen]

/-- Witness of C1 on `sample_file`: the record lands in the free slot 1 of page 1. -/
theorem get_record_insert_record_witness :
    ∃ rid fh', sample_file.insert_record [7, 9] = (.ok rid, fh') ∧
      (fh'.get_record rid).1 = .ok { data := [7, 9], size := 2 } := by
  obtain ⟨rid, fh', h1, _, _, h2⟩ := get_record_insert_record sample_file [7, 9]
    (by decide) (by decide)
  exact ⟨rid, fh', h1, h2⟩

/-- C2: `fetch_page_handle page_no` throws `PageNotExistError` exactly when
`page_no < 0` or `page_no ≥ num_pages`; `get_record`, the fixed-position
`insert_record`, `delete_record` and `update_record` throw it exactly when
`rid.page_no` is outside `[0, num_pages)`; and whenever one of them throws, the
state it leaves is the state before the call: file header, every page (header,
bitmap, slots, pin count) and the page counter. -/
theorem page_not_exist_iff_and_no_effect (fh : RmFileHandle) (page_no : Int) (rid : Rid)
    (buf : List Byte) :
    (((fh.fetch_page_handle page_no).page_not_exist page_no ↔ ¬ fh.page_exists page_no) ∧
      ((fh.get_record rid).page_not_exist rid.page_no ↔ ¬ fh.page_exists rid.page_no) ∧
      ((fh.insert_record_at rid buf).page_not_exist rid.page_no
        ↔ ¬ fh.page_exists rid.page_no) ∧
      ((fh.delete_record rid).page_not_exist rid.page_no ↔ ¬ fh.page_exists rid.page_no) ∧
      ((fh.update_record rid buf).page_not_exist rid.page_no
        ↔ ¬ fh.page_exists rid.page_no)) ∧
    (((fh.fetch_page_handle page_no).failed ↔ (fh.fetch_page_handle page_no).page_not_exist page_no)
      ∧ ((fh.get_record rid).failed ↔ (fh.get_record rid).page_not_exist rid.page_no)
      ∧ ((fh.insert_record_at rid buf).failed
          ↔ (fh.insert_record_at rid buf).page_not_exist rid.page_no)
      ∧ ((fh.delete_record rid).failed ↔ (fh.delete_record rid).page_not_exist rid.page_no)
      ∧ ((fh.update_record rid buf).failed
          ↔ (fh.update_record rid buf).page_not_exist rid.page_no)) ∧
    (((fh.fetch_page_handle page_no).failed → (fh.fetch_page_handle page_no).2 = fh) ∧
      ((fh.get_record rid).failed → (fh.get_record rid).2 = fh) ∧
      ((fh.insert_record_at rid buf).failed → (fh.insert_record_at rid buf).2 = fh) ∧
      ((fh.delete_record rid).failed → (fh.delete_record rid).2 = fh) ∧
      ((fh.update_record rid buf).failed → (fh.update_record rid buf).2 = fh)) := by
  have key : ∀ p : Int, (¬ fh.page_exists p → fh.fetch_page_handle p
        = (.error (RmError.PageNotExistError p), fh)) ∧
      (fh.page_exists p → fh.fetch_page_handle p = (.ok p, fh.bpm_fetch_page p)) := by
    intro p
    constructor
    · intro h
      exact fetch_page_handle_err fh p (by unfold page_exists at h; omega)
    · intro h
      exact fetch_page_handle_ok fh p h.1 h.2
  refine ⟨⟨?_, ?_, ?_, ?_, ?_⟩, ⟨?_, ?_, ?_, ?_, ?_⟩, ?_, ?_, ?_, ?_, ?_⟩
  all_goals first
    | (by_cases hb : fh.page_exists page_no
       · simp [Outcome.page_not_exist, Outcome.failed, (key page_no).2 hb, hb]
       · simp [Outcome.page_not_exist, Outcome.failed, (key page_no).1 hb, hb])
    | (by_cases hb : fh.page_exists rid.page_no
       · simp [Outcome.page_not_exist, Outcome.failed, get_record, insert_record_at,
           delete_record, update_record, (key rid.page_no).2 hb, hb]
       · simp [Outcome.page_not_exist, Outcome.failed, get_record, insert_record_at,
           delete_record, update_record, (key rid.page_no).1 hb, hb])

/-- C3: in a well-formed record file (so that the page `P` which
`create_page_handle` returns, the free-list head or else a newly created page,
has a clear bit among its first `num_records_per_page` bits), `insert_record`
returns `Rid (P, s)` with `s` the lowest-numbered clear bit of the bitmap of `P`;
afterwards bit `s` is set, slot `s` holds the data, `num_records` of `P` is one
larger, and no other occupancy bit or slot of `P` has changed. For a free-list
head the bitmap, slots and header that `create_page_handle` hands over are those
of the page before the call. -/
theorem insert_record_first_fit (fh : RmFileHandle) (buf : List Byte)
    (hwf : fh.WellFormed) (hlen : buf.length = fh.file_hdr.record_size) :
    ∃ P fh1 s fh',
      fh.create_page_handle = (.ok P, fh1) ∧
      P = (if fh.file_hdr.first_free_page_no = INVALID_PAGE_ID
            then (fh.next_page_no : Int) else fh.file_hdr.first_free_page_no) ∧
      (fh.file_hdr.first_free_page_no ≠ INVALID_PAGE_ID →
        (fh1.pages P).bitmap = (fh.pages P).bitmap ∧
        (fh1.pages P).slots = (fh.pages P).slots ∧
        (fh1.pages P).page_hdr = (fh.pages P).page_hdr) ∧
      fh1.has_free_slot P ∧
      fh.insert_record buf = (.ok ⟨P, s⟩, fh') ∧
      fh1.slot_exists s ∧ (fh1.pages P).bitmap s = false ∧
      (∀ j, 0 ≤ j → j < s → (fh1.pages P).bitmap j = true) ∧
      (fh'.pages P).bitmap s = true ∧ fh'.slot_bytes P s = buf ∧
      (fh'.pages P).page_hdr.num_records = (fh1.pages P).page_hdr.num_records + 1 ∧
      (∀ j, j ≠ s → (fh'.pages P).bitmap j = (fh1.pages P).bitmap j ∧
        (fh'.pages P).slots j = (fh1.pages P).slots j) := by
  obtain ⟨hn, hhead, _⟩ := hwf
  by_cases hinv : fh.file_hdr.first_free_page_no = INVALID_PAGE_ID
  · obtain ⟨fh1, hc, hhdr1, _, _, _, hbm1, _, _⟩ := create_page_handle_new fh hinv
    have hfree : fh1.has_free_slot (fh.next_page_no : Int) :=
      ⟨0, ⟨le_refl _, by rw [hhdr1]; exact hn⟩, by rw [hbm1]⟩
    obtain ⟨s, fh', h⟩ := insert_record_place fh fh1 _ buf hc hfree (by rw [hhdr1]; exact hlen)
    exact ⟨_, fh1, s, fh', hc, by rw [if_pos hinv], fun hne => absurd hinv hne, hfree, h⟩
  · obtain ⟨hp, s0, hs0, hsb0⟩ := hhead.resolve_left hinv
    have hc := create_page_handle_head fh hinv hp
    have hpg := bpm_fetch_page_pages fh fh.file_hdr.first_free_page_no
      fh.file_hdr.first_free_page_no
    have hfree : (fh.bpm_fetch_page fh.file_hdr.first_free_page_no).has_free_slot
        fh.file_hdr.first_free_page_no := ⟨s0, hs0, by rw [hpg.2.1]; exact hsb0⟩
    obtain ⟨s, fh', h⟩ := insert_record_place fh _ _ buf hc hfree hlen
    exact ⟨_, _, s, fh', hc, by rw [if_neg hinv], fun _ => ⟨hpg.2.1, hpg.2.2.1, hpg.1⟩, hfree, h⟩

/-- Witness of C3 on `sample_file`: the head of the free list is page 1, whose
lowest clear bit is bit 1. -/
theorem insert_record_first_fit_witness :
    sample_file.WellFormed ∧
    (∃ fh', sample_file.insert_record [7, 9] = (.ok ⟨1, 1⟩, fh')) := by
  have hwf : sample_file.WellFormed :=
    (by decide)
  refine ⟨hwf, ?_⟩
  obtain ⟨P, fh1, s, fh', _, _, _, _, hi, _⟩ :=
    insert_record_first_fit sample_file [7, 9] hwf (by decide)
  have hrid : (sample_file.insert_record [7, 9]).1 = .ok ⟨1, 1⟩ := by rfl
  rw [hi] at hrid
  simp only [Except.ok.injEq, Rid.mk.injEq] at hrid
  obtain ⟨hP, hs⟩ := hrid
  subst hP hs
  exact ⟨fh', hi⟩

/-- C4: from an empty record file (`num_pages = 0`, free list empty, page counter
at 0) with page capacity `m ≥ 1`, `k` successive `insert_record` calls with
`m < k ≤ 2m` leave `num_pages = 2`; call `i` (counting from 0) returns
`Rid (0, i)` when `i < m` and `Rid (1, i - m)` when `i ≥ m`. -/
theorem insert_all_two_pages (fh : RmFileHandle) (m k : Nat) (bufs : List (List Byte))
    (hm : 1 ≤ m) (hk1 : m < k) (hk2 : k ≤ 2 * m) (hlen : bufs.length = k)
    (hn : fh.file_hdr.num_records_per_page = (m : Int))
    (hpages : fh.file_hdr.num_pages = 0)
    (hff : fh.file_hdr.first_free_page_no = INVALID_PAGE_ID)
    (hctr : fh.next_page_no = 0) :
    (fh.insert_all bufs).2.file_hdr.num_pages = 2 ∧
    (fh.insert_all bufs).1.length = k ∧
    ∀ i, i < k →
      (fh.insert_all bufs).1[i]?
        = some (.ok (if i < m then ⟨0, (i : Int)⟩ else ⟨1, (i : Int) - (m : Int)⟩)) := by
  have h0 : fh.filled_to m (0, 0).1 (0, 0).2 :=
    ⟨hn, by rw [hctr, hpages]; rfl, by omega, fun _ => ⟨by rw [hpages]; rfl, hff⟩,
      fun h => absurd rfl h⟩
  obtain ⟨hfin, hres⟩ := insert_all_filled_to m bufs fh (0, 0) h0
  rw [hlen] at hfin hres
  have hlen' : (fh.insert_all bufs).1.length = k := by
    by_contra hne
    rcases Nat.lt_or_gt_of_ne hne with hlt | hgt
    · have := hres (fh.insert_all bufs).1.length hlt
      rw [List.getElem?_eq_none (le_refl _)] at this
      exact Option.noConfusion this
    · have hk : k < bufs.length + 1 := by omega
      clear hres hfin h0
      have hle : ∀ (l : List (List Byte)) (g : RmFileHandle),
          (g.insert_all l).1.length = l.length := by
        intro l
        induction l with
        | nil => intro g; rfl
        | cons b r ih => intro g; simp [insert_all, ih]
      rw [hle, hlen] at hgt
      exact lt_irrefl _ hgt
  refine ⟨?_, hlen', ?_⟩
  · obtain ⟨_, hp2, hp3⟩ := next_position_iterate m hm k
    obtain ⟨_, _, _, hz, hnz⟩ := hfin
    by_cases hk : k = 2 * m
    · rw [hp3 hk] at hz
      exact (hz rfl).1
    · rw [hp2 (by omega) (by omega)] at hnz
      have := (hnz (by simp; omega)).1
      simpa using this
  · intro i hi
    rw [hres i hi]
    obtain ⟨hp1, hp2, _⟩ := next_position_iterate m hm i
    by_cases him : i < m
    · rw [hp1 him, if_pos him]
      rfl
    · rw [hp2 (by omega) (by omega), if_neg him]
      simp only [Option.some.injEq, Except.ok.injEq, Rid.mk.injEq]
      exact ⟨rfl, by omega⟩

/-- Witness of C4: three inserts into an empty file with two records per page. -/
theorem insert_all_two_pages_witness :
    ((empty_file 2 2).insert_all [[1, 2], [3, 4], [5, 6]]).2.file_hdr.num_pages = 2 ∧
    ((empty_file 2 2).insert_all [[1, 2], [3, 4], [5, 6]]).1
      = [.ok ⟨0, 0⟩, .ok ⟨0, 1⟩, .ok ⟨1, 0⟩] := by
  obtain ⟨h1, _, _⟩ := insert_all_two_pages (empty_file 2 2) 2 3 [[1, 2], [3, 4], [5, 6]]
    (by decide) (by decide) (by decide) (by decide) (by decide) (by decide) (by decide)
    (by decide)
  exact ⟨h1, by rfl⟩

/-- C5: when an existing page `p` is full (`num_records = num_records_per_page`
and all its occupancy bits set), then for every slot `s` of it, after
`delete_record (p, s)` the next `insert_record` returns `Rid (p, s)`, whatever
the free-list head was before the delete, and after that insert
`first_free_page_no` has the value it had before the delete. -/
theorem insert_record_after_delete_on_full_page (fh : RmFileHandle) (p s : Int)
    (buf : List Byte) (hp : fh.page_exists p) (hs : fh.slot_exists s)
    (hfull : (fh.pages p).page_hdr.num_records = fh.file_hdr.num_records_per_page)
    (hbits : ∀ j, fh.slot_exists j → (fh.pages p).bitmap j = true) :
    ∃ fh1 fh2, fh.delete_record ⟨p, s⟩ = (.ok (), fh1) ∧
      fh1.insert_record buf = (.ok ⟨p, s⟩, fh2) ∧
      fh2.file_hdr.first_free_page_no = fh.file_hdr.first_free_page_no := by
  obtain ⟨fh1, hd, hhdr1, _, _, hph1, hbm1, _, _⟩ := delete_record_of_page fh ⟨p, s⟩ hp hs
  dsimp only at hhdr1 hph1 hbm1
  rw [hfull] at hhdr1 hph1
  simp only [if_true] at hhdr1 hph1
  have hff1 : fh1.file_hdr.first_free_page_no = p := by rw [hhdr1]
  have hn1 : fh1.file_hdr.num_records_per_page = fh.file_hdr.num_records_per_page := by
    rw [hhdr1]
  have hne : fh1.file_hdr.first_free_page_no ≠ INVALID_PAGE_ID := by
    rw [hff1]; have := hp.1; unfold INVALID_PAGE_ID; omega
  have hp1 : fh1.page_exists fh1.file_hdr.first_free_page_no := by
    rw [hff1]; exact ⟨hp.1, by rw [hhdr1]; exact hp.2⟩
  have hc := create_page_handle_head fh1 hne hp1
  rw [hff1] at hc
  have hpg := bpm_fetch_page_pages fh1 p p
  obtain ⟨fh2, hi, hhdr2, _⟩ := insert_record_of_page fh1 _ p buf hc
    (first_bit_slot_exists _ _
      ⟨s, ⟨hs.1, by rw [bpm_fetch_page_file_hdr, hn1]; exact hs.2⟩,
        by rw [hpg.2.1, hbm1, Function.update_same]⟩)
  rw [hpg.2.1, bpm_fetch_page_file_hdr, hbm1, hn1] at hi
  simp only [hpg.1, bpm_fetch_page_file_hdr, hph1, hn1] at hhdr2
  have hfb : Bitmap.first_bit false (Function.update (fh.pages p).bitmap s false)
      fh.file_hdr.num_records_per_page = s := by
    apply Bitmap.first_bit_eq _ _ _ _ hs.1 hs.2 (by rw [Function.update_same])
    intro j hj0 hjs
    rw [Function.update_noteq (by omega)]
    rw [hbits j ⟨hj0, by have := hs.2; omega⟩]
    decide
  rw [hfb] at hi
  refine ⟨fh1, fh2, hd, hi, ?_⟩
  rw [hhdr2]
  simp

/-- Witness of C5 on `sample_file`: page 0 is full; its slot 1 is freed and reused,
and the free-list head is page 1 again afterwards. -/
theorem insert_record_after_delete_on_full_page_witness :
    ∃ fh1 fh2, sample_file.delete_record ⟨0, 1⟩ = (.ok (), fh1) ∧
      fh1.insert_record [7, 9] = (.ok ⟨0, 1⟩, fh2) ∧
      fh2.file_hdr.first_free_page_no = 1 :=
  insert_record_after_delete_on_full_page sample_file 0 1 [7, 9] (by decide) (by decide)
    (by decide)
    (by
      intro j hj
      have hj' : 0 ≤ j ∧ j < 2 := hj
      have : j = 0 ∨ j = 1 := by omega
      rcases this with h | h <;> subst h <;> decide)

/-- C6: for a rid naming an existing page and one of its slots whose occupancy bit
is set, `delete_record` returns; the page's `num_records` is one less; bit
`rid.slot_no` is clear and every other occupancy bit of the page is as before;
every slot of the page holds the bytes it held; bitmap, `num_records` and slots
of every other page are as before; and `get_record rid` afterwards returns. -/
theorem delete_record_frame (fh : RmFileHandle) (rid : Rid)
    (hp : fh.page_exists rid.page_no) (hs : fh.slot_exists rid.slot_no)
    (_hbit : (fh.pages rid.page_no).bitmap rid.slot_no = true) :
    ∃ fh', fh.delete_record rid = (.ok (), fh') ∧
      (fh'.pages rid.page_no).page_hdr.num_records
        = (fh.pages rid.page_no).page_hdr.num_records - 1 ∧
      (fh'.pages rid.page_no).bitmap rid.slot_no = false ∧
      (∀ s, s ≠ rid.slot_no →
        (fh'.pages rid.page_no).bitmap s = (fh.pages rid.page_no).bitmap s) ∧
      (∀ s, (fh'.pages rid.page_no).slots s = (fh.pages rid.page_no).slots s) ∧
      (∀ p, p ≠ rid.page_no →
        (fh'.pages p).bitmap = (fh.pages p).bitmap ∧
        (fh'.pages p).page_hdr.num_records = (fh.pages p).page_hdr.num_records ∧
        (fh'.pages p).slots = (fh.pages p).slots) ∧
      (∃ rec fh'', fh'.get_record rid = (.ok rec, fh'')) := by
  have e1 := bitmap_reset_of_exists (fh.bpm_fetch_page rid.page_no) rid.page_no rid.slot_no
    (bit_exists_of_slot_exists fh _ _ hs rfl)
  refine ⟨_, by rw [delete_record, fetch_page_handle_ok fh _ hp.1 hp.2], ?_, ?_, ?_, ?_, ?_, ?_⟩
    <;> dsimp only <;> rw [e1]
  · split_ifs <;>
      simp [bpm_unpin_page, release_page_handle, set_page_hdr, set_bitmap, bpm_fetch_page]
  · split_ifs <;>
      simp [bpm_unpin_page, release_page_handle, set_page_hdr, set_bitmap, bpm_fetch_page,
        Bitmap.reset]
  · intro s hne
    split_ifs <;>
      simp [bpm_unpin_page, release_page_handle, set_page_hdr, set_bitmap, bpm_fetch_page,
        Bitmap.reset, Function.update_apply, hne]
  · intro s
    split_ifs <;>
      simp [bpm_unpin_page, release_page_handle, set_page_hdr, set_bitmap, bpm_fetch_page]
  · intro p hne
    split_ifs <;>
      simp [bpm_unpin_page, release_page_handle, set_page_hdr, set_bitmap, bpm_fetch_page, hne]
  · refine ⟨_, _, get_record_ok _ rid ⟨hp.1, ?_⟩ hs.1⟩
    split_ifs <;>
      simpa [bpm_unpin_page, release_page_handle, set_page_hdr, set_bitmap, bpm_fetch_page]
        using hp.2

/-- Witness of C6 on `sample_file`: deleting the record in slot 1 of the full page 0. -/
theorem delete_record_frame_witness :
    sample_file.page_exists 0 ∧ sample_file.slot_exists 1 ∧
    (sample_file.pages 0).bitmap 1 = true ∧
    (∃ fh', sample_file.delete_record ⟨0, 1⟩ = (.ok (), fh') ∧
      (fh'.pages 0).page_hdr.num_records = 1 ∧ (fh'.pages 0).bitmap 1 = false) := by
  refine ⟨by decide, by decide, by decide, ?_⟩
  obtain ⟨fh', h1, h2, h3, _⟩ :=
    delete_record_frame sample_file ⟨0, 1⟩ (by decide) (by decide) (by decide)
  exact ⟨fh', h1, by simpa [sample_file] using h2, h3⟩

/-- C7: for a rid naming an existing page and one of its slots and a buffer of
`record_size` bytes, `update_record` returns, the `record_size` bytes of the
targeted slot become the buffer, and nothing else of the file changes: the file
header, every page header (`num_records`, `next_free_page_no`), every occupancy
bit, every pin count, the page counter and every other slot are as before. -/
theorem update_record_frame (fh : RmFileHandle) (rid : Rid) (buf : List Byte)
    (hp : fh.page_exists rid.page_no) (hs : fh.slot_exists rid.slot_no)
    (hlen : buf.length = fh.file_hdr.record_size) :
    ∃ fh', fh.update_record rid buf = (.ok (), fh') ∧
      fh'.slot_bytes rid.page_no rid.slot_no = buf ∧
      fh'.file_hdr = fh.file_hdr ∧
      fh'.next_page_no = fh.next_page_no ∧
      (∀ p, (fh'.pages p).page_hdr = (fh.pages p).page_hdr ∧
        (fh'.pages p).bitmap = (fh.pages p).bitmap ∧
        (fh'.pages p).pin_count = (fh.pages p).pin_count) ∧
      (∀ p s, ¬ (p = rid.page_no ∧ s = rid.slot_no) →
        (fh'.pages p).slots s = (fh.pages p).slots s) := by
  have e1 := memcpy_slot_of_nonneg (fh.bpm_fetch_page rid.page_no) rid.page_no rid.slot_no buf
    hs.1
  refine ⟨_, by rw [update_record, fetch_page_handle_ok fh _ hp.1 hp.2], ?_, ?_, ?_, ?_, ?_⟩
    <;> dsimp only <;> rw [e1]
  · simp [slot_bytes, bpm_unpin_page, write_slot, bpm_fetch_page, memcpy, hlen.symm]
  · simp [bpm_unpin_page, write_slot, bpm_fetch_page]
  · simp [bpm_unpin_page, write_slot, bpm_fetch_page]
  · intro p
    by_cases hpq : p = rid.page_no <;>
      simp [bpm_unpin_page, write_slot, bpm_fetch_page, hpq]
  · intro p s hne
    by_cases hpq : p = rid.page_no
    · subst hpq
      have : s ≠ rid.slot_no := fun h => hne ⟨rfl, h⟩
      simp [bpm_unpin_page, write_slot, bpm_fetch_page, Function.update_apply, this]
    · simp [bpm_unpin_page, write_slot, bpm_fetch_page, hpq]

/-- Witness of C7 on `sample_file`: overwriting slot 1 of page 0. -/
theorem update_record_frame_witness :
    sample_file.page_exists 0 ∧ sample_file.slot_exists 1 ∧
    (∃ fh', sample_file.update_record ⟨0, 1⟩ [7, 9] = (.ok (), fh') ∧
      fh'.slot_bytes 0 1 = [7, 9] ∧ fh'.file_hdr = sample_file.file_hdr) := by
  refine ⟨by decide, by decide, ?_⟩
  obtain ⟨fh', h1, h2, h3, _⟩ :=
    update_record_frame sample_file ⟨0, 1⟩ [7, 9] (by decide) (by decide) (by decide)
  exact ⟨fh', h1, h2, h3⟩

/-- C8, as stated, fails. `sample_one_byte` is well formed, the head of its free list
is not full, and the bit of the rid `(0, 0)` is set. `delete_record (0, 8)`, a
rid other than `(0, 0)`, clears bit 8 of a bitmap of one byte: a bit of the
first byte of slot 0. `get_record (0, 0)` returned the byte 255 before and
returns another record after. -/
theorem rid_not_stable :
    sample_one_byte.WellFormed ∧
    (sample_one_byte.pages sample_one_byte.file_hdr.first_free_page_no).page_hdr.num_records
      < sample_one_byte.file_hdr.num_records_per_page ∧
    sample_one_byte.occupied ⟨0, 0⟩ ∧ (⟨0, 8⟩ : Rid) ≠ ⟨0, 0⟩ ∧
    (sample_one_byte.get_record ⟨0, 0⟩).1 = .ok { data := [255], size := 1 } ∧
    ((sample_one_byte.delete_record ⟨0, 8⟩).2.get_record ⟨0, 0⟩).1
      ≠ (sample_one_byte.get_record ⟨0, 0⟩).1 := by
  have h1 : (sample_one_byte.get_record ⟨0, 0⟩).1 = .ok { data := [255], size := 1 } := by rfl
  have h2 : ((sample_one_byte.delete_record ⟨0, 8⟩).2.get_record ⟨0, 0⟩).1
      = .ok { data := [127], size := 1 } := by rfl
  refine ⟨by decide, by decide, by decide, by decide, h1, ?_⟩
  rw [h1, h2]
  intro h
  exact absurd (Except.ok.inj h) (by decide)

/-- C8, amended: in a well-formed record file whose free-list head, if any, is a page
that is not full, let `r` be a rid whose occupancy bit is set. Then
`get_record r` returns, and it returns the same record after any one of: the
position-free `insert_record`, which moreover returns a rid other than `r`;
`delete_record r'` and `update_record r'` with `r' ≠ r`, for `r'` that names a
slot of a page, `0 ≤ slot_no < num_records_per_page`. -/
theorem rid_stable (fh : RmFileHandle) (r : Rid) (hwf : fh.WellFormed)
    (_hnonfull : fh.file_hdr.first_free_page_no ≠ INVALID_PAGE_ID →
      (fh.pages fh.file_hdr.first_free_page_no).page_hdr.num_records
        < fh.file_hdr.num_records_per_page)
    (hocc : fh.occupied r) :
    (∃ rec, (fh.get_record r).1 = .ok rec) ∧
    (∀ buf, (∃ rid, (fh.insert_record buf).1 = .ok rid ∧ rid ≠ r) ∧
      ((fh.insert_record buf).2.get_record r).1 = (fh.get_record r).1) ∧
    (∀ r', r' ≠ r → fh.slot_exists r'.slot_no →
      ((fh.delete_record r').2.get_record r).1 = (fh.get_record r).1) ∧
    (∀ r' buf, r' ≠ r → fh.slot_exists r'.slot_no →
      ((fh.update_record r' buf).2.get_record r).1 = (fh.get_record r).1) := by
  obtain ⟨hrp, hrs, hrb⟩ := hocc
  obtain ⟨hn, hhead, hstep⟩ := hwf
  refine ⟨⟨_, by rw [get_record_ok fh r hrp hrs.1]⟩, ?_, ?_, ?_⟩
  · intro buf
    by_cases hinv : fh.file_hdr.first_free_page_no = INVALID_PAGE_ID
    · obtain ⟨fh1, hc, hhdr1, _, hoth1, _, hbm1, _⟩ := create_page_handle_new fh hinv
      obtain ⟨fh', hi, hhdr, _, hoth, _⟩ := insert_record_of_page fh fh1 _ buf hc
        (first_bit_slot_exists fh1 _ ⟨0, ⟨le_refl _, by rw [hhdr1]; exact hn⟩, by rw [hbm1]⟩)
      have hne : r.page_no ≠ (fh.next_page_no : Int) := by
        have := hrp.2; omega
      rw [hi]
      refine ⟨⟨_, rfl, ?_⟩, ?_⟩
      · intro h
        exact hne (by rw [← h])
      · apply get_record_congr fh fh' r hrp hrs.1
        · exact ⟨hrp.1, by rw [hhdr, hhdr1]; have := hrp.2; simp only; omega⟩
        · rw [hhdr, hhdr1]
        · rw [hoth _ hne, hoth1 _ hne]
    · obtain ⟨hp, s0, hs0, hsb0⟩ := hhead.resolve_left hinv
      have hc := create_page_handle_head fh hinv hp
      have hpg := bpm_fetch_page_pages fh fh.file_hdr.first_free_page_no
      have hfound := Bitmap.first_bit_found false
        ((fh.bpm_fetch_page fh.file_hdr.first_free_page_no).pages
          fh.file_hdr.first_free_page_no).bitmap
        (fh.bpm_fetch_page fh.file_hdr.first_free_page_no).file_hdr.num_records_per_page
        ⟨s0, hs0.1, hs0.2, by rw [(hpg _).2.1]; exact hsb0⟩
      obtain ⟨fh', hi, hhdr, _, hoth, _, _, hslots, _⟩ :=
        insert_record_of_page fh _ _ buf hc ⟨hfound.1, hfound.2.1⟩
      rw [(hpg _).2.1] at hfound
      have hclear := hfound.2.2.1
      rw [hi]
      refine ⟨⟨_, rfl, ?_⟩, ?_⟩
      · intro h
        rw [← h] at hrb
        rw [(hpg _).2.1] at hrb
        simp only at hrb
        rw [hclear] at hrb
        exact Bool.noConfusion hrb
      · apply get_record_congr fh fh' r hrp hrs.1
        · exact ⟨hrp.1, by rw [hhdr]; exact hrp.2⟩
        · rw [hhdr]; rfl
        · by_cases hq : r.page_no = fh.file_hdr.first_free_page_no
          · have hsl : r.slot_no ≠ Bitmap.first_bit false
                ((fh.bpm_fetch_page fh.file_hdr.first_free_page_no).pages
                  fh.file_hdr.first_free_page_no).bitmap
                (fh.bpm_fetch_page fh.file_hdr.first_free_page_no).file_hdr.num_records_per_page
                := by
              intro h
              rw [(hpg _).2.1] at h
              rw [hq, h, hclear] at hrb
              exact Bool.noConfusion hrb
            rw [hq, hslots, Function.update_noteq hsl, (hpg _).2.2.1]
          · rw [hoth _ hq, (hpg _).2.2.1]
  · intro r' hne hs'
    by_cases hp' : fh.page_exists r'.page_no
    · obtain ⟨fh', hd, hhdr, _, hoth, _, _, hslots, _⟩ := delete_record_of_page fh r' hp' hs'
      rw [hd]
      apply get_record_congr fh fh' r hrp hrs.1
      · exact ⟨hrp.1, by rw [hhdr]; exact hrp.2⟩
      · rw [hhdr]
      · by_cases hq : r.page_no = r'.page_no
        · rw [hq, hslots]
        · rw [hoth _ hq]
    · have : fh.delete_record r' = (.error (RmError.PageNotExistError r'.page_no), fh) := by
        rw [delete_record, fetch_page_handle_err fh _ (by unfold page_exists at hp'; omega)]
      rw [this]
  · intro r' buf hne hs'
    by_cases hp' : fh.page_exists r'.page_no
    · obtain ⟨fh', hd, hhdr, _, hoth, _, _, hslots, _⟩ :=
        update_record_of_page fh r' buf hp' hs'.1
      rw [hd]
      apply get_record_congr fh fh' r hrp hrs.1
      · exact ⟨hrp.1, by rw [hhdr]; exact hrp.2⟩
      · rw [hhdr]
      · by_cases hq : r.page_no = r'.page_no
        · have hsl : r.slot_no ≠ r'.slot_no := by
            intro h
            apply hne
            cases r; cases r'
            simp only at hq h
            rw [hq, h]
          rw [hq, hslots, Function.update_noteq hsl]
        · rw [hoth _ hq]
    · have : fh.update_record r' buf
          = (.error (RmError.PageNotExistError r'.page_no), fh) := by
        rw [update_record, fetch_page_handle_err fh _ (by unfold page_exists at hp'; omega)]
      rw [this]

/-- Witness of C8 on `sample_file` for the record at slot 0 of page 0. -/
theorem rid_stable_witness :
    sample_file.occupied ⟨0, 0⟩ ∧
    ((sample_file.insert_record [7, 9]).2.get_record ⟨0, 0⟩).1
      = (sample_file.get_record ⟨0, 0⟩).1 ∧
    ((sample_file.delete_record ⟨0, 1⟩).2.get_record ⟨0, 0⟩).1
      = (sample_file.get_record ⟨0, 0⟩).1 ∧
    ((sample_file.update_record ⟨0, 1⟩ [7, 9]).2.get_record ⟨0, 0⟩).1
      = (sample_file.get_record ⟨0, 0⟩).1 := by
  have h := rid_stable sample_file ⟨0, 0⟩
    (by decide)
    (fun _ => by decide) (by decide)
  exact ⟨by decide, (h.2.1 [7, 9]).2, h.2.2.1 ⟨0, 1⟩ (by decide) (by decide),
    h.2.2.2 ⟨0, 1⟩ [7, 9] (by decide) (by decide)⟩

/-- C9: for a rid naming an existing page and one of its slots and a buffer of
`record_size` bytes, the fixed-position `insert_record` returns; the slot holds
the buffer, its occupancy bit is set, and the page's `num_records` is one larger,
whatever the bit was before; `first_free_page_no` becomes the page's
`next_free_page_no` if the incremented `num_records` equals
`num_records_per_page`, whatever the free-list head was, and is unchanged
otherwise; and `get_record rid` afterwards returns the buffer. -/
theorem insert_record_at_effect (fh : RmFileHandle) (rid : Rid) (buf : List Byte)
    (hp : fh.page_exists rid.page_no) (hs : fh.slot_exists rid.slot_no)
    (hlen : buf.length = fh.file_hdr.record_size) :
    ∃ fh', fh.insert_record_at rid buf = (.ok (), fh') ∧
      fh'.slot_bytes rid.page_no rid.slot_no = buf ∧
      (fh'.pages rid.page_no).bitmap rid.slot_no = true ∧
      (fh'.pages rid.page_no).page_hdr.num_records
        = (fh.pages rid.page_no).page_hdr.num_records + 1 ∧
      fh'.file_hdr.first_free_page_no
        = (if (fh.pages rid.page_no).page_hdr.num_records + 1
              = fh.file_hdr.num_records_per_page
            then (fh.pages rid.page_no).page_hdr.next_free_page_no
            else fh.file_hdr.first_free_page_no) ∧
      (fh'.get_record rid).1 = .ok { data := buf, size := fh.file_hdr.record_size } := by
  have hrec : ∀ fh' : RmFileHandle, fh'.page_exists rid.page_no →
      fh'.file_hdr.record_size = fh.file_hdr.record_size →
      fh'.slot_bytes rid.page_no rid.slot_no = buf →
      (fh'.get_record rid).1 = .ok { data := buf, size := fh.file_hdr.record_size } := by
    intro fh' hp' hrs hsb
    rw [get_record_ok fh' rid hp' hs.1, RmRecord.ofSlot, hrs]
    rw [slot_bytes, hrs] at hsb
    rw [hsb]
  have e1 := memcpy_slot_of_nonneg (fh.bpm_fetch_page rid.page_no) rid.page_no rid.slot_no buf
    hs.1
  have e2 := bitmap_set_of_exists
    ((fh.bpm_fetch_page rid.page_no).write_slot rid.page_no rid.slot_no buf) rid.page_no
    rid.slot_no (bit_exists_of_slot_exists fh _ _ hs rfl)
  refine ⟨_, by rw [insert_record_at, fetch_page_handle_ok fh _ hp.1 hp.2], ?_, ?_, ?_, ?_, ?_⟩
    <;> dsimp only <;> rw [e1, e2]
  · split_ifs <;>
      simp [slot_bytes, bpm_unpin_page, set_page_hdr, set_bitmap, write_slot, bpm_fetch_page,
        memcpy, hlen.symm]
  · split_ifs <;>
      simp [bpm_unpin_page, set_page_hdr, set_bitmap, write_slot, bpm_fetch_page, Bitmap.set]
  · split_ifs <;>
      simp [bpm_unpin_page, set_page_hdr, set_bitmap, write_slot, bpm_fetch_page]
  · split_ifs with h1 h2 h2 <;>
      simp [bpm_unpin_page, set_page_hdr, set_bitmap, write_slot, bpm_fetch_page] at h1 h2 ⊢
    · exact absurd h1 h2
    · exact absurd h2 h1
  · apply hrec
    · refine ⟨hp.1, ?_⟩
      split_ifs <;>
        simpa [bpm_unpin_page, set_page_hdr, set_bitmap, write_slot, bpm_fetch_page] using hp.2
    · split_ifs <;>
        simp [bpm_unpin_page, set_page_hdr, set_bitmap, write_slot, bpm_fetch_page]
    · split_ifs <;>
        simp [slot_bytes, bpm_unpin_page, set_page_hdr, set_bitmap, write_slot, bpm_fetch_page,
          memcpy, hlen.symm]

/-- Witness of C9 on `sample_file`: inserting at slot 1 of page 1 fills the page,
and the free-list head moves on to `INVALID_PAGE_ID`. -/
theorem insert_record_at_effect_witness :
    sample_file.page_exists 1 ∧ sample_file.slot_exists 1 ∧
    (∃ fh', sample_file.insert_record_at ⟨1, 1⟩ [7, 9] = (.ok (), fh') ∧
      fh'.slot_bytes 1 1 = [7, 9] ∧ fh'.file_hdr.first_free_page_no = INVALID_PAGE_ID) := by
  refine ⟨by decide, by decide, ?_⟩
  obtain ⟨fh', h1, h2, _, _, h5, _⟩ :=
    insert_record_at_effect sample_file ⟨1, 1⟩ [7, 9] (by decide) (by decide) (by decide)
  exact ⟨fh', h1, h2, by rw [h5]; decide⟩

/-- C10, as stated, fails: on a freshly constructed `DiskManager`, of 2147483649
calls `allocate_page 0` the one before the last returns 2147483647 and the last,
call number `j = 2147483649`, returns -2147483648: not `j - 1`, and less than the
page number returned before it. -/
theorem allocate_page_wraps :
    ∃ outs dm', DiskManager.run 1 DiskManager.fresh
        (List.replicate 2147483649 (DmCall.allocate_page 0)) = some (outs, dm') ∧
      outs[2147483647]? = some (some 2147483647) ∧
      outs[2147483648]? = some (some (-2147483648)) := by
  obtain ⟨outs, dm', hrun, _, _, hout⟩ := DiskManager.run_counts 1
    (List.replicate 2147483649 (DmCall.allocate_page 0)) DiskManager.fresh (fun _ => rfl)
    (by
      intro fd h
      have h0 := List.eq_of_mem_replicate h
      injection h0 with h0
      subst h0
      exact ⟨le_refl _, by norm_num⟩)
  have hcount : ∀ k : Nat, k ≤ 2147483649 →
      DiskManager.allocations 0 ((List.replicate 2147483649 (DmCall.allocate_page 0)).take k)
        = k := by
    intro k hk
    unfold DiskManager.allocations
    rw [List.take_replicate, List.count_replicate_self, Nat.min_eq_left hk]
  have hget : ∀ k : Nat, k < 2147483649 →
      (List.replicate 2147483649 (DmCall.allocate_page 0))[k]? = some (DmCall.allocate_page 0) := by
    intro k hk
    rw [List.getElem?_replicate, if_pos hk]
  refine ⟨outs, dm', hrun, ?_, ?_⟩
  · rw [hout 2147483647 0 (hget _ (by norm_num)), hcount _ (by norm_num)]
    have : wrap_int32 (DiskManager.fresh.fd2pageno_ 0 + ((2147483647 : Nat) : Int))
        = 2147483647 := by
      unfold wrap_int32 DiskManager.fresh
      norm_num
    rw [this]
  · rw [hout 2147483648 0 (hget _ (by norm_num)), hcount _ (by norm_num)]
    have : wrap_int32 (DiskManager.fresh.fd2pageno_ 0 + ((2147483648 : Nat) : Int))
        = -2147483648 := by
      unfold wrap_int32 DiskManager.fresh
      norm_num
    rw [this]

/-- C10, amended: on a freshly constructed `DiskManager`, a sequence of `allocate_page`
and `deallocate_page` calls whose descriptors lie in `[0, MAX_FD)` runs through.
Each `allocate_page fd` returns the number of `allocate_page fd` calls made
before it, wrapped around to 32 bits. So the `j`-th call for `fd` returns `j - 1`
as long as `j ≤ 2147483648`: up to there the page numbers of one descriptor
start at 0 and strictly increase, and they depend on no call for another
descriptor. At the end each counter equals the number of calls made for it,
wrapped around, and `deallocate_page` leaves the whole state as it was. -/
theorem allocate_page_sequence (MAX_FD : Int) (calls : List DmCall)
    (hfd : ∀ fd, DmCall.allocate_page fd ∈ calls → 0 ≤ fd ∧ fd < MAX_FD) :
    ∃ outs dm', DiskManager.run MAX_FD DiskManager.fresh calls = some (outs, dm') ∧
      outs.length = calls.length ∧
      (∀ i fd, calls[i]? = some (DmCall.allocate_page fd) →
        outs[i]? = some (some (wrap_int32 (DiskManager.allocations fd (calls.take i))))) ∧
      (∀ i fd, calls[i]? = some (DmCall.allocate_page fd) →
        DiskManager.allocations fd (calls.take i) < 2147483648 →
        outs[i]? = some (some ((DiskManager.allocations fd (calls.take i) : Nat) : Int))) ∧
      (∀ (i1 i2 : Nat) (fd : Int), i1 < i2 → calls[i1]? = some (DmCall.allocate_page fd) →
        calls[i2]? = some (DmCall.allocate_page fd) →
        DiskManager.allocations fd (calls.take i2) < 2147483648 →
        ∃ p1 p2 : Int, outs[i1]? = some (some p1) ∧ outs[i2]? = some (some p2) ∧ p1 < p2) ∧
      (∀ fd, dm'.fd2pageno_ fd = wrap_int32 (DiskManager.allocations fd calls)) ∧
      (∀ (dm : DiskManager) (page_id : Int), dm.deallocate_page page_id = dm) := by
  obtain ⟨outs, dm', hrun, hl, hctr, hout⟩ :=
    DiskManager.run_counts MAX_FD calls DiskManager.fresh (fun _ => rfl) hfd
  have hout' : ∀ i fd, calls[i]? = some (DmCall.allocate_page fd) →
      outs[i]? = some (some (wrap_int32 (DiskManager.allocations fd (calls.take i)))) := by
    intro i fd hi
    rw [hout i fd hi]
    simp [DiskManager.fresh]
  have hsmall : ∀ i fd, calls[i]? = some (DmCall.allocate_page fd) →
      DiskManager.allocations fd (calls.take i) < 2147483648 →
      outs[i]? = some (some ((DiskManager.allocations fd (calls.take i) : Nat) : Int)) := by
    intro i fd hi hlt
    rw [hout' i fd hi, wrap_int32_of_range _ (by omega) (by omega)]
  refine ⟨outs, dm', hrun, hl, hout', hsmall, ?_, ?_, fun _ _ => rfl⟩
  · intro i1 i2 fd hlt h1 h2 hb
    have hmono := DiskManager.allocations_take_lt fd calls i1 i2 hlt h1
    exact ⟨_, _, hsmall i1 fd h1 (by omega), hsmall i2 fd h2 hb, by omega⟩
  · intro fd
    rw [hctr fd]
    simp [DiskManager.fresh]

/-- Witness of C10: two descriptors interleaved with a `deallocate_page`. -/
theorem allocate_page_sequence_witness :
    ∃ dm', DiskManager.run 8 DiskManager.fresh
        [DmCall.allocate_page 3, DmCall.allocate_page 5, DmCall.deallocate_page 0,
          DmCall.allocate_page 3]
      = some ([some 0, some 0, none, some 1], dm') := by
  obtain ⟨outs, dm', hrun, _⟩ := allocate_page_sequence 8
    [DmCall.allocate_page 3, DmCall.allocate_page 5, DmCall.deallocate_page 0,
      DmCall.allocate_page 3]
    (by
      intro fd h
      simp only [List.mem_cons, DmCall.allocate_page.injEq, List.mem_singleton,
        List.not_mem_nil, or_false, false_or] at h
      rcases h with h | h | h | h
      · subst h; decide
      · subst h; decide
      · exact DmCall.noConfusion h
      · subst h; decide)
  refine ⟨dm', ?_⟩
  rw [hrun]
  have : (DiskManager.run 8 DiskManager.fresh
      [DmCall.allocate_page 3, DmCall.allocate_page 5, DmCall.deallocate_page 0,
        DmCall.allocate_page 3]).map Prod.fst = some [some 0, some 0, none, some 1] := by rfl
  rw [hrun] at this
  simpa using this

/-- C11: if `open_file path` returns the descriptor `fd`, a second `open_file path`
right after it returns `fd` again and leaves the whole state as the first call
left it: the open-file table is the same and the operating system has seen no
further call, in particular no `open`. -/
theorem open_file_idempotent (w w1 : World) (path : String) (fd : Int)
    (h : DiskManager.open_file w path = (.ok fd, w1)) :
    DiskManager.open_file w1 path = (.ok fd, w1) ∧
    (DiskManager.open_file w1 path).2.os.open_calls = w1.os.open_calls ∧
    (DiskManager.open_file w1 path).2.dm.path2fd_ = w1.dm.path2fd_ ∧
    (DiskManager.open_file w1 path).2.dm.fd2path_ = w1.dm.fd2path_ := by
  have key : DiskManager.open_file w1 path = (.ok fd, w1) := by
    unfold DiskManager.open_file at h
    cases hq : w.dm.path2fd_ path with
    | some fd0 =>
      rw [hq] at h
      simp only [Prod.mk.injEq, Except.ok.injEq] at h
      obtain ⟨hfd, hw⟩ := h
      subst hfd hw
      unfold DiskManager.open_file
      rw [hq]
    | none =>
      rw [hq] at h
      simp only at h
      split_ifs at h with hneg
      · simp at h
      · simp only [Prod.mk.injEq, Except.ok.injEq] at h
        obtain ⟨hfd, hw⟩ := h
        subst hw
        unfold DiskManager.open_file
        simp only [Function.update_same]
        rw [hfd]
  rw [key]
  exact ⟨rfl, rfl, rfl, rfl⟩

/-- Witness of C11 on `sample_world`: `t.db` is opened on descriptor 0, once. -/
theorem open_file_idempotent_witness :
    (DiskManager.open_file sample_world "t.db").1 = .ok 0 ∧
    (DiskManager.open_file (DiskManager.open_file sample_world "t.db").2 "t.db")
      = (.ok 0, (DiskManager.open_file sample_world "t.db").2) ∧
    (DiskManager.open_file (DiskManager.open_file sample_world "t.db").2 "t.db").2.os.open_calls
      = ["t.db"] := by
  have h0 : DiskManager.open_file sample_world "t.db"
      = (.ok 0, (DiskManager.open_file sample_world "t.db").2) := by rfl
  have h := open_file_idempotent sample_world _ "t.db" 0 h0
  refine ⟨by rfl, h.1, ?_⟩
  rw [h.2.1]
  rfl

/-- C12: `close_file fd` throws when `fd` is not tracked as open; `create_file path`
throws when `path` names an existing regular file; `destroy_file path` throws
when `path` is tracked as open or does not name an existing regular file. Each
of these throws leaves the whole state as it was: the open-file table is
unchanged and the operating system has created, truncated, closed and removed
nothing. -/
theorem lifecycle_misuse_rejected (w : World) (fd : Int) (path : String) :
    (w.dm.fd2path_ fd = none → ∃ e, DiskManager.close_file w fd = (.error e, w)) ∧
    (DiskManager.is_file w path = true →
      ∃ e, DiskManager.create_file w path = (.error e, w)) ∧
    ((w.dm.path2fd_ path).isSome = true ∨ DiskManager.is_file w path = false →
      ∃ e, DiskManager.destroy_file w path = (.error e, w)) := by
  refine ⟨?_, ?_, ?_⟩
  · intro h
    unfold DiskManager.close_file
    rw [h]
    exact ⟨_, rfl⟩
  · intro h
    unfold DiskManager.create_file
    rw [if_pos h]
    exact ⟨_, rfl⟩
  · intro h
    unfold DiskManager.destroy_file
    by_cases hf : DiskManager.is_file w path = true
    · have ht : (w.dm.path2fd_ path).isSome = true := by
        rcases h with h | h
        · exact h
        · rw [hf] at h; exact Bool.noConfusion h
      rw [if_neg (by simp [hf]), if_pos ht]
      exact ⟨_, rfl⟩
    · rw [if_pos (by simpa using hf)]
      exact ⟨_, rfl⟩

/-- Witness of C12 on `sample_world`: closing an untracked descriptor, creating the
existing `t.db`, and destroying `t.db` while it is open or the missing `x.db`. -/
theorem lifecycle_misuse_rejected_witness :
    (∃ e, DiskManager.close_file sample_world 7 = (.error e, sample_world)) ∧
    (∃ e, DiskManager.create_file sample_world "t.db" = (.error e, sample_world)) ∧
    (∃ e, DiskManager.destroy_file sample_world "x.db" = (.error e, sample_world)) ∧
    (∃ e, DiskManager.destroy_file (DiskManager.open_file sample_world "t.db").2 "t.db"
      = (.error e, (DiskManager.open_file sample_world "t.db").2)) :=
  ⟨(lifecycle_misuse_rejected sample_world 7 "t.db").1 (by rfl),
    (lifecycle_misuse_rejected sample_world 7 "t.db").2.1 (by rfl),
    (lifecycle_misuse_rejected sample_world 7 "x.db").2.2 (Or.inr (by rfl)),
    (lifecycle_misuse_rejected (DiskManager.open_file sample_world "t.db").2 7 "t.db").2.2
      (Or.inl (by rfl))⟩

/-- C13, as stated, fails. In `sample_stale_log` the log file exists and holds three
bytes; `write_log` of two bytes returns, yet the log still holds its three
bytes, and `read_log` of two bytes at offset 3 returns 0 and stores nothing.
And on a log of 2147483647 bytes a `write_log` of one byte returns, and
`read_log` of one byte at offset 2147483647 then returns -1. -/
theorem write_log_not_read_back :
    (sample_stale_log.os.names "db.log" = some (Node.regular 0) ∧
      sample_stale_log.os.inodes 0 = [1, 2, 3] ∧
      (DiskManager.write_log "db.log" sample_stale_log [7, 9] 2).1 = .ok () ∧
      (DiskManager.write_log "db.log" sample_stale_log [7, 9] 2).2.os.inodes 0 = [1, 2, 3] ∧
      (DiskManager.read_log "db.log"
        (DiskManager.write_log "db.log" sample_stale_log [7, 9] 2).2 2 3).1 = .ok (0, [])) ∧
    ((sample_long_log 2147483647).os.names "db.log" = some (Node.regular 0) ∧
      ((sample_long_log 2147483647).os.inodes 0).length = 2147483647 ∧
      ∃ w1, DiskManager.write_log "db.log" (sample_long_log 2147483647) [7] 1 = (.ok (), w1) ∧
        (DiskManager.read_log "db.log" w1 1 2147483647).1 = .ok (-1, [])) := by
  have hready : DiskManager.log_ready "db.log" (sample_long_log 2147483647) 0 :=
    ⟨by rfl, fun _ fd h => Option.noConfusion h, fun h => absurd rfl h⟩
  have hlen : ((sample_long_log 2147483647).os.inodes 0).length = 2147483647 := by
    show (List.replicate 2147483647 (0 : Byte)).length = 2147483647
    rw [List.length_replicate]
  refine ⟨⟨by rfl, by rfl, by rfl, by rfl, by rfl⟩, by rfl, hlen, ?_⟩
  obtain ⟨w1, hw⟩ := DiskManager.write_log_returns "db.log" (sample_long_log 2147483647) [7] 1 0
    hready (by rw [hlen]; show 2147483647 + 1 ≤ 4294967296; norm_num)
  obtain ⟨_, hino, _, hready1⟩ :=
    DiskManager.write_log_ok "db.log" (sample_long_log 2147483647) w1 [7] 1 0 hready hw
  obtain ⟨w2, hr, _⟩ := DiskManager.read_log_of_ready "db.log" w1 1 2147483647 0 hready1
  refine ⟨w1, hw, ?_⟩
  have hL1 : (w1.os.inodes 0).length = 2147483648 := by
    rw [hino, List.length_append, hlen]
    rfl
  have hwrap : wrap_int32 ((2147483648 : Nat) : Int) = -2147483648 := by
    unfold wrap_int32
    norm_num
  rw [hr, hL1, hwrap, if_pos (by norm_num)]

/-- C13, amended: let the log file exist, with the descriptor the manager uses for it
(`log_fd_` when it is set, and otherwise the descriptor tracked for the log
path, if one is) open on it, and let `data` have `n` bytes, the log with them
staying below 2147483648 bytes. If `write_log data n` returns, the log is its
old content followed by `data` (so its length grew by `n` and its old bytes are
unchanged), and `read_log` of `n` bytes at the old length then returns `n` and
stores exactly `data`. -/
theorem write_log_then_read_log (LOG_FILE_NAME : String) (w w1 : World) (data : List Byte)
    (n i : Nat) (hready : DiskManager.log_ready LOG_FILE_NAME w i)
    (hlen : data.length = n)
    (hsmall : (w.os.inodes i).length + n < 2147483648)
    (hw : DiskManager.write_log LOG_FILE_NAME w data n = (.ok (), w1)) :
    w1.os.names LOG_FILE_NAME = some (Node.regular i) ∧
    w1.os.inodes i = w.os.inodes i ++ data ∧
    (w1.os.inodes i).length = (w.os.inodes i).length + n ∧
    ∃ w2, DiskManager.read_log LOG_FILE_NAME w1 n (w.os.inodes i).length
      = (.ok ((n : Int), data), w2) := by
  obtain ⟨hnames, hino, _, hready1⟩ :=
    DiskManager.write_log_ok LOG_FILE_NAME w w1 data n i hready hw
  have htake : data.take n = data := by rw [← hlen]; exact List.take_length _
  rw [htake] at hino
  have hL1 : (w1.os.inodes i).length = (w.os.inodes i).length + n := by
    rw [hino, List.length_append, hlen]
  refine ⟨hready1.1, hino, hL1, ?_⟩
  obtain ⟨w2, hr, _⟩ :=
    DiskManager.read_log_of_ready LOG_FILE_NAME w1 n (w.os.inodes i).length i hready1
  refine ⟨w2, ?_⟩
  have hwrap : wrap_int32 ((w1.os.inodes i).length : Int) = ((w1.os.inodes i).length : Int) :=
    wrap_int32_of_range _ (by omega) (by omega)
  rw [hr, hwrap, if_neg (by omega)]
  have h1 : min (n : Int) (((w1.os.inodes i).length : Int) - ((w.os.inodes i).length : Int))
      = (n : Int) := by omega
  have h2 : ((w1.os.inodes i).drop (w.os.inodes i).length).take n = data := by
    rw [hino, List.drop_left, ← hlen, List.take_length]
  rw [h1, Int.toNat_ofNat, h2]

/-- Witness of C13 on `sample_world`: two bytes are appended to the three-byte log
and read back at offset 3. -/
theorem write_log_then_read_log_witness :
    ∃ w2, DiskManager.read_log "db.log"
        (DiskManager.write_log "db.log" sample_world [7, 9] 2).2 2 3
      = (.ok (2, [7, 9]), w2) :=
  (write_log_then_read_log "db.log" sample_world
    (DiskManager.write_log "db.log" sample_world [7, 9] 2).2 [7, 9] 2 0
    ⟨by rfl, fun _ fd h => Option.noConfusion h, fun h => absurd rfl h⟩ (by rfl) (by decide)
    (by rfl)).2.2.2

/-- C14, as stated, fails. In `sample_stale_log_written` the log file exists and holds
the bytes 1, 2, 3; `read_log` of two bytes at offset 0 returns 2 and stores the
bytes 9, 9 of another file. And on a log of 2147483648 bytes `read_log` of one
byte at offset 0 returns -1. -/
theorem read_log_not_clamped :
    (sample_stale_log_written.os.names "db.log" = some (Node.regular 0) ∧
      sample_stale_log_written.os.inodes 0 = [1, 2, 3] ∧
      (DiskManager.read_log "db.log" sample_stale_log_written 2 0).1 = .ok (2, [9, 9])) ∧
    ((sample_long_log 2147483648).os.names "db.log" = some (Node.regular 0) ∧
      ((sample_long_log 2147483648).os.inodes 0).length = 2147483648 ∧
      (DiskManager.read_log "db.log" (sample_long_log 2147483648) 1 0).1 = .ok (-1, [])) := by
  have hready : DiskManager.log_ready "db.log" (sample_long_log 2147483648) 0 :=
    ⟨by rfl, fun _ fd h => Option.noConfusion h, fun h => absurd rfl h⟩
  have hlen : ((sample_long_log 2147483648).os.inodes 0).length = 2147483648 := by
    show (List.replicate 2147483648 (0 : Byte)).length = 2147483648
    rw [List.length_replicate]
  refine ⟨⟨by rfl, by rfl, by rfl⟩, by rfl, hlen, ?_⟩
  obtain ⟨w2, hr, _⟩ :=
    DiskManager.read_log_of_ready "db.log" (sample_long_log 2147483648) 1 0 0 hready
  have hwrap : wrap_int32 ((2147483648 : Nat) : Int) = -2147483648 := by
    unfold wrap_int32
    norm_num
  rw [hr, hlen, hwrap, if_pos (by norm_num)]

/-- C14, amended: let the log file exist with length `L < 2147483648`, with the
descriptor the manager uses for it (`log_fd_` when it is set, and otherwise the
descriptor tracked for the log path, if one is) open on it. Then
`read_log size offset` returns -1 and stores nothing when `offset > L`, returns
0 when `offset = L`, and otherwise returns `min size (L - offset)` and stores the
log bytes from `offset` on, that many; it never stores a byte from beyond the
end of the log, and it changes neither the content of any file nor any name. -/
theorem read_log_clamps (LOG_FILE_NAME : String) (w : World) (size offset i : Nat)
    (hready : DiskManager.log_ready LOG_FILE_NAME w i)
    (hsmall : (w.os.inodes i).length < 2147483648) :
    ∃ ret bytes w', DiskManager.read_log LOG_FILE_NAME w size offset = (.ok (ret, bytes), w') ∧
      ((w.os.inodes i).length < offset → ret = -1 ∧ bytes = []) ∧
      (offset = (w.os.inodes i).length → ret = 0 ∧ bytes = []) ∧
      (offset < (w.os.inodes i).length →
        ret = ((min size ((w.os.inodes i).length - offset) : Nat) : Int) ∧
        bytes = ((w.os.inodes i).drop offset).take size ∧
        bytes.length = min size ((w.os.inodes i).length - offset)) ∧
      w'.os.inodes = w.os.inodes ∧ w'.os.names = w.os.names := by
  obtain ⟨w', hr, hino, hnames, _⟩ :=
    DiskManager.read_log_of_ready LOG_FILE_NAME w size offset i hready
  have hwrap : wrap_int32 ((w.os.inodes i).length : Int) = ((w.os.inodes i).length : Int) :=
    wrap_int32_of_range _ (by omega) (by omega)
  rw [hwrap] at hr
  by_cases hpast : (w.os.inodes i).length < offset
  · rw [if_pos (by omega)] at hr
    exact ⟨-1, [], w', hr, fun _ => ⟨rfl, rfl⟩, fun h => by omega, fun h => by omega,
      hino, hnames⟩
  · rw [if_neg (by omega)] at hr
    have hmin : min (size : Int) (((w.os.inodes i).length : Int) - (offset : Int))
        = ((min size ((w.os.inodes i).length - offset) : Nat) : Int) := by omega
    rw [hmin, Int.toNat_ofNat] at hr
    have htk : ((w.os.inodes i).drop offset).take (min size ((w.os.inodes i).length - offset))
        = ((w.os.inodes i).drop offset).take size := by
      have := Os.take_min_length ((w.os.inodes i).drop offset) size
      rwa [List.length_drop] at this
    rw [htk] at hr
    refine ⟨_, _, w', hr, fun h => absurd h hpast, ?_, ?_, hino, hnames⟩
    · intro h
      subst h
      simp
    · intro _
      exact ⟨rfl, rfl, by simp only [List.length_take, List.length_drop]⟩

/-- Witness of C14 on `sample_world`: reading five bytes at offset 1 of the
three-byte log returns its last two bytes. -/
theorem read_log_clamps_witness :
    ∃ w', DiskManager.read_log "db.log" sample_world 5 1 = (.ok (2, [2, 3]), w') := by
  obtain ⟨ret, bytes, w', hr, _, _, h3, _⟩ := read_log_clamps "db.log" sample_world 5 1 0
    ⟨by rfl, fun _ fd h => Option.noConfusion h, fun h => absurd rfl h⟩ (by decide)
  obtain ⟨hret, hbytes, _⟩ := h3 (by decide)
  subst hret hbytes
  exact ⟨w', hr⟩

/-- C15: in every world reached from a fresh disk manager by `open_file`,
`close_file` and `get_file_fd` calls: `get_file_fd path` returns the tracked
descriptor and changes nothing when `path` is tracked, and is `open_file path`,
whose first step is an `open`, when it is not; whenever `get_file_fd path`
returns `fd`, `get_file_name fd` then returns `path`; for every tracked `fd`,
`get_file_name fd` returns a path whose `get_file_fd` is `fd`; and
`get_file_name fd` throws `FileNotOpenError` exactly when `fd` is not tracked. -/
theorem open_file_table_bidirectional (w : World) (h : DiskManager.TableReachable w) :
    (∀ path fd, w.dm.path2fd_ path = some fd →
      DiskManager.get_file_fd w path = (.ok fd, w)) ∧
    (∀ path, w.dm.path2fd_ path = none →
      DiskManager.get_file_fd w path = DiskManager.open_file w path ∧
      (DiskManager.get_file_fd w path).2.os.open_calls = w.os.open_calls ++ [path]) ∧
    (∀ path fd w', DiskManager.get_file_fd w path = (.ok fd, w') →
      DiskManager.get_file_name w' fd = (.ok path, w')) ∧
    (∀ fd path, w.dm.fd2path_ fd = some path →
      DiskManager.get_file_name w fd = (.ok path, w) ∧
      DiskManager.get_file_fd w path = (.ok fd, w)) ∧
    (∀ fd, (DiskManager.get_file_name w fd).1 = .error (DmError.FileNotOpenError fd)
      ↔ w.dm.fd2path_ fd = none) := by
  have hinv := DiskManager.reachable_table_inv w h
  have htracked : ∀ path fd, w.dm.path2fd_ path = some fd →
      DiskManager.get_file_fd w path = (.ok fd, w) := by
    intro path fd hq
    unfold DiskManager.get_file_fd
    rw [hq]
  refine ⟨htracked, ?_, ?_, ?_, ?_⟩
  · intro path hq
    have he : DiskManager.get_file_fd w path = DiskManager.open_file w path := by
      unfold DiskManager.get_file_fd
      rw [hq]
    refine ⟨he, ?_⟩
    rw [he]
    unfold DiskManager.open_file
    rw [hq]
    simp only
    split_ifs <;>
    · unfold Os.open_rdwr
      rcases w.os.names path with _ | ⟨_ | _⟩ <;> rfl
  · intro path fd w' hg
    have hinv' := DiskManager.table_inv_get_file_fd w path hinv
    rw [hg] at hinv'
    have hq' : w'.dm.path2fd_ path = some fd := by
      unfold DiskManager.get_file_fd at hg
      cases hq : w.dm.path2fd_ path with
      | some fd0 =>
        rw [hq] at hg
        simp only [Prod.mk.injEq, Except.ok.injEq] at hg
        rw [← hg.2, hq, hg.1]
      | none =>
        rw [hq] at hg
        unfold DiskManager.open_file at hg
        rw [hq] at hg
        simp only at hg
        split_ifs at hg
        · simp at hg
        · simp only [Prod.mk.injEq, Except.ok.injEq] at hg
          rw [← hg.2, ← hg.1]
          simp
    unfold DiskManager.get_file_name
    rw [(hinv'.1 path fd).1 hq']
  · intro fd path hq
    constructor
    · unfold DiskManager.get_file_name
      rw [hq]
    · exact htracked path fd ((hinv.1 path fd).2 hq)
  · intro fd
    unfold DiskManager.get_file_name
    cases hq : w.dm.fd2path_ fd with
    | none => simp
    | some p => simp

/-- Witness of C15: after `open_file "t.db"` on `sample_world`, descriptor 0 and the
path `t.db` name each other. -/
theorem open_file_table_bidirectional_witness :
    DiskManager.get_file_name (DiskManager.open_file sample_world "t.db").2 0
      = (.ok "t.db", (DiskManager.open_file sample_world "t.db").2) ∧
    DiskManager.get_file_fd (DiskManager.open_file sample_world "t.db").2 "t.db"
      = (.ok 0, (DiskManager.open_file sample_world "t.db").2) :=
  (open_file_table_bidirectional (DiskManager.open_file sample_world "t.db").2
    (DiskManager.TableReachable.open_file sample_world "t.db"
      (DiskManager.TableReachable.init sample_os))).2.2.2.1 0 "t.db" (by rfl)

/-- C16, as stated, fails: on a file where I1 holds, the fixed-position
`insert_record` on an occupied slot, `delete_record` on an empty slot, the
position-free `insert_record` when the free-list head is a full page, and
`create_new_page_handle` when the page counter is ahead of `num_pages`, each
leave a page whose `num_records` differs from its number of set bits. So does
`update_record` at slot -1 of a page: with one-byte records the byte before the
slot array is the bitmap, and the zero byte written there clears the bit of the
one record the page holds. -/
theorem I1_not_preserved :
    sample_file.I1 ∧ ¬ (sample_file.insert_record_at ⟨0, 0⟩ [7, 9]).2.I1 ∧
    ¬ (sample_file.delete_record ⟨1, 1⟩).2.I1 ∧
    sample_full_head.I1 ∧ ¬ (sample_full_head.insert_record [7, 9]).2.I1 ∧
    sample_out_of_step.I1 ∧ ¬ (sample_out_of_step.create_new_page_handle).2.I1 ∧
    sample_one_byte.I1 ∧ ¬ (sample_one_byte.update_record ⟨0, -1⟩ [0]).2.I1 := by
  refine ⟨by decide, by decide, by decide, by decide, by decide, by decide, by decide,
    by decide, by decide⟩

/-- C16, amended: if I1 holds at every page of the file before a call, it holds at
every page of the file after `get_record`; after `update_record` when the slot
is one of the page; after the fixed-position `insert_record` when the slot is
one of the page and its bit is clear; after `delete_record` when the slot is one
of the page and its bit is set; after `create_new_page_handle` when the page
counter is in step with `num_pages`; after `create_page_handle` when the free
list has a head or the page counter is in step; and after the position-free
`insert_record` when the free-list head has a clear bit among its slots, or the
free list is empty, the page counter is in step and a page holds at least one
record. -/
theorem I1_preserved (fh : RmFileHandle) (rid : Rid) (buf : List Byte) (hI : fh.I1) :
    (fh.get_record rid).2.I1 ∧
    (fh.slot_exists rid.slot_no → (fh.update_record rid buf).2.I1) ∧
    (fh.slot_exists rid.slot_no → (fh.pages rid.page_no).bitmap rid.slot_no = false →
      (fh.insert_record_at rid buf).2.I1) ∧
    (fh.slot_exists rid.slot_no → (fh.pages rid.page_no).bitmap rid.slot_no = true →
      (fh.delete_record rid).2.I1) ∧
    ((fh.next_page_no : Int) = fh.file_hdr.num_pages → (fh.create_new_page_handle).2.I1) ∧
    ((fh.file_hdr.first_free_page_no = INVALID_PAGE_ID →
        (fh.next_page_no : Int) = fh.file_hdr.num_pages) →
      (fh.create_page_handle).2.I1) ∧
    ((fh.file_hdr.first_free_page_no = INVALID_PAGE_ID →
        (fh.next_page_no : Int) = fh.file_hdr.num_pages ∧
          1 ≤ fh.file_hdr.num_records_per_page) →
      (fh.file_hdr.first_free_page_no ≠ INVALID_PAGE_ID →
        fh.has_free_slot fh.file_hdr.first_free_page_no) →
      (fh.insert_record buf).2.I1) := by
  obtain ⟨hn1, hn2, hn3, hn4⟩ := num_pages_unchanged fh rid buf
  refine ⟨?_, ?_, ?_, ?_, ?_, ?_, ?_⟩
  · intro p h0 h1
    exact get_record_I1_at fh rid p (hI p h0 (by rw [hn1] at h1; exact h1))
  · intro hs p h0 h1
    exact update_record_I1_at fh rid buf p hs.1 (hI p h0 (by rw [hn4] at h1; exact h1))
  · intro hs hb p h0 h1
    exact insert_record_at_I1_at fh rid buf p hs hb (hI p h0 (by rw [hn2] at h1; exact h1))
  · intro hs hb p h0 h1
    exact delete_record_I1_at fh rid p hs hb (hI p h0 (by rw [hn3] at h1; exact h1))
  · intro hstep p h0 h1
    rw [(create_new_page_handle_spec fh).2.1] at h1
    simp only at h1
    apply create_new_page_handle_I1_at
    by_cases hp : p = (fh.next_page_no : Int)
    · exact Or.inl hp
    · exact Or.inr (hI p h0 (by omega))
  · intro hstep p h0 h1
    rw [create_page_handle_num_pages] at h1
    apply create_page_handle_I1_at
    by_cases hinv : fh.file_hdr.first_free_page_no = INVALID_PAGE_ID
    · rw [if_pos hinv] at h1
      have := hstep hinv
      by_cases hp : p = (fh.next_page_no : Int)
      · exact Or.inl ⟨hinv, hp⟩
      · exact Or.inr (hI p h0 (by omega))
    · rw [if_neg hinv] at h1
      exact Or.inr (hI p h0 h1)
  · intro hnew hhead p h0 h1
    rw [insert_record_num_pages] at h1
    apply insert_record_I1_at fh buf p (fun h => (hnew h).2) hhead
    by_cases hinv : fh.file_hdr.first_free_page_no = INVALID_PAGE_ID
    · rw [if_pos hinv] at h1
      have := (hnew hinv).1
      by_cases hp : p = (fh.next_page_no : Int)
      · exact Or.inl ⟨hinv, hp⟩
      · exact Or.inr (hI p h0 (by omega))
    · rw [if_neg hinv] at h1
      exact Or.inr (hI p h0 h1)

/-- Witness of C16 on `sample_file`: I1 holds, and still holds after a
position-free insert, after deleting the occupied slot 1 of page 0 and after
updating it. -/
theorem I1_preserved_witness :
    sample_file.I1 ∧ (sample_file.insert_record [7, 9]).2.I1 ∧
    (sample_file.delete_record ⟨0, 1⟩).2.I1 ∧
    (sample_file.update_record ⟨0, 1⟩ [7, 9]).2.I1 := by
  have h := I1_preserved sample_file ⟨0, 1⟩ [7, 9] (by decide)
  exact ⟨by decide, h.2.2.2.2.2.2 (fun h => absurd h (by decide)) (fun _ => by decide),
    h.2.2.2.1 (by decide) (by decide), h.2.1 (by decide)⟩

/-- C17, as stated, fails. `sample_nine_byte` is reached from an empty record file by
one insert; its page 0 holds one record of the two it has room for and heads
the free list. `update_record` at slot -1 of page 0 writes its nine bytes before
the slot array: eight on the page header, in which every byte of `num_records`
and of `next_free_page_no` becomes 1, and the last on the bitmap. Page 0 still
heads the free list, with `num_records = 16843009`, and it is the page that
`create_page_handle` returns. -/
theorem free_list_not_sound :
    (empty_file 9 2).is_empty_file ∧
    (sample_nine_byte.update_record ⟨0, -1⟩ [1, 1, 1, 1, 1, 1, 1, 1, 128]).2.file_hdr
      = sample_nine_byte.file_hdr ∧
    sample_nine_byte.file_hdr.first_free_page_no = 0 ∧
    sample_nine_byte.file_hdr.num_records_per_page = 2 ∧
    sample_nine_byte.page_exists 0 ∧
    (sample_nine_byte.pages 0).page_hdr.num_records = 1 ∧
    ((sample_nine_byte.update_record ⟨0, -1⟩ [1, 1, 1, 1, 1, 1, 1, 1, 128]).2.pages
      0).page_hdr.num_records = 16843009 ∧
    ((sample_nine_byte.update_record ⟨0, -1⟩
      [1, 1, 1, 1, 1, 1, 1, 1, 128]).2.create_page_handle).1 = .ok 0 := by
  refine ⟨by decide, by decide, by decide, by decide, by decide, by decide, by decide, by rfl⟩

/-- C17, amended (invariant I2): in every state reached from an empty record file by
position-free inserts, deletes of occupied rids, updates of a slot of the page
(`0 ≤ slot_no < num_records_per_page`) and reads, the chain
from `first_free_page_no` along `next_free_page_no` ends at `INVALID_PAGE_ID`,
visits no page twice, and every page on it is a page of the file with
`num_records < num_records_per_page`. Hence `create_page_handle` returns a page,
and never a page of the file that is full. -/
theorem free_list_sound (fh : RmFileHandle) (h : fh.Reachable) :
    (∃ l, fh.is_chain fh.file_hdr.first_free_page_no l ∧ l.Nodup ∧
      ∀ p ∈ l, fh.page_exists p ∧
        (fh.pages p).page_hdr.num_records < fh.file_hdr.num_records_per_page) ∧
    (∃ P fh1, fh.create_page_handle = (.ok P, fh1)) ∧
    (∀ p, fh.page_exists p →
      (fh.pages p).page_hdr.num_records = fh.file_hdr.num_records_per_page →
      (fh.create_page_handle).1 ≠ .ok p) := by
  obtain ⟨l, hinv⟩ := reachable_free_list_inv fh h
  obtain ⟨P, fh1, hc, hP⟩ := create_page_handle_of_inv fh l hinv
  obtain ⟨_, _, _, hch, hnd, hmem⟩ := hinv
  refine ⟨⟨l, hch, hnd, fun p hp => (hmem p).1 hp⟩, ⟨P, fh1, hc⟩, ?_⟩
  intro p hp hfull hret
  rw [hc] at hret
  simp only [Except.ok.injEq] at hret
  subst hret
  rcases hP with ⟨hnew, _⟩ | hin
  · have := hp.2
    omega
  · have := ((hmem _).1 hin).2
    omega

/-- Witness of C17 on `sample_run`: page 0 was filled and then lost a record, and it
is page 0 that `create_page_handle` returns. -/
theorem free_list_sound_witness :
    (empty_file 2 2).is_empty_file ∧
    (∃ fh1, sample_run.create_page_handle = (.ok 0, fh1)) := by
  refine ⟨by decide, ?_⟩
  obtain ⟨P, fh1, hc⟩ := (free_list_sound sample_run
    (RmFileHandle.Reachable.delete_record _ _
      (RmFileHandle.Reachable.insert_record _ _
        (RmFileHandle.Reachable.insert_record _ _
          (RmFileHandle.Reachable.init (empty_file 2 2) (by decide))))
      (by decide))).2.1
  have h0 : (sample_run.create_page_handle).1 = .ok 0 := by rfl
  rw [hc] at h0
  simp only [Except.ok.injEq] at h0
  subst h0
  exact ⟨fh1, hc⟩

/-- C18: each of `get_record`, the position-free `insert_record`, the
fixed-position `insert_record`, `delete_record` and `update_record` leaves the
pin count of every page as it was, whether it returns or throws. When it throws
it has made no buffer-pool call. When it returns it has made exactly two: one
pin of one page (`fetch_page`, or `new_page` for an insert that creates a page)
and then one `unpin_page` of that same page, with dirty flag `false` for
`get_record` and `true` for the four mutating operations. -/
theorem pin_discipline (fh : RmFileHandle) (rid : Rid) (buf : List Byte) :
    ((∀ q, ((fh.get_record rid).2.pages q).pin_count = (fh.pages q).pin_count) ∧
      ((fh.get_record rid).failed → (fh.get_record rid).2.bpm_calls = fh.bpm_calls) ∧
      (¬ (fh.get_record rid).failed →
        pinned_once fh.bpm_calls (fh.get_record rid).2.bpm_calls false)) ∧
    ((∀ q, ((fh.insert_record buf).2.pages q).pin_count = (fh.pages q).pin_count) ∧
      ((fh.insert_record buf).failed → (fh.insert_record buf).2.bpm_calls = fh.bpm_calls) ∧
      (¬ (fh.insert_record buf).failed →
        pinned_once fh.bpm_calls (fh.insert_record buf).2.bpm_calls true)) ∧
    ((∀ q, ((fh.insert_record_at rid buf).2.pages q).pin_count = (fh.pages q).pin_count) ∧
      ((fh.insert_record_at rid buf).failed →
        (fh.insert_record_at rid buf).2.bpm_calls = fh.bpm_calls) ∧
      (¬ (fh.insert_record_at rid buf).failed →
        pinned_once fh.bpm_calls (fh.insert_record_at rid buf).2.bpm_calls true)) ∧
    ((∀ q, ((fh.delete_record rid).2.pages q).pin_count = (fh.pages q).pin_count) ∧
      ((fh.delete_record rid).failed → (fh.delete_record rid).2.bpm_calls = fh.bpm_calls) ∧
      (¬ (fh.delete_record rid).failed →
        pinned_once fh.bpm_calls (fh.delete_record rid).2.bpm_calls true)) ∧
    ((∀ q, ((fh.update_record rid buf).2.pages q).pin_count = (fh.pages q).pin_count) ∧
      ((fh.update_record rid buf).failed →
        (fh.update_record rid buf).2.bpm_calls = fh.bpm_calls) ∧
      (¬ (fh.update_record rid buf).failed →
        pinned_once fh.bpm_calls (fh.update_record rid buf).2.bpm_calls true)) := by
  have hfetch : ∀ p : Int, fh.page_exists p ∨ ¬ fh.page_exists p := fun p => em _
  refine ⟨?_, ?_, ?_, ?_, ?_⟩
  · -- get_record
    rcases hfetch rid.page_no with hp | hp
    · rw [get_record_of_page fh rid hp]
      refine ⟨?_, ?_, ?_⟩
      · intro q
        by_cases hq : q = rid.page_no <;> simp [bpm_unpin_page, bpm_fetch_page, hq]
      · rintro ⟨e, he⟩; simp at he
      · intro _
        exact ⟨rid.page_no, Or.inl (by simp [bpm_unpin_page, bpm_fetch_page])⟩
    · have : fh.get_record rid = (.error (RmError.PageNotExistError rid.page_no), fh) := by
        rw [get_record, fetch_page_handle_err fh _ (by unfold page_exists at hp; omega)]
      rw [this]
      exact ⟨fun _ => rfl, fun _ => rfl, fun h => absurd ⟨_, rfl⟩ h⟩
  · -- insert_record
    by_cases hinv : fh.file_hdr.first_free_page_no = INVALID_PAGE_ID
    · obtain ⟨fh1, hc, _, _, hoth1, _, _, _, hpin1⟩ := create_page_handle_new fh hinv
      obtain ⟨s, fh', hi, _, hoth, hpin⟩ := insert_record_bookkeeping fh fh1 _ buf hc
      have hcalls := insert_record_calls fh fh1 _ buf hc
      have hcalls1 := create_page_handle_new_calls fh hinv
      rw [hc] at hcalls1
      simp only at hcalls1
      rw [hcalls1] at hcalls
      rw [hi] at hcalls ⊢
      refine ⟨?_, ?_, ?_⟩
      · intro q
        by_cases hq : q = (fh.next_page_no : Int)
        · subst hq
          simp only
          rw [hpin, hpin1]
          omega
        · simp only
          rw [hoth q hq, hoth1 q hq]
      · rintro ⟨e, he⟩
        simp at he
      · intro _
        exact ⟨(fh.next_page_no : Int), Or.inr (by simpa using hcalls)⟩
    · rcases hfetch fh.file_hdr.first_free_page_no with hp | hp
      · have hc := create_page_handle_head fh hinv hp
        refine ⟨?_, ?_, ?_⟩
        · intro q
          rw [insert_record, hc]
          dsimp only
          split_ifs <;>
            by_cases hq : q = fh.file_hdr.first_free_page_no <;>
            simp [bpm_unpin_page, set_page_hdr, set_bitmap, write_slot, bpm_fetch_page, hq]
        · rintro ⟨e, he⟩
          rw [insert_record, hc] at he
          simp at he
        · intro _
          refine ⟨fh.file_hdr.first_free_page_no, Or.inl ?_⟩
          rw [insert_record, hc]
          dsimp only
          split_ifs <;>
            simp [bpm_unpin_page, set_page_hdr, set_bitmap, write_slot, bpm_fetch_page]
      · have : fh.insert_record buf
            = (.error (RmError.PageNotExistError fh.file_hdr.first_free_page_no), fh) := by
          rw [insert_record, create_page_handle, if_neg hinv,
            fetch_page_handle_err fh _ (by unfold page_exists at hp; omega)]
        rw [this]
        exact ⟨fun _ => rfl, fun _ => rfl, fun h => absurd ⟨_, rfl⟩ h⟩
  · -- insert_record_at
    rcases hfetch rid.page_no with hp | hp
    · have hf := fetch_page_handle_ok fh _ hp.1 hp.2
      refine ⟨?_, ?_, ?_⟩
      · intro q
        rw [insert_record_at, hf]
        dsimp only
        split_ifs <;>
          by_cases hq : q = rid.page_no <;>
          simp [bpm_unpin_page, set_page_hdr, set_bitmap, write_slot, bpm_fetch_page, hq]
      · rintro ⟨e, he⟩
        rw [insert_record_at, hf] at he
        simp at he
      · intro _
        refine ⟨rid.page_no, Or.inl ?_⟩
        rw [insert_record_at, hf]
        dsimp only
        split_ifs <;>
          simp [bpm_unpin_page, set_page_hdr, set_bitmap, write_slot, bpm_fetch_page]
    · have : fh.insert_record_at rid buf
          = (.error (RmError.PageNotExistError rid.page_no), fh) := by
        rw [insert_record_at, fetch_page_handle_err fh _ (by unfold page_exists at hp; omega)]
      rw [this]
      exact ⟨fun _ => rfl, fun _ => rfl, fun h => absurd ⟨_, rfl⟩ h⟩
  · -- delete_record
    rcases hfetch rid.page_no with hp | hp
    · have hf := fetch_page_handle_ok fh _ hp.1 hp.2
      refine ⟨?_, ?_, ?_⟩
      · intro q
        rw [delete_record, hf]
        dsimp only
        split_ifs <;>
          by_cases hq : q = rid.page_no <;>
          simp [bpm_unpin_page, release_page_handle, set_page_hdr, set_bitmap, bpm_fetch_page,
            hq]
      · rintro ⟨e, he⟩
        rw [delete_record, hf] at he
        simp at he
      · intro _
        refine ⟨rid.page_no, Or.inl ?_⟩
        rw [delete_record, hf]
        dsimp only
        split_ifs <;>
          simp [bpm_unpin_page, release_page_handle, set_page_hdr, set_bitmap, bpm_fetch_page]
    · have : fh.delete_record rid = (.error (RmError.PageNotExistError rid.page_no), fh) := by
        rw [delete_record, fetch_page_handle_err fh _ (by unfold page_exists at hp; omega)]
      rw [this]
      exact ⟨fun _ => rfl, fun _ => rfl, fun h => absurd ⟨_, rfl⟩ h⟩
  · -- update_record
    rcases hfetch rid.page_no with hp | hp
    · have hf := fetch_page_handle_ok fh _ hp.1 hp.2
      refine ⟨?_, ?_, ?_⟩
      · intro q
        rw [update_record, hf]
        by_cases hq : q = rid.page_no <;>
          simp [bpm_unpin_page, write_slot, bpm_fetch_page, hq]
      · rintro ⟨e, he⟩
        rw [update_record, hf] at he
        simp at he
      · intro _
        refine ⟨rid.page_no, Or.inl ?_⟩
        rw [update_record, hf]
        simp [bpm_unpin_page, write_slot, bpm_fetch_page]
    · have : fh.update_record rid buf
          = (.error (RmError.PageNotExistError rid.page_no), fh) := by
        rw [update_record, fetch_page_handle_err fh _ (by unfold page_exists at hp; omega)]
      rw [this]
      exact ⟨fun _ => rfl, fun _ => rfl, fun h => absurd ⟨_, rfl⟩ h⟩

/-- C19: in every state reached from an empty record file by position-free inserts
and deletes of occupied rids (updates of a slot of the page and reads allowed as
well), the chain from
`first_free_page_no` holds every page of the file with
`num_records < num_records_per_page` exactly once, and no page has more than
`num_records_per_page` records. Hence `insert_record` adds a page (`num_pages`
grows by one) when every page of the file is full, and leaves `num_pages` as it
is otherwise. -/
theorem free_list_complete (fh : RmFileHandle) (buf : List Byte) (h : fh.Reachable) :
    (∃ l, fh.is_chain fh.file_hdr.first_free_page_no l ∧
      ∀ p, fh.page_exists p →
        (fh.pages p).page_hdr.num_records < fh.file_hdr.num_records_per_page →
        l.count p = 1) ∧
    (∀ p, fh.page_exists p →
      (fh.pages p).page_hdr.num_records ≤ fh.file_hdr.num_records_per_page) ∧
    ((∀ p, fh.page_exists p →
        (fh.pages p).page_hdr.num_records = fh.file_hdr.num_records_per_page) →
      (fh.insert_record buf).2.file_hdr.num_pages = fh.file_hdr.num_pages + 1) ∧
    ((¬ ∀ p, fh.page_exists p →
        (fh.pages p).page_hdr.num_records = fh.file_hdr.num_records_per_page) →
      (fh.insert_record buf).2.file_hdr.num_pages = fh.file_hdr.num_pages) := by
  obtain ⟨l, hn, hstep, hI, hch, hnd, hmem⟩ := reachable_free_list_inv fh h
  refine ⟨⟨l, hch, ?_⟩, fun p hp => num_records_le fh p hI hp hn, ?_, ?_⟩
  · intro p hp hlt
    exact List.count_eq_one_of_mem hnd ((hmem p).2 ⟨hp, hlt⟩)
  · intro hall
    rw [insert_record_num_pages]
    by_cases hinv : fh.file_hdr.first_free_page_no = INVALID_PAGE_ID
    · rw [if_pos hinv]
    · exfalso
      obtain ⟨l0, hl, _⟩ := is_chain_valid fh _ l hinv hch
      have hin : fh.file_hdr.first_free_page_no ∈ l := by
        rw [hl]; exact List.mem_cons_self _ _
      obtain ⟨hp, hlt⟩ := (hmem _).1 hin
      have := hall _ hp
      omega
  · intro hnot
    rw [insert_record_num_pages]
    by_cases hinv : fh.file_hdr.first_free_page_no = INVALID_PAGE_ID
    · exfalso
      apply hnot
      intro p hp
      rw [hinv] at hch
      have hl := is_chain_invalid fh l hch
      subst hl
      have hle := num_records_le fh p hI hp hn
      by_contra hne
      exact List.not_mem_nil p ((hmem p).2 ⟨hp, by omega⟩)
    · rw [if_neg hinv]

/-- Witness of C19 on `sample_run`: page 0 has a free slot, so the next insert adds
no page. -/
theorem free_list_complete_witness :
    sample_run.file_hdr.num_pages = 1 ∧
    (sample_run.insert_record [5, 6]).2.file_hdr.num_pages = 1 := by
  have h := (free_list_complete sample_run [5, 6]
    (RmFileHandle.Reachable.delete_record _ _
      (RmFileHandle.Reachable.insert_record _ _
        (RmFileHandle.Reachable.insert_record _ _
          (RmFileHandle.Reachable.init (empty_file 2 2) (by decide))))
      (by decide))).2.2.2
    (fun hall => absurd (hall 0 (by decide)) (by decide))
  exact ⟨by decide, h⟩

/-- C20: if `write_page fd page_no data n` returns, for `data` of `n` bytes, then
`fd` is an open file, `read_page fd page_no n` right after it returns `data`,
the file holds `data` at byte offset `page_no * 4096`, every byte the file had
outside `[page_no * 4096, page_no * 4096 + n)` is unchanged, and no other file,
no name and nothing of the disk manager has changed. And on any open file,
`read_page` throws when fewer than `n` bytes lie between offset
`page_no * 4096` and the end of the file. -/
theorem page_round_trip (w w1 : World) (fd : Int) (page_no : Nat) (data : List Byte) (n : Nat)
    (hlen : data.length = n)
    (hw : DiskManager.write_page w fd page_no data n = (.ok (), w1)) :
    (∃ e, w.os.entry fd = some e ∧
      (∃ w2, DiskManager.read_page w1 fd page_no n = (.ok data, w2)) ∧
      ((w1.os.inodes e.inode).drop (page_no * 4096)).take n = data ∧
      (∀ k, k < (w.os.inodes e.inode).length →
        (k < page_no * 4096 ∨ page_no * 4096 + n ≤ k) →
        (w1.os.inodes e.inode)[k]? = (w.os.inodes e.inode)[k]?) ∧
      (∀ j, j ≠ e.inode → w1.os.inodes j = w.os.inodes j) ∧
      w1.os.names = w.os.names ∧ w1.dm = w.dm) ∧
    (∀ (w0 : World) (e0 : OpenFile), w0.os.entry fd = some e0 →
      (w0.os.inodes e0.inode).length - page_no * 4096 < n →
      ∃ err w', DiskManager.read_page w0 fd page_no n = (.error err, w')) := by
  constructor
  · obtain ⟨e, he, hdm, hnames, ⟨e1, he1, hi1⟩, hcases⟩ :=
      DiskManager.write_page_ok w w1 fd page_no data n hw
    have htake : data.take n = data := by rw [← hlen]; exact List.take_length _
    have hplaced : ((w1.os.inodes e.inode).drop (page_no * 4096)).take n = data := by
      rcases hcases with ⟨hn0, _⟩ | ⟨_, hino⟩
      · subst hn0
        rw [List.take_zero]
        exact (List.length_eq_zero.1 hlen).symm
      · rw [hino, Function.update_same, htake]
        have hdt := Os.write_at_drop_take (w.os.inodes e.inode) (page_no * 4096) data
        rw [hlen] at hdt
        exact hdt
    refine ⟨e, he, ?_, hplaced, ?_, ?_, hnames, hdm⟩
    · have hr := (DiskManager.read_page_of_entry w1 fd page_no n e1 he1).1
      rw [hi1, hplaced] at hr
      exact hr hlen
    · intro k hk hout
      rcases hcases with ⟨_, hino⟩ | ⟨_, hino⟩
      · rw [hino]
      · rw [hino, Function.update_same, htake]
        exact Os.write_at_outside _ _ _ k hk (by rw [hlen]; omega)
    · intro j hj
      rcases hcases with ⟨_, hino⟩ | ⟨_, hino⟩
      · rw [hino]
      · rw [hino, Function.update_noteq hj]
  · intro w0 e0 he0 hshort
    apply (DiskManager.read_page_of_entry w0 fd page_no n e0 he0).2
    simp only [List.length_take, List.length_drop]
    omega

/-- Witness of C20 on `sample_world`: two bytes written to page 0 of the opened
`t.db` are read back. -/
theorem page_round_trip_witness :
    ∃ w2, DiskManager.read_page
        (DiskManager.write_page (DiskManager.open_file sample_world "t.db").2 0 0 [7, 9] 2).2
        0 0 2
      = (.ok [7, 9], w2) := by
  obtain ⟨⟨e, _, hr, _⟩, _⟩ := page_round_trip (DiskManager.open_file sample_world "t.db").2
    (DiskManager.write_page (DiskManager.open_file sample_world "t.db").2 0 0 [7, 9] 2).2
    0 0 [7, 9] 2 (by rfl) (by rfl)
  exact hr

end Rmdb
